import Mathlib

/-!
# FBOSS agent: config applier, state tree and stat updater

A shallow embedding of `fboss/agent/LoadBalancerConfigApplier.cpp`, of
`AclMap::modify` in `fboss/agent/state/AclMap.cpp`, of the refresh functions
and the lane rate table of `fboss/agent/hw/bcm/BcmStatUpdater.cpp`, of
`checkCmdStatus` in `fboss/platform/helpers/firmwareUpgradeHelper.cpp`, of the
waiting functions of `fboss/agent/hw/test/dataplane_tests/HwTestUtils.cpp`, of
`cleanPortConfig` in `fboss/agent/hw/sai/hw_test/SaiPortUtils.cpp` and of the
conversions of the adapter host key of a next hop group in
`fboss/agent/hw/sai/store/SaiObject.cpp`.

Shared pointers are addresses into an explicit object store, so that the
difference between *the same instance* and *an equal value* is visible:
`std::make_shared` and `clone` append a new object to the store and return its
address; the one function that changes an object in place is `resetAcls`, on an
unpublished root.
Objects are not reclaimed: a candidate whose last pointer is dropped stays in
the store, where nothing points at it any more.
-/

namespace Fboss

/-! ## Data model -/

/-- The Thrift enum `cfg::LoadBalancerID`, by its integer code. -/
abbrev LoadBalancerID := Nat

/-- An address in the object store: the identity of a shared pointer. -/
abbrev Addr := Nat

/-- A `folly::MacAddress`, as the number its six bytes spell. -/
abbrev MacAddress := Nat

/-- The Thrift struct `cfg::Fields`: four `set`s of enum codes, each given by
its iteration sequence. -/
structure CfgFields where
  ipv4Fields : List Nat
  ipv6Fields : List Nat
  transportFields : List Nat
  mplsFields : List Nat
  deriving DecidableEq, Repr

/-- The Thrift struct `cfg::LoadBalancer`, one record of the desired batch.
`seed` is an optional signed 32-bit field. -/
structure CfgLoadBalancer where
  id : LoadBalancerID
  fieldSelection : CfgFields
  algorithm : Nat
  seed : Option Int
  deriving DecidableEq, Repr

/-- The state node `LoadBalancer`: its ID, algorithm, unsigned 32-bit seed and
the four `boost::container::flat_set`s of selected fields (ascending, without
repetition). -/
structure LoadBalancer where
  id : LoadBalancerID
  algorithm : Nat
  seed : Nat
  v4Fields : List Nat
  v6Fields : List Nat
  transportFields : List Nat
  mplsFields : List Nat
  deriving DecidableEq, Repr

/-- The `NodeContainer` of a `LoadBalancerMap`: a
`boost::container::flat_map<LoadBalancerID, std::shared_ptr<LoadBalancer>>`,
the vector of its entries in ascending key order. -/
abbrev NodeContainer := List (LoadBalancerID × Addr)

/-- A `LoadBalancerMap` object: its entries and the `published` flag every
node carries. -/
structure LoadBalancerMap where
  nodes : NodeContainer
  published : Bool
  deriving DecidableEq, Repr

/-- The object store: the `LoadBalancer` objects and the `LoadBalancerMap`
objects that exist, each addressed by its position. -/
structure Store where
  loadBalancers : List LoadBalancer
  loadBalancerMaps : List LoadBalancerMap
  deriving DecidableEq, Repr

/-- The `Platform` collaborator, as far as the parser reads it. -/
structure Platform where
  localMac : MacAddress
  deriving DecidableEq, Repr

/-- How a call can end other than by returning. -/
inductive Fault where
  /-- An `FbossError` was thrown, with the given message. -/
  | fbossError (msg : String)
  /-- A `CHECK` failed: the process aborts. -/
  | checkFailed
  /-- A pointer that addresses no object of the store was dereferenced. -/
  | badPointer
  deriving DecidableEq, Repr

deriving instance DecidableEq for Except

/-! ## Flat containers -/

namespace FlatSet

/-- The member function `flat_set::insert(value)`: the set with `x` put at its
place in the ascending sequence, and whether it was inserted; a set that holds
`x` already is returned as it is. -/
def insert (x : Nat) : List Nat → List Nat × Bool
  | [] => ([x], true)
  | y :: ys =>
    if x < y then (x :: y :: ys, true)
    else if x = y then (y :: ys, false)
    else ((insert x ys).1.cons y, (insert x ys).2)

/-- The range constructor `flat_set(first, last)`: every element of the range
inserted in turn. -/
def ofRange (xs : List Nat) : List Nat :=
  xs.foldl (fun acc x => (insert x acc).1) []

end FlatSet

namespace FlatMap

/-- The member function `flat_map::emplace(pair)`: the map with the entry put
at its place in ascending key order, and whether it was inserted; a map that
has the key already is returned as it is. -/
def emplace (k : LoadBalancerID) (v : Addr) : NodeContainer → NodeContainer × Bool
  | [] => ([(k, v)], true)
  | e :: es =>
    if k < e.1 then ((k, v) :: e :: es, true)
    else if k = e.1 then (e :: es, false)
    else ((emplace k v es).1.cons e, (emplace k v es).2)

/-- The member function `flat_map::find(key)`: the value stored under the key,
if any. -/
def find (k : LoadBalancerID) : NodeContainer → Option Addr
  | [] => none
  | e :: es => if e.1 = k then some e.2 else find k es

end FlatMap

/-! ## Collaborators whose source is not part of this development -/

/-- Modelled from the spec: `LoadBalancer::operator==`, defined in
`state/LoadBalancer.cpp` (not among the sources); it compares two nodes field
by field (deep equality of ID, seed, algorithm and the four field sets) and
never looks at the addresses of the objects. -/
def LoadBalancer.equals (a b : LoadBalancer) : Bool :=
  a.id == b.id && a.seed == b.seed && a.algorithm == b.algorithm &&
    a.v4Fields == b.v4Fields && a.v6Fields == b.v6Fields &&
    a.transportFields == b.transportFields && a.mplsFields == b.mplsFields

/-- Modelled from the spec: `LoadBalancerMap::getLoadBalancerIf(id)` (the
`getIf` of section 4.2): the node stored under the key, or `nullptr`. -/
def LoadBalancerMap.getLoadBalancerIf (m : LoadBalancerMap) (id : LoadBalancerID) :
    Option Addr :=
  FlatMap.find id m.nodes

/-- Modelled from the spec: `LoadBalancerMap::size()`, the number of entries. -/
def LoadBalancerMap.size (m : LoadBalancerMap) : Nat :=
  m.nodes.length

/-- Modelled from the spec: `LoadBalancerMap::clone(contents)` (section 4.2):
a new, unpublished map object with the given contents; the node instances are
shared, the original map object is left alone. Returns the new map's address. -/
def Store.cloneMap (s : Store) (contents : NodeContainer) : Addr × Store :=
  (s.loadBalancerMaps.length,
    { s with loadBalancerMaps := s.loadBalancerMaps ++ [{ nodes := contents, published := false }] })

/-- The expression `std::make_shared<LoadBalancer>(...)`: a new object with
an address no object had before. -/
def Store.makeShared (s : Store) (lb : LoadBalancer) : Addr × Store :=
  (s.loadBalancers.length, { s with loadBalancers := s.loadBalancers ++ [lb] })

/-- Dereference of a `std::shared_ptr<LoadBalancer>`. -/
def Store.loadBalancer (s : Store) (a : Addr) : Except Fault LoadBalancer :=
  match s.loadBalancers[a]? with
  | some lb => .ok lb
  | none => .error .badPointer

/-- Dereference of a `std::shared_ptr<LoadBalancerMap>`. -/
def Store.loadBalancerMap (s : Store) (a : Addr) : Except Fault LoadBalancerMap :=
  match s.loadBalancerMaps[a]? with
  | some m => .ok m
  | none => .error .badPointer

/-! ## `LoadBalancerConfigParser` -/

namespace LoadBalancerConfigParser

/-- The function `LoadBalancerConfigParser::parseLoadBalancerID`. -/
def parseLoadBalancerID (loadBalancerConfig : CfgLoadBalancer) : LoadBalancerID :=
  loadBalancerConfig.id

/-- The function `LoadBalancerConfigParser::parseFields`: the four flat sets
built from the ranges of the four configured sets. -/
def parseFields (loadBalancer : CfgLoadBalancer) :
    List Nat × List Nat × List Nat × List Nat :=
  (FlatSet.ofRange loadBalancer.fieldSelection.ipv4Fields,
   FlatSet.ofRange loadBalancer.fieldSelection.ipv6Fields,
   FlatSet.ofRange loadBalancer.fieldSelection.transportFields,
   FlatSet.ofRange loadBalancer.fieldSelection.mplsFields)

/-- The object that `LoadBalancerConfigParser::parse` constructs. The seed of
the record, a signed 32-bit number, is converted to the unsigned 32-bit seed
of the node; a record without a seed gets
`LoadBalancer::generateDeterministicSeed(id, platform->getLocalMac())`, a
function that is not among the sources and is taken as a parameter. -/
def parsedNode (generateDeterministicSeed : LoadBalancerID → MacAddress → Nat)
    (platform : Platform) (cfg : CfgLoadBalancer) : LoadBalancer :=
  let loadBalancerID := parseLoadBalancerID cfg
  let fields := parseFields cfg
  let algorithm := cfg.algorithm
  let seed := match cfg.seed with
    | some s => (s % 4294967296).toNat
    | none => generateDeterministicSeed loadBalancerID platform.localMac
  { id := loadBalancerID, algorithm := algorithm, seed := seed,
    v4Fields := fields.1, v6Fields := fields.2.1,
    transportFields := fields.2.2.1, mplsFields := fields.2.2.2 }

/-- The function `LoadBalancerConfigParser::parse`: the node is constructed
and made a new shared object. -/
def parse (generateDeterministicSeed : LoadBalancerID → MacAddress → Nat)
    (platform : Platform) (cfg : CfgLoadBalancer) (s : Store) : Addr × Store :=
  s.makeShared (parsedNode generateDeterministicSeed platform cfg)

end LoadBalancerConfigParser

/-! ## `LoadBalancerConfigApplier` -/

/-- The members of a `LoadBalancerConfigApplier`. -/
structure LoadBalancerConfigApplier where
  originalLoadBalancers_ : Addr
  loadBalancersConfig_ : List CfgLoadBalancer
  platform_ : Platform
  deriving DecidableEq, Repr

namespace LoadBalancerConfigApplier

/-- The locals of `updateLoadBalancers` that live across the iterations of its
loop. -/
structure Locals where
  newLoadBalancers : NodeContainer
  changed : Bool
  loadBalancerIDs : List LoadBalancerID
  numExistingProcessed : Nat
  deriving DecidableEq, Repr

/-- The message of the `FbossError` thrown for a repeated ID. -/
def duplicateMessage (id : LoadBalancerID) : String :=
  "LoadBalancer " ++ toString id ++ " configured more than once"

/-- The function `LoadBalancerConfigApplier::appendToLoadBalancerContainer`. -/
def appendToLoadBalancerContainer (s : Store) (loadBalancerContainer : NodeContainer)
    (loadBalancer : Addr) : Except Fault NodeContainer :=
  match s.loadBalancer loadBalancer with
  | .error e => .error e
  | .ok lb =>
    let loadBalancerID := lb.id
    let r := FlatMap.emplace loadBalancerID loadBalancer loadBalancerContainer
    if r.2 then .ok r.1 else .error .checkFailed

/-- One iteration of the loop of `updateLoadBalancers`, for one record of the
batch. The store changes only by the parse at the start. -/
def loopBody (gds : LoadBalancerID → MacAddress → Nat) (self : LoadBalancerConfigApplier)
    (loadBalancerConfig : CfgLoadBalancer) (l : Locals) (s : Store) :
    Except Fault Locals × Store :=
  let p := LoadBalancerConfigParser.parse gds self.platform_ loadBalancerConfig s
  let newLoadBalancer := p.1
  let s1 := p.2
  (match s1.loadBalancer newLoadBalancer with
   | .error e => .error e
   | .ok newLb =>
     let rtn := FlatSet.insert newLb.id l.loadBalancerIDs
     if !rtn.2 then .error (.fbossError (duplicateMessage newLb.id))
     else
       match s1.loadBalancerMap self.originalLoadBalancers_ with
       | .error e => .error e
       | .ok originalLoadBalancers =>
         match originalLoadBalancers.getLoadBalancerIf newLb.id with
         | some origLoadBalancer =>
           match s1.loadBalancer origLoadBalancer with
           | .error e => .error e
           | .ok origLb =>
             if newLb.equals origLb then
               match appendToLoadBalancerContainer s1 l.newLoadBalancers origLoadBalancer with
               | .error e => .error e
               | .ok c => .ok { newLoadBalancers := c, changed := l.changed,
                                loadBalancerIDs := rtn.1,
                                numExistingProcessed := l.numExistingProcessed + 1 }
             else
               match appendToLoadBalancerContainer s1 l.newLoadBalancers newLoadBalancer with
               | .error e => .error e
               | .ok c => .ok { newLoadBalancers := c, changed := l.changed || true,
                                loadBalancerIDs := rtn.1,
                                numExistingProcessed := l.numExistingProcessed + 1 }
         | none =>
           match appendToLoadBalancerContainer s1 l.newLoadBalancers newLoadBalancer with
           | .error e => .error e
           | .ok c => .ok { newLoadBalancers := c, changed := l.changed || true,
                            loadBalancerIDs := rtn.1,
                            numExistingProcessed := l.numExistingProcessed },
   s1)

/-- The loop of `updateLoadBalancers` over the records of the batch, in order;
the first failure ends it. -/
def loop (gds : LoadBalancerID → MacAddress → Nat) (self : LoadBalancerConfigApplier) :
    List CfgLoadBalancer → Locals → Store → Except Fault Locals × Store
  | [], l, s => (.ok l, s)
  | c :: cs, l, s =>
    match loopBody gds self c l s with
    | (.ok l1, s1) => loop gds self cs l1 s1
    | (.error e, s1) => (.error e, s1)

/-- The function `LoadBalancerConfigApplier::updateLoadBalancers`. The result
is `none` for `nullptr` and the address of the new map otherwise, together
with the store after the call. -/
def updateLoadBalancers (gds : LoadBalancerID → MacAddress → Nat)
    (self : LoadBalancerConfigApplier) (s : Store) :
    Except Fault (Option Addr) × Store :=
  match loop gds self self.loadBalancersConfig_
      { newLoadBalancers := [], changed := false, loadBalancerIDs := [],
        numExistingProcessed := 0 } s with
  | (.error e, s1) => (.error e, s1)
  | (.ok l, s1) =>
    match s1.loadBalancerMap self.originalLoadBalancers_ with
    | .error e => (.error e, s1)
    | .ok originalLoadBalancers =>
      if l.numExistingProcessed ≠ originalLoadBalancers.size then
        -- `CHECK_LT`, then `changed = true`: the test of `changed` is passed
        if l.numExistingProcessed < originalLoadBalancers.size then
          ((.ok (some (s1.cloneMap l.newLoadBalancers).1)), (s1.cloneMap l.newLoadBalancers).2)
        else (.error .checkFailed, s1)
      else if !l.changed then (.ok none, s1)
      else ((.ok (some (s1.cloneMap l.newLoadBalancers).1)), (s1.cloneMap l.newLoadBalancers).2)

end LoadBalancerConfigApplier

/-! ## Notions used to state the properties -/

/-- The original node that stands for a candidate: the node that the original
map holds under the candidate's ID, when `operator==` finds candidate and
original equal. -/
def reusedNode (s : Store) (m : LoadBalancerMap) (v : LoadBalancer) : Option Addr :=
  match m.getLoadBalancerIf v.id with
  | some a =>
    match s.loadBalancers[a]? with
    | some o => if v.equals o then some a else none
    | none => none
  | none => none

/-- The original map of an applier is a live object of the store and so are
the nodes it holds. -/
structure ValidOriginal (s : Store) (orig : Addr) (m : LoadBalancerMap) : Prop where
  map_eq : s.loadBalancerMaps[orig]? = some m
  nodes_lt : ∀ e ∈ m.nodes, e.2 < s.loadBalancers.length
  keys_sorted : (m.nodes.map Prod.fst).Sorted (· < ·)

/-- What holds of the locals and of the store after the loop of
`updateLoadBalancers` has gone through the records `pre`, when it started in
the store `s0` with the original map `m`. -/
structure LoopInv (gds : LoadBalancerID → MacAddress → Nat) (platform : Platform)
    (s0 : Store) (m : LoadBalancerMap) (pre : List CfgLoadBalancer)
    (l : LoadBalancerConfigApplier.Locals) (s : Store) : Prop where
  maps_eq : s.loadBalancerMaps = s0.loadBalancerMaps
  objs_eq : s.loadBalancers =
    s0.loadBalancers ++ pre.map (LoadBalancerConfigParser.parsedNode gds platform)
  sorted : l.loadBalancerIDs.Sorted (· < ·)
  ids : ∀ k, k ∈ l.loadBalancerIDs ↔ k ∈ pre.map (·.id)
  keys : l.newLoadBalancers.map Prod.fst = l.loadBalancerIDs
  addrs : ∀ e ∈ l.newLoadBalancers, e.2 < s.loadBalancers.length
  entries : ∀ p1 c p2, pre = p1 ++ c :: p2 →
    FlatMap.find c.id l.newLoadBalancers =
      some ((reusedNode s0 m (LoadBalancerConfigParser.parsedNode gds platform c)).getD
        (s0.loadBalancers.length + p1.length))
  num : l.numExistingProcessed =
    (pre.filter fun c => (m.getLoadBalancerIf c.id).isSome).length
  changed : l.changed =
    pre.any fun c => (reusedNode s0 m (LoadBalancerConfigParser.parsedNode gds platform c)).isNone
  nodup : (pre.map (·.id)).Nodup

/-- The condition under which `updateLoadBalancers` has nothing to do: every
key of the original map is the ID of a record of the batch, and every record
parses to a candidate that is equal to the original node with its ID. -/
def NothingChanged (gds : LoadBalancerID → MacAddress → Nat) (platform : Platform)
    (s : Store) (m : LoadBalancerMap) (batch : List CfgLoadBalancer) : Prop :=
  (∀ k ∈ m.nodes.map Prod.fst, k ∈ batch.map (·.id)) ∧
  ∀ c ∈ batch, (reusedNode s m (LoadBalancerConfigParser.parsedNode gds platform c)).isSome = true

/-! ## A worked configuration -/

/-- A seed function for the worked configuration. -/
def sampleSeed : LoadBalancerID → MacAddress → Nat :=
  fun id mac => (id * 2654435761 + mac) % 4294967296

/-- The platform of the worked configuration. -/
def samplePlatform : Platform := { localMac := 2199023255553 }

/-- A record for the load balancer with ID 1, without a seed. -/
def sampleEcmp : CfgLoadBalancer :=
  { id := 1,
    fieldSelection := { ipv4Fields := [1, 2], ipv6Fields := [1, 2], transportFields := [1, 2],
                        mplsFields := [] },
    algorithm := 1, seed := none }

/-- A record for the load balancer with ID 2, with a seed. -/
def sampleAggregate : CfgLoadBalancer :=
  { id := 2,
    fieldSelection := { ipv4Fields := [1, 2], ipv6Fields := [1, 2], transportFields := [],
                        mplsFields := [] },
    algorithm := 2, seed := some 7 }

/-- The record for ID 1 with another algorithm. -/
def sampleEcmpModified : CfgLoadBalancer := { sampleEcmp with algorithm := 3 }

/-- The original map of the worked configuration: ID 1 only. -/
def sampleMap : LoadBalancerMap := { nodes := [(1, 0)], published := true }

/-- The store of the worked configuration: the node of ID 1, as parsed from
`sampleEcmp`, and the original map. -/
def sampleStore : Store :=
  { loadBalancers := [LoadBalancerConfigParser.parsedNode sampleSeed samplePlatform sampleEcmp],
    loadBalancerMaps := [sampleMap] }

/-- An applier over the worked configuration. -/
def sampleApplier (batch : List CfgLoadBalancer) : LoadBalancerConfigApplier :=
  { originalLoadBalancers_ := 0, loadBalancersConfig_ := batch, platform_ := samplePlatform }

/-- The explicit set difference `keys(original) \ IDs(batch)`: the keys of the
original map that are the ID of no record of the batch. -/
def removedKeys (m : LoadBalancerMap) (batch : List CfgLoadBalancer) : List LoadBalancerID :=
  (m.nodes.map Prod.fst).filter fun k =>
    decide (k ∉ batch.map LoadBalancerConfigParser.parseLoadBalancerID)

/-! ## The state tree: `SwitchState` and `AclMap`

Of `fboss/agent/state/AclMap.cpp`. The nodes of the tree are objects of a
store of their own; a node is changed in place only by `resetAcls`. -/

/-- An `AclMap` object: its entries, ACL name and the address of the entry,
and the `published` flag. -/
structure AclMap where
  nodes : List (String × Addr)
  published : Bool
  deriving DecidableEq, Repr

/-- A `SwitchState` object, the root of the tree: the maps it refers to, of
which the ACL map and the load-balancer map are kept here, and the `published`
flag. -/
structure SwitchState where
  acls : Addr
  loadBalancers : Addr
  published : Bool
  deriving DecidableEq, Repr

/-- The objects of the state tree that exist, each addressed by its
position. -/
structure StateStore where
  switchStates : List SwitchState
  aclMaps : List AclMap
  deriving DecidableEq, Repr

/-- Dereference of a `std::shared_ptr<SwitchState>`. -/
def StateStore.switchState (st : StateStore) (a : Addr) : Except Fault SwitchState :=
  match st.switchStates[a]? with
  | some r => .ok r
  | none => .error .badPointer

/-- Dereference of a pointer to an `AclMap`. -/
def StateStore.aclMap (st : StateStore) (a : Addr) : Except Fault AclMap :=
  match st.aclMaps[a]? with
  | some m => .ok m
  | none => .error .badPointer

/-- Modelled from the spec: `SwitchState::modify(state)`, defined in
`state/SwitchState.cpp` (not among the sources); by section 4.1 the root in
the holder is replaced by a `clone()` of it, a new unpublished object that
shares all children, if the root is already published, and is left as it is if
not. Returns the root the holder has afterwards. -/
def SwitchState.modify (state : Addr) (st : StateStore) : Except Fault (Addr × StateStore) :=
  match st.switchState state with
  | .error e => .error e
  | .ok root =>
    if !root.published then .ok (state, st)
    else .ok (st.switchStates.length,
      { st with switchStates := st.switchStates ++ [{ root with published := false }] })

/-- Modelled from the spec: `AclMap::clone()`, of `NodeMap` (not among the
sources); by section 4.1 a new unpublished instance that shares the entries.
Returns its address. -/
def AclMap.clone (this : Addr) (st : StateStore) : Except Fault (Addr × StateStore) :=
  match st.aclMap this with
  | .error e => .error e
  | .ok m =>
    .ok (st.aclMaps.length, { st with aclMaps := st.aclMaps ++ [{ m with published := false }] })

/-- Modelled from the spec: `SwitchState::resetAcls(acls)`, defined in
`state/SwitchState.cpp` (not among the sources): the root takes the given map
as its ACL map. By section 3 a published node is never changed in place: the
attempt is a fatal error. -/
def SwitchState.resetAcls (root : Addr) (acls : Addr) (st : StateStore) :
    Except Fault StateStore :=
  match st.switchState root with
  | .error e => .error e
  | .ok r =>
    if r.published then .error .checkFailed
    else .ok { st with switchStates := st.switchStates.set root { r with acls := acls } }

/-- What `AclMap::modify` gives back: the pointer it returns, the root that
the holder `*state` has afterwards, and the store. -/
structure ModifyResult where
  ptr : Addr
  state : Addr
  store : StateStore
  deriving DecidableEq, Repr

/-- The function `AclMap::modify(std::shared_ptr<SwitchState>* state)`, called
on the map at `this` with a holder that has the root `state`. -/
def AclMap.modify (this : Addr) (state : Addr) (st : StateStore) : Except Fault ModifyResult :=
  match st.aclMap this with
  | .error e => .error e
  | .ok self =>
    if !self.published then
      match st.switchState state with
      | .error e => .error e
      | .ok root =>
        if !root.published then .ok { ptr := this, state := state, store := st }
        else .error .checkFailed
    else
      match SwitchState.modify state st with
      | .error e => .error e
      | .ok (state1, st1) =>
        match AclMap.clone this st1 with
        | .error e => .error e
        | .ok (newAcls, st2) =>
          let ptr := newAcls
          match SwitchState.resetAcls state1 newAcls st2 with
          | .error e => .error e
          | .ok st3 => .ok { ptr := ptr, state := state1, store := st3 }

/-- A store of the state tree for the worked examples: a published root with a
published ACL map, and an unpublished root with an unpublished ACL map. -/
def sampleStateStore : StateStore :=
  { switchStates := [{ acls := 0, loadBalancers := 0, published := true },
                     { acls := 1, loadBalancers := 0, published := false }],
    aclMaps := [{ nodes := [("acl1", 0)], published := true },
                { nodes := [("acl1", 0), ("acl2", 1)], published := false }] }

/-! ## `BcmStatUpdater`: the queues of counters to add and to remove

Of `fboss/agent/hw/bcm/BcmStatUpdater.cpp`. The collections of counters are
maps with unique keys, given by their entries; a `std::queue` is the list of
its elements, front first. The locks are left out: one thread runs a call. -/

/-- A map with unique keys, by its entries. -/
abbrev Table (κ ν : Type) := List (κ × ν)

namespace Table

/-- The member function `find(key)`: the value under the key, or nothing for
`end()`. -/
def find {κ ν : Type} [DecidableEq κ] (k : κ) : Table κ ν → Option ν
  | [] => none
  | e :: es => if e.1 = k then some e.2 else find k es

/-- The assignment `map[key] = value`: the value under the key is replaced, or
a new entry is made when the map has none under the key. -/
def assign {κ ν : Type} [DecidableEq κ] (k : κ) (v : ν) : Table κ ν → Table κ ν
  | [] => [(k, v)]
  | e :: es => if e.1 = k then (k, v) :: es else e :: assign k v es

/-- The member function `erase(it)` for the iterator `it = find(key)`: the
entry under the key is taken out. -/
def erase {κ ν : Type} [DecidableEq κ] (k : κ) : Table κ ν → Table κ ν
  | [] => []
  | e :: es => if e.1 = k then es else e :: erase k es

/-- The keys of a map. -/
def keys {κ ν : Type} (t : Table κ ν) : List κ := t.map Prod.fst

end Table

/-- The type `BcmRouteCounterID`, an unsigned number. -/
abbrev BcmRouteCounterID := Nat

/-- The type `BcmAclStatHandle`, an `int`. -/
abbrev BcmAclStatHandle := Int

/-- The Thrift enum `cfg::CounterType`, by its integer code. -/
abbrev CounterType := Nat

/-- A `MonotonicCounter`, as `BcmStatUpdater` makes them: its name; the export
types are `fb303::SUM` and `fb303::RATE` for everyone. -/
structure MonotonicCounter where
  name : String
  deriving DecidableEq, Repr

/-- A `BcmAclStatDescriptor`. -/
structure BcmAclStatDescriptor where
  handle : BcmAclStatHandle
  aclStatName : String
  deriving DecidableEq, Repr

/-- An element of the queue `toBeProcessedRouteCounters_`, with the members
that `BcmStatUpdater.cpp` reads: `addCounter` tells an addition from a
removal. -/
structure BcmRouteCounterAction where
  id : BcmRouteCounterID
  routeStatName : String
  addCounter : Bool
  deriving DecidableEq, Repr

/-- The members of a `BcmStatUpdater` that the refresh functions use. -/
structure BcmStatUpdater where
  toBeAddedAclStats_ : List (BcmAclStatDescriptor × CounterType)
  toBeRemovedAclStats_ : List BcmAclStatHandle
  toBeProcessedRouteCounters_ : List BcmRouteCounterAction
  aclStats_ : Table BcmAclStatHandle (Table CounterType MonotonicCounter)
  routeStats_ : Table BcmRouteCounterID MonotonicCounter
  deriving DecidableEq, Repr

namespace BcmStatUpdater

/-- The function `BcmStatUpdater::toBeAddedAclStat`. -/
def toBeAddedAclStat (self : BcmStatUpdater) (handle : BcmAclStatHandle)
    (aclStatName : String) (counterTypes : List CounterType) : BcmStatUpdater :=
  counterTypes.foldl
    (fun u type =>
      { u with toBeAddedAclStats_ :=
          u.toBeAddedAclStats_ ++ [({ handle := handle, aclStatName := aclStatName }, type)] })
    self

/-- The function `BcmStatUpdater::toBeRemovedAclStat`. -/
def toBeRemovedAclStat (self : BcmStatUpdater) (handle : BcmAclStatHandle) : BcmStatUpdater :=
  { self with toBeRemovedAclStats_ := self.toBeRemovedAclStats_ ++ [handle] }

/-- The function `BcmStatUpdater::toBeAddedRouteCounter`. -/
def toBeAddedRouteCounter (self : BcmStatUpdater) (id : BcmRouteCounterID)
    (routeStatName : String) : BcmStatUpdater :=
  { self with toBeProcessedRouteCounters_ :=
      self.toBeProcessedRouteCounters_ ++
        [{ id := id, routeStatName := routeStatName, addCounter := true }] }

/-- The function `BcmStatUpdater::toBeRemovedRouteCounter`. -/
def toBeRemovedRouteCounter (self : BcmStatUpdater) (id : BcmRouteCounterID) : BcmStatUpdater :=
  { self with toBeProcessedRouteCounters_ :=
      self.toBeProcessedRouteCounters_ ++ [{ id := id, routeStatName := "", addCounter := false }] }

/-- The error of `refreshRouteCounters` for an addition of an ID that is
there. -/
def duplicateRouteStat (id : BcmRouteCounterID) : Fault :=
  .fbossError ("Duplicate Route stat, id=" ++ toString id)

/-- The error of `refreshRouteCounters` for a removal of an ID that is not
there. -/
def unknownRouteStat (id : BcmRouteCounterID) : Fault :=
  .fbossError ("Cannot find Route stat, id=" ++ toString id)

/-- The `while` loop of `refreshRouteCounters` on the queue and the locked
collection. Every iteration that does not throw pops the front of the queue; a
throw leaves the queue and the collection as they are at that moment. -/
def refreshRouteCountersLoop :
    List BcmRouteCounterAction → Table BcmRouteCounterID MonotonicCounter →
    Except Fault Unit × List BcmRouteCounterAction × Table BcmRouteCounterID MonotonicCounter
  | [], lockedRouteCounters => (.ok (), [], lockedRouteCounters)
  | front :: rest, lockedRouteCounters =>
    let id := front.id
    let routeStatName := front.routeStatName
    let addCounter := front.addCounter
    let itr := Table.find id lockedRouteCounters
    if addCounter then
      if itr.isSome then (.error (duplicateRouteStat id), front :: rest, lockedRouteCounters)
      else
        refreshRouteCountersLoop rest
          (Table.assign id { name := routeStatName } lockedRouteCounters)
    else
      if itr.isSome then
        refreshRouteCountersLoop rest (Table.erase id lockedRouteCounters)
      else (.error (unknownRouteStat id), front :: rest, lockedRouteCounters)

/-- The function `BcmStatUpdater::refreshRouteCounters`. -/
def refreshRouteCounters (self : BcmStatUpdater) : Except Fault Unit × BcmStatUpdater :=
  if self.toBeProcessedRouteCounters_.isEmpty then (.ok (), self)
  else
    let r := refreshRouteCountersLoop self.toBeProcessedRouteCounters_ self.routeStats_
    (r.1, { self with toBeProcessedRouteCounters_ := r.2.1, routeStats_ := r.2.2 })

/-- The first `while` loop of `refreshAclStats`: for every handle of the
queue, front first, the collection is gone through and every entry whose key
is the handle is erased; the handle is popped. Nothing throws here. -/
def refreshAclStatsRemoveLoop :
    List BcmAclStatHandle → Table BcmAclStatHandle (Table CounterType MonotonicCounter) →
    Table BcmAclStatHandle (Table CounterType MonotonicCounter)
  | [], lockedAclStats => lockedAclStats
  | handle :: rest, lockedAclStats =>
    refreshAclStatsRemoveLoop rest (lockedAclStats.filter fun itr => decide (itr.1 ≠ handle))

/-- The error of `refreshAclStats` for an addition of a counter type that the
handle has. `apache::thrift::util::enumNameSafe` is not among the sources and
is a parameter. -/
def duplicateAclStat (enumNameSafe : CounterType → String) (handle : BcmAclStatHandle)
    (counterType : CounterType) : Fault :=
  .fbossError
    ("Duplicate ACL stat, handle=" ++ toString handle ++ ", type=" ++ enumNameSafe counterType)

/-- The second `while` loop of `refreshAclStats`. `statNameFromCounterType`,
of `utility`, is not among the sources and is a parameter. -/
def refreshAclStatsAddLoop (enumNameSafe : CounterType → String)
    (statNameFromCounterType : String → CounterType → String) :
    List (BcmAclStatDescriptor × CounterType) →
    Table BcmAclStatHandle (Table CounterType MonotonicCounter) →
    Except Fault Unit × List (BcmAclStatDescriptor × CounterType) ×
      Table BcmAclStatHandle (Table CounterType MonotonicCounter)
  | [], lockedAclStats => (.ok (), [], lockedAclStats)
  | front :: rest, lockedAclStats =>
    let handle := front.1.handle
    let aclStatName := front.1.aclStatName
    let counterType := front.2
    match Table.find handle lockedAclStats with
    | some counters =>
      if (Table.find counterType counters).isSome then
        (.error (duplicateAclStat enumNameSafe handle counterType), front :: rest,
          lockedAclStats)
      else
        -- counter name exists, but counter type doesn't
        refreshAclStatsAddLoop enumNameSafe statNameFromCounterType rest
          (Table.assign handle
            (Table.assign counterType
              { name := statNameFromCounterType aclStatName counterType } counters)
            lockedAclStats)
    | none =>
      refreshAclStatsAddLoop enumNameSafe statNameFromCounterType rest
        (Table.assign handle
          (Table.assign counterType
            { name := statNameFromCounterType aclStatName counterType } [])
          lockedAclStats)

/-- The function `BcmStatUpdater::refreshAclStats`. -/
def refreshAclStats (enumNameSafe : CounterType → String)
    (statNameFromCounterType : String → CounterType → String) (self : BcmStatUpdater) :
    Except Fault Unit × BcmStatUpdater :=
  if self.toBeRemovedAclStats_.isEmpty && self.toBeAddedAclStats_.isEmpty then (.ok (), self)
  else
    let removed := refreshAclStatsRemoveLoop self.toBeRemovedAclStats_ self.aclStats_
    let r := refreshAclStatsAddLoop enumNameSafe statNameFromCounterType
      self.toBeAddedAclStats_ removed
    (r.1, { self with toBeRemovedAclStats_ := [], toBeAddedAclStats_ := r.2.1,
                      aclStats_ := r.2.2 })

end BcmStatUpdater

/-! ### The queue of route counters in the words of the specification -/

namespace RouteCounterSpec

/-- Section 4.5 on one intent and the set of IDs of the collection: Add
inserts the ID, Remove erases it. -/
def apply (ids : Finset BcmRouteCounterID) (a : BcmRouteCounterAction) :
    Finset BcmRouteCounterID :=
  if a.addCounter then insert a.id ids else ids.erase a.id

/-- The set of IDs after the intents of a queue, in FIFO order. -/
def idsAfter (ids : Finset BcmRouteCounterID) (queue : List BcmRouteCounterAction) :
    Finset BcmRouteCounterID :=
  queue.foldl apply ids

/-- Section 4.5 on failure: an Add fails when the ID is present, a Remove when
it is absent. -/
def Rejects (ids : Finset BcmRouteCounterID) (a : BcmRouteCounterAction) : Prop :=
  (a.addCounter = true ∧ a.id ∈ ids) ∨ (a.addCounter = false ∧ a.id ∉ ids)

/-- The failure met when the intents of a queue are gone through in FIFO order
against the set of IDs as it evolves: the duplicate error for the first Add of
an ID that is present, the unknown-ID error for the first Remove of an ID that
is absent, nothing when there is none. -/
def firstFailure : Finset BcmRouteCounterID → List BcmRouteCounterAction → Option Fault
  | _, [] => none
  | ids, a :: rest =>
    if a.addCounter then
      if a.id ∈ ids then some (BcmStatUpdater.duplicateRouteStat a.id)
      else firstFailure (insert a.id ids) rest
    else
      if a.id ∈ ids then firstFailure (ids.erase a.id) rest
      else some (BcmStatUpdater.unknownRouteStat a.id)

end RouteCounterSpec

/-- Names of counter types for the worked examples. -/
def sampleEnumName : CounterType → String := fun t => if t = 0 then "PACKETS" else "BYTES"

/-- Names of ACL counters for the worked examples. -/
def sampleStatName : String → CounterType → String :=
  fun name t => name ++ (if t = 0 then ".packets" else ".bytes")

/-- An updater for the worked examples: one route counter, ID 1, and one ACL
stat, handle 10, with the counter type 0. -/
def sampleUpdater : BcmStatUpdater :=
  { toBeAddedAclStats_ := [], toBeRemovedAclStats_ := [], toBeProcessedRouteCounters_ := [],
    aclStats_ := [(10, [(0, { name := "acl.packets" })])],
    routeStats_ := [(1, { name := "route1" })] }

/-- The body of `BcmStatUpdater::getAclStatCounterIf` on the locked
collection: the counter of the handle for the counter type, or `nullptr`. -/
def BcmStatUpdater.aclStatCounter
    (lockedAclStats : Table BcmAclStatHandle (Table CounterType MonotonicCounter))
    (handle : BcmAclStatHandle) (counterType : CounterType) : Option MonotonicCounter :=
  match Table.find handle lockedAclStats with
  | some counters => Table.find counterType counters
  | none => none

/-- The function `BcmStatUpdater::getAclStatCounterIf`. -/
def BcmStatUpdater.getAclStatCounterIf (self : BcmStatUpdater) (handle : BcmAclStatHandle)
    (counterType : CounterType) : Option MonotonicCounter :=
  BcmStatUpdater.aclStatCounter self.aclStats_ handle counterType

/-! ## The firmware upgrade helper

Of `fboss/platform/helpers/firmwareUpgradeHelper.cpp`. -/

namespace FirmwareUpgradeHelper

/-- The macro `WTERMSIG` of `<sys/wait.h>`, `status & 0x7f`: for a two's
complement number, the remainder modulo 128. -/
def WTERMSIG (status : Int) : Int := status % 128

/-- The macro `WIFEXITED` of `<sys/wait.h>`, `WTERMSIG(status) == 0`. -/
def WIFEXITED (status : Int) : Bool := WTERMSIG status == 0

/-- The macro `WEXITSTATUS` of `<sys/wait.h>`, `(status & 0xff00) >> 8`. -/
def WEXITSTATUS (status : Int) : Int := status / 256 % 256

/-- The function `checkCmdStatus`; a thrown `std::runtime_error` is given by
its message. `errnoStr` stands for `folly::errnoStr(errno)` at the time of the
call. -/
def checkCmdStatus (errnoStr : String) (cmd : String) (exitStatus : Int) : Except String Unit :=
  if exitStatus < 0 then
    .error ("Running command " ++ cmd ++ " failed with errno " ++ errnoStr)
  else if !WIFEXITED exitStatus then
    .error ("Running Command " ++ cmd ++ " exited abnormally " ++
      toString (WEXITSTATUS exitStatus))
  else .ok ()

end FirmwareUpgradeHelper

/-! ## Waiting for port stats

Of `fboss/agent/hw/test/dataplane_tests/HwTestUtils.cpp`. -/

/-- The type `PortID`. -/
abbrev PortID := Nat

/-- The Thrift struct `HwPortStats`, with the two fields that the condition of
`waitForAnyPorAndQueutOutBytesIncrement` reads: `outBytes_` and the map
`queueOutBytes_` from queue ID to bytes. -/
structure HwPortStats where
  outBytes_ : Int
  queueOutBytes_ : Table Int Int
  deriving DecidableEq, Repr

namespace HwTestUtils

/-- What a call of `waitPortStatsCondition` did: the value returned, the
number of calls of `getHwPortStats`, and the snapshots on which `conditionFn`
was evaluated, in order, each told by the number, from 0, of the call of
`getHwPortStats` that fetched it. -/
structure WaitOutcome where
  result : Bool
  fetches : Nat
  tested : List Nat
  deriving DecidableEq, Repr

/-- The `while (retries--)` loop of `waitPortStatsCondition`, entered with
`newPortStats` being the snapshot of call number `k`. `getHwPortStats` is
given by the snapshots that its calls return, by the number of the call. The
sleep between two retries is left out. -/
def waitPortStatsConditionLoop (conditionFn : Table PortID HwPortStats → Bool)
    (portIds : List PortID) (getHwPortStats : Nat → List PortID → Table PortID HwPortStats) :
    Nat → Nat → List Nat → WaitOutcome
  | 0, k, tested => { result := false, fetches := k + 1, tested := tested }
  | retries + 1, k, tested =>
    if conditionFn (getHwPortStats k portIds) then
      { result := true, fetches := k + 1, tested := tested ++ [k] }
    else
      waitPortStatsConditionLoop conditionFn portIds getHwPortStats retries (k + 1)
        (tested ++ [k])

/-- The function `waitPortStatsCondition`. -/
def waitPortStatsCondition (conditionFn : Table PortID HwPortStats → Bool)
    (portIds : List PortID) (retries : Nat)
    (getHwPortStats : Nat → List PortID → Table PortID HwPortStats) : WaitOutcome :=
  waitPortStatsConditionLoop conditionFn portIds getHwPortStats retries 0 []

/-- The `std::any_of` over the queues of a port of the original snapshot, in
the condition of `waitForAnyPorAndQueutOutBytesIncrement`: whether the new
snapshot has more bytes for some queue. The lambda evaluates
`newQueueStats->find(qid)->second` without a test against `end()`; `none`
stands for the undefined behaviour of a dereferenced `end()`. -/
def anyQueueIncrement (newQueueStats : Table Int Int) : List (Int × Int) → Option Bool
  | [] => some false
  | queueAndBytes :: rest =>
    match Table.find queueAndBytes.1 newQueueStats with
    | none => none
    | some newQbytes =>
      if newQbytes > queueAndBytes.2 then some true else anyQueueIncrement newQueueStats rest

/-- The loop of the lambda `conditionFn` of
`waitForAnyPorAndQueutOutBytesIncrement` over the ports of the original
snapshot that are still to be looked at. -/
def conditionFnLoop (queueStatsSupported : Bool) (newPortStats : Table PortID HwPortStats) :
    List (PortID × HwPortStats) → Option Bool
  | [] => some false
  | (portId, portStat) :: rest =>
    match Table.find portId newPortStats with
    | some newPortStat =>
      if newPortStat.outBytes_ > portStat.outBytes_ then
        if !queueStatsSupported then some true
        else
          match anyQueueIncrement newPortStat.queueOutBytes_ portStat.queueOutBytes_ with
          | none => none
          | some true => some true
          | some false => conditionFnLoop queueStatsSupported newPortStats rest
      else conditionFnLoop queueStatsSupported newPortStats rest
    | none => conditionFnLoop queueStatsSupported newPortStats rest

/-- The lambda `conditionFn` of `waitForAnyPorAndQueutOutBytesIncrement`. -/
def conditionFn (originalPortStats : Table PortID HwPortStats) (queueStatsSupported : Bool)
    (newPortStats : Table PortID HwPortStats) : Option Bool :=
  conditionFnLoop queueStatsSupported newPortStats originalPortStats

end HwTestUtils

/-- The new snapshot has, for every port of the original snapshot that it
has, every queue ID that the original snapshot has for that port: then no
lookup of the condition of `waitForAnyPorAndQueutOutBytesIncrement` meets
`end()`. -/
def HwTestUtils.QueueLookupsDefined (originalPortStats newPortStats : Table PortID HwPortStats) :
    Prop :=
  ∀ p ∈ originalPortStats, ∀ newPortStat, Table.find p.1 newPortStats = some newPortStat →
    ∀ q ∈ p.2.queueOutBytes_, (Table.find q.1 newPortStat.queueOutBytes_).isSome = true

/-- A port of the original snapshot counts as incremented in the new snapshot:
the new snapshot has the port with strictly more `outBytes` and, when queue
stats are supported, with strictly more bytes for a queue that the original
snapshot has for the port. -/
def HwTestUtils.PortIncremented (queueStatsSupported : Bool)
    (newPortStats : Table PortID HwPortStats) (p : PortID × HwPortStats) : Prop :=
  ∃ newPortStat, Table.find p.1 newPortStats = some newPortStat ∧
    newPortStat.outBytes_ > p.2.outBytes_ ∧
    (queueStatsSupported = true → ∃ q ∈ p.2.queueOutBytes_, ∃ nb,
      Table.find q.1 newPortStat.queueOutBytes_ = some nb ∧ nb > q.2)

/-! ## Port configuration of a port group

Of `cleanPortConfig` in `fboss/agent/hw/sai/hw_test/SaiPortUtils.cpp`. -/

/-- The Thrift struct `cfg::Port`: the logical ID, a signed 32-bit number, and
the name, which stands for the fields that `cleanPortConfig` does not read. -/
structure CfgPort where
  logicalID : Int
  name : String
  deriving DecidableEq, Repr

/-- The Thrift struct `cfg::SwitchConfig`, with its list of ports. -/
structure SwitchConfig where
  ports : List CfgPort
  deriving DecidableEq, Repr

namespace StdAlgorithm

/-- The loop of `std::remove_if` as the standard library has it:
`for (; first != last; ++first) if (!pred(*first)) { *result = std::move(*first); ++result; }`,
with `n` elements left between `first` and `last`. An element that is moved
from is taken to keep its value; its place is either written again or beyond
the new end. -/
def removeIfLoop {α : Type} (pred : α → Bool) : Nat → Nat → Nat → List α → List α × Nat
  | 0, _, result, xs => (xs, result)
  | n + 1, first, result, xs =>
    match xs[first]? with
    | some x =>
      if !pred x then removeIfLoop pred n (first + 1) (result + 1) (xs.set result x)
      else removeIfLoop pred n (first + 1) result xs
    | none => (xs, result)

/-- The algorithm `std::remove_if(begin, end, pred)` on a vector: the elements
after the call and the position of the iterator returned. It starts at the
first element that satisfies `pred`, found by `std::find_if`. -/
def removeIf {α : Type} (pred : α → Bool) (xs : List α) : List α × Nat :=
  let first := xs.findIdx pred
  if first = xs.length then (xs, first)
  else removeIfLoop pred (xs.length - (first + 1)) (first + 1) first xs

end StdAlgorithm

namespace SaiPortUtils

/-- The lambda of `cleanPortConfig`: whether the port is to be removed, which
is the case when no ID of the group is its ID. The conversion
`static_cast<PortID>` of the logical ID is a parameter, `PortID` being
declared in a header that is not among the sources. -/
def notInGroup (toPortID : Int → PortID) (allPortsinGroup : List PortID) (portCfg : CfgPort) :
    Bool :=
  let portID := toPortID portCfg.logicalID
  let rec go : List PortID → Bool
    | [] => true
    | id :: rest => if portID = id then false else go rest
  go allPortsinGroup

/-- The function `cleanPortConfig`: `std::remove_if` over the ports, then
`erase` from the iterator that it returns to the end. -/
def cleanPortConfig (toPortID : Int → PortID) (config : SwitchConfig)
    (allPortsinGroup : List PortID) : SwitchConfig :=
  let removed := StdAlgorithm.removeIf (notInGroup toPortID allPortsinGroup) config.ports
  { config with ports := removed.1.take removed.2 }

end SaiPortUtils

/-! ## Lane rates

Of `LaneRateMapKey` and `kLaneRateMap` in `fboss/agent/hw/bcm/BcmStatUpdater.cpp`. -/

/-- The enumerators of `bcm_port_phy_fec_t` that the lane rate table names, by
their integer values. The enum is declared in a header of the Broadcom SDK, so
the values are a parameter. -/
structure BcmPortPhyFec where
  bcmPortPhyFecNone : Int
  bcmPortPhyFecBaseR : Int
  bcmPortPhyFecRsFec : Int
  bcmPortPhyFecRs544 : Int
  bcmPortPhyFecRs272 : Int
  bcmPortPhyFecRs544_2xN : Int
  deriving DecidableEq, Repr

/-- The six enumerators have six different values. -/
def BcmPortPhyFec.Distinct (fec : BcmPortPhyFec) : Prop :=
  [fec.bcmPortPhyFecNone, fec.bcmPortPhyFecBaseR, fec.bcmPortPhyFecRsFec,
    fec.bcmPortPhyFecRs544, fec.bcmPortPhyFecRs272, fec.bcmPortPhyFecRs544_2xN].Nodup

instance (fec : BcmPortPhyFec) : Decidable fec.Distinct := by
  unfold BcmPortPhyFec.Distinct
  infer_instance

/-- Values for the enumerators, in the order of their names here. -/
def sampleFec : BcmPortPhyFec := ⟨0, 1, 2, 3, 4, 5⟩

/-- The struct `LaneRateMapKey`: port speed in Mbps, number of lanes, and the
FEC type by its enum value. -/
structure LaneRateMapKey where
  speed_ : Nat
  numLanes_ : Nat
  fecType_ : Int
  deriving DecidableEq, Repr

/-- The member `LaneRateMapKey::operator<`. -/
def LaneRateMapKey.lt (self other : LaneRateMapKey) : Bool :=
  if self.speed_ ≠ other.speed_ then decide (self.speed_ < other.speed_)
  else if self.numLanes_ ≠ other.numLanes_ then decide (self.numLanes_ < other.numLanes_)
  else decide (self.fecType_ < other.fecType_)

namespace StdMap

/-- The member `insert` of a `std::map` with comparison `lt`, the map given by
its entries in the order of their keys: an entry whose key is equivalent to a
key of the map is not put in. -/
def insert {κ ν : Type} (lt : κ → κ → Bool) (e : κ × ν) : List (κ × ν) → List (κ × ν)
  | [] => [e]
  | x :: xs =>
    if lt e.1 x.1 then e :: x :: xs
    else if lt x.1 e.1 then x :: insert lt e xs
    else x :: xs

/-- The constructor of a `std::map` from an initializer list: the entries are
put in one after the other. -/
def ofList {κ ν : Type} (lt : κ → κ → Bool) (entries : List (κ × ν)) : List (κ × ν) :=
  entries.foldl (fun m e => insert lt e m) []

/-- The member `find` of a `std::map`: the value of the entry whose key is
equivalent to `k`, or nothing for `end()`. -/
def find {κ ν : Type} (lt : κ → κ → Bool) (k : κ) : List (κ × ν) → Option ν
  | [] => none
  | x :: xs =>
    if lt x.1 k then find lt k xs
    else if lt k x.1 then none
    else some x.2

/-- A comparison is a strict total order: irreflexive, transitive, and two
keys of which none is before the other are equal. -/
structure StrictTotal {κ : Type} (lt : κ → κ → Bool) : Prop where
  irrefl : ∀ a, lt a a = false
  trans : ∀ a b c, lt a b = true → lt b c = true → lt a c = true
  tricho : ∀ a b, lt a b = false → lt b a = false → a = b

/-- The entries are in the strict order of their keys. -/
def Sorted {κ ν : Type} (lt : κ → κ → Bool) (m : List (κ × ν)) : Prop :=
  m.Pairwise fun x y => lt x.1 y.1 = true

end StdMap

/-- The initializer list of `kLaneRateMap`; each `double` is given by the
decimal number that is written in the source. -/
def kLaneRateMapEntries (fec : BcmPortPhyFec) : List (LaneRateMapKey × ℚ) :=
  [(⟨10000, 1, fec.bcmPortPhyFecNone⟩, 10.3125),
   (⟨10000, 1, fec.bcmPortPhyFecBaseR⟩, 10.3125),
   (⟨20000, 1, fec.bcmPortPhyFecNone⟩, 10.3125),
   (⟨20000, 1, fec.bcmPortPhyFecBaseR⟩, 10.3125),
   (⟨40000, 4, fec.bcmPortPhyFecNone⟩, 10.3125),
   (⟨40000, 4, fec.bcmPortPhyFecBaseR⟩, 10.3125),
   (⟨40000, 2, fec.bcmPortPhyFecNone⟩, 10.3125),
   (⟨25000, 1, fec.bcmPortPhyFecNone⟩, 25.78125),
   (⟨25000, 1, fec.bcmPortPhyFecBaseR⟩, 25.78125),
   (⟨25000, 1, fec.bcmPortPhyFecRsFec⟩, 25.7812),
   (⟨50000, 1, fec.bcmPortPhyFecNone⟩, 51.5625),
   (⟨50000, 1, fec.bcmPortPhyFecRsFec⟩, 51.5625),
   (⟨50000, 1, fec.bcmPortPhyFecRs544⟩, 53.125),
   (⟨50000, 1, fec.bcmPortPhyFecRs272⟩, 53.125),
   (⟨50000, 2, fec.bcmPortPhyFecNone⟩, 25.78125),
   (⟨50000, 2, fec.bcmPortPhyFecRsFec⟩, 25.78125),
   (⟨50000, 2, fec.bcmPortPhyFecRs544⟩, 26.5625),
   (⟨100000, 2, fec.bcmPortPhyFecNone⟩, 51.5625),
   (⟨100000, 2, fec.bcmPortPhyFecRsFec⟩, 51.5625),
   (⟨100000, 2, fec.bcmPortPhyFecRs544⟩, 53.125),
   (⟨100000, 2, fec.bcmPortPhyFecRs272⟩, 53.125),
   (⟨100000, 4, fec.bcmPortPhyFecNone⟩, 25.78125),
   (⟨100000, 4, fec.bcmPortPhyFecRsFec⟩, 25.78125),
   (⟨100000, 4, fec.bcmPortPhyFecRs544⟩, 26.5625),
   (⟨200000, 4, fec.bcmPortPhyFecNone⟩, 51.5625),
   (⟨200000, 4, fec.bcmPortPhyFecRs272⟩, 53.125),
   (⟨200000, 4, fec.bcmPortPhyFecRs544⟩, 53.125),
   (⟨200000, 4, fec.bcmPortPhyFecRs544_2xN⟩, 53.125),
   (⟨400000, 8, fec.bcmPortPhyFecRs544_2xN⟩, 53.125)]

/-- The constant `kLaneRateMap`. -/
def kLaneRateMap (fec : BcmPortPhyFec) : List (LaneRateMapKey × ℚ) :=
  StdMap.ofList LaneRateMapKey.lt (kLaneRateMapEntries fec)

/-! ## Adapter host keys of next hop groups

Of `SaiObject<SaiNextHopGroupTraits>::adapterHostKeyToFollyDynamic` and
`follyDynamicToAdapterHostKey` in `fboss/agent/hw/sai/store/SaiObject.cpp`. -/

namespace Folly

/-- A `folly::dynamic` value of one of the kinds that the two conversions
make or read: null, a 64-bit integer, a string, an array, or an object with
strings for keys. -/
inductive dynamic where
  | null
  | int (i : Int)
  | string (s : String)
  | array (elems : List dynamic)
  | object (members : List (String × dynamic))

/-- What ends a conversion: a `folly::TypeError`, a `folly::ConversionError`,
an `IPAddressFormatException`, or the end of the process by `XLOG(FATAL)`. -/
inductive ConversionFault where
  | typeError
  | conversionError
  | ipAddressFormat
  | fatal (type : Int)
  deriving DecidableEq, Repr

namespace dynamic

/-- The member `asInt`: an integer is itself, and a string is converted by
`folly::to<int64_t>`, here for a decimal number with an optional minus sign;
the other kinds have no integer. -/
def asInt : dynamic → Except ConversionFault Int
  | .int i => .ok i
  | .string s =>
    match s.toInt? with
    | some i => if -9223372036854775808 ≤ i ∧ i < 9223372036854775808 then .ok i
      else .error .conversionError
    | none => .error .conversionError
  | _ => .error .typeError

/-- The member `asString`: a string is itself, and an integer is written as a
decimal number. -/
def asString : dynamic → Except ConversionFault String
  | .string s => .ok s
  | .int i => .ok (toString i)
  | _ => .error .typeError

/-- The subscript `object[name]` of a value that is not const: on an object the
member of that name, which is made as null when there is none; on another kind
a `TypeError`. -/
def index (name : String) : dynamic → Except ConversionFault dynamic
  | .object members => .ok ((Table.find name members).getD .null)
  | _ => .error .typeError

/-- The elements that a range-based `for` over the value visits: those of an
array; another kind has a `TypeError`. -/
def elements : dynamic → Except ConversionFault (List dynamic)
  | .array elems => .ok elems
  | _ => .error .typeError

/-- The member `push_back`: the value is put at the end of an array; another
kind has a `TypeError`. -/
def push_back (value : dynamic) : dynamic → Except ConversionFault dynamic
  | .array elems => .ok (.array (elems ++ [value]))
  | _ => .error .typeError

end dynamic

/-- The conversion `folly::to<sai_object_id_t>` of a string, for a decimal
number that fits in 64 bits. -/
def toObjectId (s : String) : Except ConversionFault Nat :=
  match s.toNat? with
  | some n => if n < 18446744073709551616 then .ok n else .error .conversionError
  | none => .error .conversionError

end Folly

/-- The enumerator `SAI_NEXT_HOP_TYPE_IP`, the first of `sai_next_hop_type_t`
in the SAI header `sainexthop.h`. -/
def SAI_NEXT_HOP_TYPE_IP : Int := 0

/-- The enumerator `SAI_NEXT_HOP_TYPE_MPLS`, the second of
`sai_next_hop_type_t`. -/
def SAI_NEXT_HOP_TYPE_MPLS : Int := 1

/-- The type `SaiIpNextHopTraits::AdapterHostKey`: the router interface ID, a
`sai_object_id_t`, and the IP address. The type of IP addresses,
`folly::IPAddress`, is a parameter. -/
structure SaiIpNextHopKey (IPAddress : Type) where
  routerInterfaceId : Nat
  ip : IPAddress
  deriving DecidableEq, Repr

/-- The type `SaiMplsNextHopTraits::AdapterHostKey`: router interface ID, IP
address, and the label stack, a vector of `sai_uint32_t`. -/
structure SaiMplsNextHopKey (IPAddress : Type) where
  routerInterfaceId : Nat
  ip : IPAddress
  labelStack : List Nat
  deriving DecidableEq, Repr

/-- An element of `SaiNextHopGroupTraits::AdapterHostKey`: a `std::variant`
whose first alternative is the key of an IP next hop and whose second is the
key of an MPLS next hop. -/
inductive NextHopKey (IPAddress : Type) where
  | ip (ipAhk : SaiIpNextHopKey IPAddress)
  | mpls (mplsAhk : SaiMplsNextHopKey IPAddress)
  deriving DecidableEq, Repr

namespace NextHopKey

/-- The member `index()` of the variant. -/
def index {IPAddress : Type} : NextHopKey IPAddress → Nat
  | .ip _ => 0
  | .mpls _ => 1

/-- The next hop type of the alternative. -/
def saiType {IPAddress : Type} : NextHopKey IPAddress → Int
  | .ip _ => SAI_NEXT_HOP_TYPE_IP
  | .mpls _ => SAI_NEXT_HOP_TYPE_MPLS

/-- The router interface ID of the key. -/
def routerInterfaceId {IPAddress : Type} : NextHopKey IPAddress → Nat
  | .ip ipAhk => ipAhk.routerInterfaceId
  | .mpls mplsAhk => mplsAhk.routerInterfaceId

/-- The IP address of the key. -/
def ipAddress {IPAddress : Type} : NextHopKey IPAddress → IPAddress
  | .ip ipAhk => ipAhk.ip
  | .mpls mplsAhk => mplsAhk.ip

/-- The labels of the key; an IP next hop has none. -/
def labels {IPAddress : Type} : NextHopKey IPAddress → List Nat
  | .ip _ => []
  | .mpls mplsAhk => mplsAhk.labelStack

/-- The numbers of the key are in the range of their C++ types: the router
interface ID is below `2^64` and each label below `2^32`. -/
def InRange {IPAddress : Type} (ahk : NextHopKey IPAddress) : Prop :=
  ahk.routerInterfaceId < 18446744073709551616 ∧ ∀ label ∈ ahk.labels, label < 4294967296

end NextHopKey

/-- The strings `AttributeName<...>::value` of the attributes that the two
conversions name. The specialisations are in a header that is not among the
sources, so the strings are a parameter. -/
structure AttributeNames where
  type : String
  ipRouterInterfaceId : String
  ipIp : String
  mplsRouterInterfaceId : String
  mplsIp : String
  mplsLabelStack : String
  deriving DecidableEq, Repr

/-- The attributes of one kind of next hop have different names. -/
def AttributeNames.Distinct (names : AttributeNames) : Prop :=
  [names.type, names.ipRouterInterfaceId, names.ipIp].Nodup ∧
  [names.type, names.mplsRouterInterfaceId, names.mplsIp, names.mplsLabelStack].Nodup

instance (names : AttributeNames) : Decidable names.Distinct := by
  unfold AttributeNames.Distinct
  infer_instance

/-- Attribute names for the examples. -/
def sampleNames : AttributeNames :=
  ⟨"Type", "RouterInterfaceId", "Ip", "RouterInterfaceId", "Ip", "LabelStack"⟩

namespace SaiNextHopGroup

/-- The inner loop of `adapterHostKeyToFollyDynamic`: each label is written
as a decimal string and pushed to the back of `object[name]`. -/
def pushLabels (name : String) :
    List Nat → Table String Folly.dynamic → Except Folly.ConversionFault (Table String Folly.dynamic)
  | [], object => .ok object
  | label :: rest, object =>
    match Folly.dynamic.push_back (.string (toString label))
        ((Table.find name object).getD .null) with
    | .ok member => pushLabels name rest (Table.assign name member object)
    | .error e => .error e

/-- The body of the loop of `adapterHostKeyToFollyDynamic`: the object that is
made for one element of the key. The member `str` of an IP address is the
parameter `str`. -/
def encodeKey {IPAddress : Type} (names : AttributeNames) (str : IPAddress → String)
    (ahk : NextHopKey IPAddress) : Except Folly.ConversionFault Folly.dynamic :=
  let object : Table String Folly.dynamic := []
  let object := Table.assign names.type (.string (toString ahk.index)) object
  match ahk with
  | .ip ipAhk =>
    let object := Table.assign names.ipRouterInterfaceId
      (.string (toString ipAhk.routerInterfaceId)) object
    let object := Table.assign names.ipIp (.string (str ipAhk.ip)) object
    .ok (.object object)
  | .mpls mplsAhk =>
    let object := Table.assign names.mplsRouterInterfaceId
      (.string (toString mplsAhk.routerInterfaceId)) object
    let object := Table.assign names.mplsIp (.string (str mplsAhk.ip)) object
    let object := Table.assign names.mplsLabelStack (.array []) object
    match pushLabels names.mplsLabelStack mplsAhk.labelStack object with
    | .ok object => .ok (.object object)
    | .error e => .error e

/-- The loop of `adapterHostKeyToFollyDynamic` over the elements of the key,
with the elements of the array `json` made so far. -/
def encodeLoop {IPAddress : Type} (names : AttributeNames) (str : IPAddress → String) :
    List (NextHopKey IPAddress) → List Folly.dynamic → Except Folly.ConversionFault (List Folly.dynamic)
  | [], json => .ok json
  | ahk :: rest, json =>
    match encodeKey names str ahk with
    | .ok object => encodeLoop names str rest (json ++ [object])
    | .error e => .error e

/-- The function `adapterHostKeyToFollyDynamic`. The key, a `std::set`, is
given by the sequence in which the loop visits its elements. -/
def adapterHostKeyToFollyDynamic {IPAddress : Type} (names : AttributeNames)
    (str : IPAddress → String) (adapterHostKey_ : List (NextHopKey IPAddress)) :
    Except Folly.ConversionFault Folly.dynamic :=
  match encodeLoop names str adapterHostKey_ [] with
  | .ok json => .ok (.array json)
  | .error e => .error e

/-- The inner loop of `follyDynamicToAdapterHostKey`: `asInt` of each label,
converted to `sai_uint32_t`, is pushed to the back of `stack`. -/
def decodeLabels : List Folly.dynamic → List Nat → Except Folly.ConversionFault (List Nat)
  | [], stack => .ok stack
  | label :: rest, stack =>
    match label.asInt with
    | .ok i => decodeLabels rest (stack ++ [(i % 4294967296).toNat])
    | .error e => .error e

/-- The constructor `folly::IPAddress(string)`, the parameter `ipAddress`,
which has no value where the constructor throws. -/
def makeIPAddress {IPAddress : Type} (ipAddress : String → Option IPAddress) (s : String) :
    Except Folly.ConversionFault IPAddress :=
  match ipAddress s with
  | some a => .ok a
  | none => .error .ipAddressFormat

/-- The body of the loop of `follyDynamicToAdapterHostKey`: the element of the
key that is read from one object. -/
def decodeObject {IPAddress : Type} (names : AttributeNames)
    (ipAddress : String → Option IPAddress) (object : Folly.dynamic) :
    Except Folly.ConversionFault (NextHopKey IPAddress) := do
  let type ← (← object.index names.type).asInt
  if type = SAI_NEXT_HOP_TYPE_IP then
    let routerInterfaceId ←
      Folly.toObjectId (← (← object.index names.ipRouterInterfaceId).asString)
    let ip ← makeIPAddress ipAddress (← (← object.index names.ipIp).asString)
    pure (.ip ⟨routerInterfaceId, ip⟩)
  else if type = SAI_NEXT_HOP_TYPE_MPLS then
    let routerInterfaceId ←
      Folly.toObjectId (← (← object.index names.mplsRouterInterfaceId).asString)
    let ip ← makeIPAddress ipAddress (← (← object.index names.mplsIp).asString)
    let stack ← decodeLabels (← (← object.index names.mplsLabelStack).elements) []
    pure (.mpls ⟨routerInterfaceId, ip, stack⟩)
  else
    throw (.fatal type)

/-- The loop of `follyDynamicToAdapterHostKey` over the elements of the array,
with the set `key` made so far. -/
def decodeLoop {IPAddress : Type} [DecidableEq IPAddress] (names : AttributeNames)
    (ipAddress : String → Option IPAddress) :
    List Folly.dynamic → Finset (NextHopKey IPAddress) → Except Folly.ConversionFault (Finset (NextHopKey IPAddress))
  | [], key => .ok key
  | object :: rest, key =>
    match decodeObject names ipAddress object with
    | .ok ahk => decodeLoop names ipAddress rest (insert ahk key)
    | .error e => .error e

/-- The function `follyDynamicToAdapterHostKey`. -/
def follyDynamicToAdapterHostKey {IPAddress : Type} [DecidableEq IPAddress]
    (names : AttributeNames) (ipAddress : String → Option IPAddress) (json : Folly.dynamic) :
    Except Folly.ConversionFault (Finset (NextHopKey IPAddress)) :=
  match json.elements with
  | .ok elems => decodeLoop names ipAddress elems ∅
  | .error e => .error e

/-- A key for the examples, with addresses as their text: an IP next hop and
an MPLS next hop with two labels. -/
def sampleKey : List (NextHopKey String) :=
  [.ip ⟨5, "10.0.0.1"⟩, .mpls ⟨7, "10.0.0.2", [100, 200]⟩]

end SaiNextHopGroup

/-! # Proofs -/

open LoadBalancerConfigParser LoadBalancerConfigApplier

/-! ## Facts about the flat containers -/

theorem FlatSet.mem_insert (x y : Nat) (l : List Nat) :
    y ∈ (FlatSet.insert x l).1 ↔ y = x ∨ y ∈ l := by
  induction l with
  | nil => simp [FlatSet.insert]
  | cons z zs ih =>
    unfold FlatSet.insert
    by_cases h1 : x < z
    · simp [h1]
    · by_cases h2 : x = z
      · subst h2; simp
      · simp only [h1, h2, if_false, List.mem_cons, ih]
        tauto

theorem FlatSet.sorted_insert (x : Nat) (l : List Nat) (h : l.Sorted (· < ·)) :
    (FlatSet.insert x l).1.Sorted (· < ·) := by
  induction l with
  | nil => simp [FlatSet.insert]
  | cons z zs ih =>
    have hz := List.sorted_cons.mp h
    unfold FlatSet.insert
    by_cases h1 : x < z
    · simp only [h1, if_true]
      refine List.sorted_cons.mpr ⟨?_, h⟩
      intro b hb
      rcases List.mem_cons.mp hb with rfl | hb
      · exact h1
      · exact lt_trans h1 (hz.1 b hb)
    · by_cases h2 : x = z
      · subst h2
        simpa using h
      · simp only [h1, h2, if_false]
        refine List.sorted_cons.mpr ⟨?_, ih hz.2⟩
        intro b hb
        rcases (FlatSet.mem_insert x b zs).mp hb with rfl | hb
        · omega
        · exact hz.1 b hb

theorem FlatSet.insert_snd (x : Nat) (l : List Nat) (h : l.Sorted (· < ·)) :
    (FlatSet.insert x l).2 = true ↔ x ∉ l := by
  induction l with
  | nil => simp [FlatSet.insert]
  | cons z zs ih =>
    have hz := List.sorted_cons.mp h
    unfold FlatSet.insert
    by_cases h1 : x < z
    · simp only [h1, if_true, List.mem_cons, not_or, true_iff]
      refine ⟨by omega, fun hx => ?_⟩
      have := hz.1 x hx
      omega
    · by_cases h2 : x = z
      · simp [h2]
      · simp only [h1, h2, if_false, ih hz.2, List.mem_cons, not_or, not_false_eq_true,
          true_and]

theorem FlatMap.keys_emplace (k : LoadBalancerID) (v : Addr) (m : NodeContainer) :
    (FlatMap.emplace k v m).1.map Prod.fst = (FlatSet.insert k (m.map Prod.fst)).1 ∧
    (FlatMap.emplace k v m).2 = (FlatSet.insert k (m.map Prod.fst)).2 := by
  induction m with
  | nil => simp [FlatMap.emplace, FlatSet.insert]
  | cons e es ih =>
    unfold FlatMap.emplace
    simp only [List.map_cons]
    unfold FlatSet.insert
    by_cases h1 : k < e.1
    · simp [h1]
    · by_cases h2 : k = e.1
      · simp [h2]
      · simp only [h1, h2, if_false, List.map_cons, ih.1, ih.2, and_self]

theorem FlatMap.find_emplace (k k' : LoadBalancerID) (v : Addr) (m : NodeContainer)
    (h : (FlatMap.emplace k v m).2 = true) :
    FlatMap.find k' (FlatMap.emplace k v m).1 = if k' = k then some v else FlatMap.find k' m := by
  induction m with
  | nil => simp [FlatMap.emplace, FlatMap.find, eq_comm]
  | cons e es ih =>
    unfold FlatMap.emplace at h ⊢
    by_cases h1 : k < e.1
    · simp only [h1, if_true]
      simp only [FlatMap.find, eq_comm]
    · by_cases h2 : k = e.1
      · simp [h1, h2] at h
      · simp only [h1, h2, if_false] at h ⊢
        simp only [FlatMap.find, ih h]
        by_cases h3 : e.1 = k'
        · have : ¬ k' = k := fun hk => h2 (by rw [← hk, h3])
          simp [h3, this]
        · simp [h3]

theorem FlatMap.find_eq_none (k : LoadBalancerID) (m : NodeContainer) :
    FlatMap.find k m = none ↔ k ∉ m.map Prod.fst := by
  induction m with
  | nil => simp [FlatMap.find]
  | cons e es ih =>
    simp only [FlatMap.find, List.map_cons, List.mem_cons, not_or]
    by_cases h : e.1 = k
    · simp [h]
    · simp only [h, if_false, ih]
      constructor
      · intro hk; exact ⟨fun hh => h hh.symm, hk⟩
      · intro hk; exact hk.2

theorem FlatMap.find_mem (k : LoadBalancerID) (a : Addr) (m : NodeContainer)
    (h : FlatMap.find k m = some a) : (k, a) ∈ m := by
  induction m with
  | nil => simp [FlatMap.find] at h
  | cons e es ih =>
    simp only [FlatMap.find] at h
    by_cases h1 : e.1 = k
    · simp only [h1, if_true, Option.some.injEq] at h
      have : e = (k, a) := by rw [← h1, ← h]
      simp [this]
    · simp only [h1, if_false] at h
      exact List.mem_cons_of_mem _ (ih h)

theorem LoadBalancer.equals_iff (a b : LoadBalancer) : a.equals b = true ↔ a = b := by
  cases a; cases b
  simp [LoadBalancer.equals, and_assoc]
  tauto

theorem parsedNode_id (gds : LoadBalancerID → MacAddress → Nat) (pf : Platform)
    (c : CfgLoadBalancer) : (parsedNode gds pf c).id = c.id := rfl

theorem Store.makeShared_fst (s : Store) (v : LoadBalancer) :
    (s.makeShared v).1 = s.loadBalancers.length := rfl

theorem Store.loadBalancer_makeShared_new (s : Store) (v : LoadBalancer) :
    (s.makeShared v).2.loadBalancer s.loadBalancers.length = .ok v := by
  simp [Store.makeShared, Store.loadBalancer]

theorem Store.loadBalancer_makeShared_old (s : Store) (v : LoadBalancer) (a : Addr)
    (h : a < s.loadBalancers.length) :
    (s.makeShared v).2.loadBalancer a = s.loadBalancer a := by
  simp [Store.makeShared, Store.loadBalancer, List.getElem?_append_left h]

theorem reusedNode_lt {s : Store} {orig : Addr} {m : LoadBalancerMap}
    (hv : ValidOriginal s orig m) {v : LoadBalancer} {a : Addr}
    (h : reusedNode s m v = some a) : a < s.loadBalancers.length := by
  unfold reusedNode at h
  cases hf : m.getLoadBalancerIf v.id with
  | none => simp [hf] at h
  | some b =>
    simp only [hf] at h
    cases ho : s.loadBalancers[b]? with
    | none => simp [ho] at h
    | some o =>
      simp only [ho] at h
      by_cases he : v.equals o = true
      · simp only [he, if_true, Option.some.injEq] at h
        subst h
        exact hv.nodes_lt _ (FlatMap.find_mem _ _ _ hf)
      · simp [he] at h

/-- The loop body in closed form, for a record whose ID is new. -/
theorem loopBody_new (gds : LoadBalancerID → MacAddress → Nat)
    (self : LoadBalancerConfigApplier) (s0 : Store) (m : LoadBalancerMap)
    (hv : ValidOriginal s0 self.originalLoadBalancers_ m)
    (pre : List CfgLoadBalancer) (l : Locals) (s : Store)
    (hinv : LoopInv gds self.platform_ s0 m pre l s)
    (c : CfgLoadBalancer) (hc : c.id ∉ pre.map (·.id)) :
    loopBody gds self c l s =
      (.ok { newLoadBalancers :=
               (FlatMap.emplace c.id
                 ((reusedNode s0 m (parsedNode gds self.platform_ c)).getD s.loadBalancers.length)
                 l.newLoadBalancers).1,
             changed := l.changed || (reusedNode s0 m (parsedNode gds self.platform_ c)).isNone,
             loadBalancerIDs := (FlatSet.insert c.id l.loadBalancerIDs).1,
             numExistingProcessed := l.numExistingProcessed +
               if (m.getLoadBalancerIf c.id).isSome then 1 else 0 },
       (s.makeShared (parsedNode gds self.platform_ c)).2) := by
  have hins : (FlatSet.insert c.id l.loadBalancerIDs).2 = true :=
    (FlatSet.insert_snd _ _ hinv.sorted).mpr (fun h => hc ((hinv.ids _).mp h))
  have hemp : ∀ a, (FlatMap.emplace c.id a l.newLoadBalancers).2 = true := by
    intro a
    rw [(FlatMap.keys_emplace _ _ _).2, hinv.keys]; exact hins
  have hmap : (s.makeShared (parsedNode gds self.platform_ c)).2.loadBalancerMap
      self.originalLoadBalancers_ = .ok m := by
    simp [Store.makeShared, Store.loadBalancerMap, hinv.maps_eq, hv.map_eq]
  have hlen : s0.loadBalancers.length ≤ s.loadBalancers.length := by
    rw [hinv.objs_eq]; simp
  have hold : ∀ a, a < s0.loadBalancers.length →
      (s.makeShared (parsedNode gds self.platform_ c)).2.loadBalancer a =
        match s0.loadBalancers[a]? with
        | some lb => .ok lb
        | none => .error .badPointer := by
    intro a ha
    rw [Store.loadBalancer_makeShared_old _ _ _ (lt_of_lt_of_le ha hlen)]
    simp [Store.loadBalancer, hinv.objs_eq, List.getElem?_append_left ha]
  unfold loopBody
  simp only [parse, Store.makeShared_fst]
  rw [Store.loadBalancer_makeShared_new]
  simp only [parsedNode_id, hins, hmap, Bool.not_true, Bool.false_eq_true, if_false]
  unfold reusedNode
  simp only [parsedNode_id]
  cases hf : m.getLoadBalancerIf c.id with
  | none =>
    simp only [appendToLoadBalancerContainer, Store.loadBalancer_makeShared_new, parsedNode_id,
      hemp, if_true, Option.getD_none, Option.isNone_none, Option.isSome_none,
      Bool.false_eq_true, if_false, Nat.add_zero]
  | some a =>
    have ha : a < s0.loadBalancers.length := hv.nodes_lt _ (FlatMap.find_mem _ _ _ hf)
    obtain ⟨o, ho⟩ : ∃ o, s0.loadBalancers[a]? = some o :=
      ⟨_, List.getElem?_eq_getElem ha⟩
    simp only [hold a ha, ho, Option.isSome_some, if_true]
    by_cases he : (parsedNode gds self.platform_ c).equals o = true
    · have hid : o.id = c.id := by
        rw [← (LoadBalancer.equals_iff _ _).mp he]; rfl
      simp only [he, if_true, appendToLoadBalancerContainer, hold a ha, ho, hid, hemp,
        Option.getD_some, Option.isNone_some, Bool.or_false]
    · simp only [he, if_false, appendToLoadBalancerContainer,
        Store.loadBalancer_makeShared_new, parsedNode_id, hemp, if_true, Option.getD_none,
        Option.isNone_none]
      rfl

theorem FlatMap.mem_emplace (k : LoadBalancerID) (v : Addr) (m : NodeContainer)
    (e : LoadBalancerID × Addr) (h : e ∈ (FlatMap.emplace k v m).1) : e = (k, v) ∨ e ∈ m := by
  induction m with
  | nil => simpa [FlatMap.emplace] using h
  | cons x xs ih =>
    unfold FlatMap.emplace at h
    by_cases h1 : k < x.1
    · simp only [h1, if_true, List.mem_cons] at h
      simpa using h
    · by_cases h2 : k = x.1
      · rw [if_neg h1, if_pos h2] at h
        exact Or.inr h
      · rw [if_neg h1, if_neg h2] at h
        rcases List.mem_cons.mp h with h | h
        · exact Or.inr (by simp [h])
        · rcases ih h with h | h
          · exact Or.inl h
          · exact Or.inr (List.mem_cons_of_mem _ h)

/-- The loop body for a record whose ID an earlier record had: the error. -/
theorem loopBody_dup (gds : LoadBalancerID → MacAddress → Nat)
    (self : LoadBalancerConfigApplier) (s0 : Store) (m : LoadBalancerMap)
    (pre : List CfgLoadBalancer) (l : Locals) (s : Store)
    (hinv : LoopInv gds self.platform_ s0 m pre l s)
    (c : CfgLoadBalancer) (hc : c.id ∈ pre.map (·.id)) :
    loopBody gds self c l s =
      (.error (.fbossError (duplicateMessage c.id)),
       (s.makeShared (parsedNode gds self.platform_ c)).2) := by
  have hins : (FlatSet.insert c.id l.loadBalancerIDs).2 = false := by
    cases h : (FlatSet.insert c.id l.loadBalancerIDs).2
    · rfl
    · exact absurd ((hinv.ids _).mpr hc) ((FlatSet.insert_snd _ _ hinv.sorted).mp h)
  unfold loopBody
  simp only [parse, Store.makeShared_fst]
  rw [Store.loadBalancer_makeShared_new]
  simp only [parsedNode_id, hins, Bool.not_false, if_true]

theorem loopInv_init (gds : LoadBalancerID → MacAddress → Nat) (pf : Platform)
    (s0 : Store) (m : LoadBalancerMap) :
    LoopInv gds pf s0 m []
      { newLoadBalancers := [], changed := false, loadBalancerIDs := [],
        numExistingProcessed := 0 } s0 where
  maps_eq := rfl
  objs_eq := by simp
  sorted := List.sorted_nil
  ids := by simp
  keys := rfl
  addrs := by simp
  entries := by simp
  num := rfl
  changed := rfl
  nodup := List.nodup_nil

/-- The invariant of the loop is kept by an iteration for a record with a new
ID. -/
theorem loopInv_step (gds : LoadBalancerID → MacAddress → Nat)
    (self : LoadBalancerConfigApplier) (s0 : Store) (m : LoadBalancerMap)
    (hv : ValidOriginal s0 self.originalLoadBalancers_ m)
    (pre : List CfgLoadBalancer) (l : Locals) (s : Store)
    (hinv : LoopInv gds self.platform_ s0 m pre l s)
    (c : CfgLoadBalancer) (hc : c.id ∉ pre.map (·.id)) :
    ∃ l1, loopBody gds self c l s =
        (.ok l1, (s.makeShared (parsedNode gds self.platform_ c)).2) ∧
      LoopInv gds self.platform_ s0 m (pre ++ [c]) l1
        (s.makeShared (parsedNode gds self.platform_ c)).2 := by
  refine ⟨_, loopBody_new gds self s0 m hv pre l s hinv c hc, ?_⟩
  have hins : (FlatSet.insert c.id l.loadBalancerIDs).2 = true :=
    (FlatSet.insert_snd _ _ hinv.sorted).mpr (fun h => hc ((hinv.ids _).mp h))
  have hemp : ∀ a, (FlatMap.emplace c.id a l.newLoadBalancers).2 = true := by
    intro a
    rw [(FlatMap.keys_emplace _ _ _).2, hinv.keys]; exact hins
  have hlen : s.loadBalancers.length = s0.loadBalancers.length + pre.length := by
    rw [hinv.objs_eq]; simp
  constructor
  · exact hinv.maps_eq
  · simp [Store.makeShared, hinv.objs_eq]
  · exact FlatSet.sorted_insert _ _ hinv.sorted
  · intro k
    simp only [FlatSet.mem_insert, hinv.ids, List.map_append, List.mem_append, List.map_cons,
      List.map_nil, List.mem_singleton]
    tauto
  · simp only [(FlatMap.keys_emplace _ _ _).1, hinv.keys]
  · intro e he
    have hl1 : (s.makeShared (parsedNode gds self.platform_ c)).2.loadBalancers.length =
        s.loadBalancers.length + 1 := by simp [Store.makeShared]
    rw [hl1]
    rcases FlatMap.mem_emplace _ _ _ _ he with rfl | he
    · cases hr : reusedNode s0 m (parsedNode gds self.platform_ c) with
      | none => simp
      | some a =>
        have h1 : a < s0.loadBalancers.length := reusedNode_lt hv hr
        have h2 : a < s.loadBalancers.length := by
          rw [hlen]; exact Nat.lt_add_right _ h1
        exact Nat.lt_succ_of_lt h2
    · exact Nat.lt_succ_of_lt (hinv.addrs e he)
  · intro p1 c' p2 hp
    rw [FlatMap.find_emplace _ _ _ _ (hemp _)]
    rcases List.eq_nil_or_concat p2 with rfl | ⟨p2', b, rfl⟩
    · obtain ⟨h1, h2⟩ := List.append_inj' hp rfl
      simp only [List.cons.injEq, and_true] at h2
      subst h1 h2
      simp [hlen]
    · have hp' : pre ++ [c] = (p1 ++ c' :: p2') ++ [b] := by simp [hp]
      obtain ⟨h1, h2⟩ := List.append_inj' hp' rfl
      have hne : c'.id ≠ c.id := by
        intro h
        apply hc
        rw [h1, ← h]
        simp
      simp only [hne, if_false]
      exact hinv.entries p1 c' p2' h1
  · simp only [List.filter_append, List.length_append, hinv.num]
    by_cases h : (m.getLoadBalancerIf c.id).isSome = true <;> simp [List.filter, h]
  · simp [hinv.changed]
  · rw [List.map_append]
    refine List.Nodup.append hinv.nodup (by simp) ?_
    simpa [List.disjoint_singleton] using hc

theorem loop_append (gds : LoadBalancerID → MacAddress → Nat)
    (self : LoadBalancerConfigApplier) (xs ys : List CfgLoadBalancer) (l : Locals) (s : Store) :
    loop gds self (xs ++ ys) l s =
      match loop gds self xs l s with
      | (.ok l1, s1) => loop gds self ys l1 s1
      | (.error e, s1) => (.error e, s1) := by
  induction xs generalizing l s with
  | nil => simp [loop]
  | cons x xs ih =>
    simp only [List.cons_append, loop]
    rcases hb : loopBody gds self x l s with ⟨r, s1⟩
    cases r with
    | error e => simp
    | ok l1 => simp [ih]

/-- The loop over records whose IDs are new and pairwise distinct runs to its
end and keeps the invariant. -/
theorem loop_ok (gds : LoadBalancerID → MacAddress → Nat)
    (self : LoadBalancerConfigApplier) (s0 : Store) (m : LoadBalancerMap)
    (hv : ValidOriginal s0 self.originalLoadBalancers_ m)
    (cs pre : List CfgLoadBalancer) (l : Locals) (s : Store)
    (hinv : LoopInv gds self.platform_ s0 m pre l s)
    (hnd : ((pre ++ cs).map (·.id)).Nodup) :
    ∃ l1 s1, loop gds self cs l s = (.ok l1, s1) ∧
      LoopInv gds self.platform_ s0 m (pre ++ cs) l1 s1 := by
  induction cs generalizing pre l s with
  | nil => exact ⟨l, s, rfl, by simpa using hinv⟩
  | cons c cs ih =>
    have hc : c.id ∉ pre.map (·.id) := by
      intro h
      rw [List.map_append, List.map_cons] at hnd
      exact (List.nodup_append.mp hnd).2.2 h (List.mem_cons_self _ _)
    obtain ⟨l1, hb, hinv1⟩ := loopInv_step gds self s0 m hv pre l s hinv c hc
    have hnd1 : (((pre ++ [c]) ++ cs).map (·.id)).Nodup := by simpa using hnd
    obtain ⟨l2, s2, hl, hinv2⟩ := ih (pre ++ [c]) l1 _ hinv1 hnd1
    refine ⟨l2, s2, ?_, by simpa using hinv2⟩
    simp only [loop, hb, hl]

/-- The loop stops with the duplicate-ID error at the first record whose ID
an earlier record had. -/
theorem loop_dup (gds : LoadBalancerID → MacAddress → Nat)
    (self : LoadBalancerConfigApplier) (s0 : Store) (m : LoadBalancerMap)
    (hv : ValidOriginal s0 self.originalLoadBalancers_ m)
    (mid : List CfgLoadBalancer) (d : CfgLoadBalancer) (post : List CfgLoadBalancer)
    (hnd : (mid.map (·.id)).Nodup) (hd : d.id ∈ mid.map (·.id)) :
    ∃ s1, loop gds self (mid ++ d :: post)
        { newLoadBalancers := [], changed := false, loadBalancerIDs := [],
          numExistingProcessed := 0 } s0 =
        (.error (.fbossError (duplicateMessage d.id)), s1) ∧
      s1.loadBalancerMaps = s0.loadBalancerMaps ∧
      s1.loadBalancers =
        s0.loadBalancers ++ (mid ++ [d]).map (parsedNode gds self.platform_) := by
  obtain ⟨l1, s1, hl, hinv⟩ := loop_ok gds self s0 m hv mid [] _ s0
    (loopInv_init gds self.platform_ s0 m) (by simpa using hnd)
  simp only [List.nil_append] at hinv
  refine ⟨(s1.makeShared (parsedNode gds self.platform_ d)).2, ?_, hinv.maps_eq, ?_⟩
  · rw [loop_append, hl]
    simp only [loop, loopBody_dup gds self s0 m mid l1 s1 hinv d hd]
  · simp [Store.makeShared, hinv.objs_eq]

theorem reusedNode_eq_some_iff (s : Store) (m : LoadBalancerMap) (v : LoadBalancer) (a : Addr) :
    reusedNode s m v = some a ↔
      ∃ o, m.getLoadBalancerIf v.id = some a ∧ s.loadBalancers[a]? = some o ∧
        v.equals o = true := by
  unfold reusedNode
  cases hf : m.getLoadBalancerIf v.id with
  | none => simp
  | some b =>
    cases ho : s.loadBalancers[b]? with
    | none =>
      simp only [ho]
      constructor
      · intro h; cases h
      · rintro ⟨o, hb, ho', _⟩
        cases hb
        rw [ho] at ho'
        cases ho'
    | some o =>
      simp only [ho]
      by_cases he : v.equals o = true
      · simp only [he, if_true, Option.some.injEq]
        constructor
        · intro h; subst h; exact ⟨o, rfl, ho, he⟩
        · rintro ⟨_, h, _⟩; exact h
      · simp only [he, if_false]
        constructor
        · intro h; cases h
        · rintro ⟨o', hb, ho', he'⟩
          cases hb
          rw [ho] at ho'
          cases ho'
          exact absurd he' he

theorem reusedNode_isSome_iff (s : Store) (m : LoadBalancerMap) (v : LoadBalancer) :
    (reusedNode s m v).isSome = true ↔
      ∃ a o, m.getLoadBalancerIf v.id = some a ∧ s.loadBalancers[a]? = some o ∧
        v.equals o = true := by
  rw [Option.isSome_iff_exists]
  exact exists_congr fun a => reusedNode_eq_some_iff s m v a

/-- The number of records found in the original map never exceeds its size,
and reaches it exactly when every key of the original map is the ID of a
record. -/
theorem count_existing (m : LoadBalancerMap) (B : List CfgLoadBalancer)
    (hs : (m.nodes.map Prod.fst).Sorted (· < ·)) (hnd : (B.map (·.id)).Nodup) :
    (B.filter fun c => (m.getLoadBalancerIf c.id).isSome).length ≤ m.size ∧
    ((B.filter fun c => (m.getLoadBalancerIf c.id).isSome).length = m.size ↔
      ∀ k ∈ m.nodes.map Prod.fst, k ∈ B.map (·.id)) := by
  set F := B.filter fun c => (m.getLoadBalancerIf c.id).isSome with hF
  have hFnd : (F.map (·.id)).Nodup :=
    hnd.sublist ((List.filter_sublist B).map _)
  have hFsub : F.map (·.id) ⊆ m.nodes.map Prod.fst := by
    intro k hk
    obtain ⟨c, hc, rfl⟩ := List.mem_map.mp hk
    have h := (List.mem_filter.mp hc).2
    by_contra hn
    have := (FlatMap.find_eq_none c.id m.nodes).mpr hn
    simp [LoadBalancerMap.getLoadBalancerIf, this] at h
  have hsp : (F.map (·.id)).Subperm (m.nodes.map Prod.fst) :=
    List.subperm_of_subset hFnd hFsub
  have hle : F.length ≤ m.size := by
    have := hsp.length_le
    simpa [LoadBalancerMap.size] using this
  have hknd : (m.nodes.map Prod.fst).Nodup := hs.nodup
  refine ⟨hle, ?_, ?_⟩
  · intro heq k hk
    have hperm : (F.map (·.id)).Perm (m.nodes.map Prod.fst) :=
      hsp.perm_of_length_le (by simp [LoadBalancerMap.size] at heq; simp [heq])
    have hkF := hperm.mem_iff.mpr hk
    obtain ⟨c, hc, rfl⟩ := List.mem_map.mp hkF
    exact List.mem_map.mpr ⟨c, (List.mem_filter.mp hc).1, rfl⟩
  · intro hall
    have hsub : m.nodes.map Prod.fst ⊆ F.map (·.id) := by
      intro k hk
      obtain ⟨c, hc, rfl⟩ := List.mem_map.mp (hall k hk)
      refine List.mem_map.mpr ⟨c, List.mem_filter.mpr ⟨hc, ?_⟩, rfl⟩
      cases hf : m.getLoadBalancerIf c.id with
      | some a => rfl
      | none =>
        exact absurd hk ((FlatMap.find_eq_none c.id m.nodes).mp hf)
    have := (List.subperm_of_subset hknd hsub).length_le
    simp only [List.length_map] at this
    exact le_antisymm hle (by simpa [LoadBalancerMap.size] using this)

/-- The call in closed form, for a batch whose IDs are pairwise distinct. -/
theorem update_of_nodup (gds : LoadBalancerID → MacAddress → Nat)
    (self : LoadBalancerConfigApplier) (s : Store) (m : LoadBalancerMap)
    (hv : ValidOriginal s self.originalLoadBalancers_ m)
    (hnd : (self.loadBalancersConfig_.map (·.id)).Nodup) :
    ∃ l s1, LoopInv gds self.platform_ s m self.loadBalancersConfig_ l s1 ∧
      updateLoadBalancers gds self s =
        if (∀ k ∈ m.nodes.map Prod.fst, k ∈ self.loadBalancersConfig_.map (·.id)) ∧
            ∀ c ∈ self.loadBalancersConfig_,
              (reusedNode s m (parsedNode gds self.platform_ c)).isSome = true then
          (.ok none, s1)
        else
          (.ok (some s.loadBalancerMaps.length),
            { loadBalancers := s1.loadBalancers,
              loadBalancerMaps :=
                s.loadBalancerMaps ++ [{ nodes := l.newLoadBalancers, published := false }] }) := by
  obtain ⟨l, s1, hl, hinv⟩ := loop_ok gds self s m hv self.loadBalancersConfig_ [] _ s
    (loopInv_init gds self.platform_ s m) (by simpa using hnd)
  simp only [List.nil_append] at hinv
  refine ⟨l, s1, hinv, ?_⟩
  obtain ⟨hle, heq⟩ := count_existing m self.loadBalancersConfig_ hv.keys_sorted hnd
  rw [← hinv.num] at hle heq
  have hmap : s1.loadBalancerMap self.originalLoadBalancers_ = .ok m := by
    simp [Store.loadBalancerMap, hinv.maps_eq, hv.map_eq]
  have hch : l.changed = false ↔ ∀ c ∈ self.loadBalancersConfig_,
      (reusedNode s m (parsedNode gds self.platform_ c)).isSome = true := by
    rw [hinv.changed]
    simp only [List.any_eq_false, Option.isNone_iff_eq_none, Option.isSome_iff_ne_none, ne_eq]
  unfold updateLoadBalancers
  simp only [hl, hmap]
  by_cases h1 : l.numExistingProcessed = m.size
  · by_cases h2 : l.changed = false
    · have hc := And.intro (heq.mp h1) (hch.mp h2)
      rw [if_pos hc]
      simp [h1, h2]
    · have hc : ¬ ((∀ k ∈ m.nodes.map Prod.fst, k ∈ self.loadBalancersConfig_.map (·.id)) ∧
          ∀ c ∈ self.loadBalancersConfig_,
            (reusedNode s m (parsedNode gds self.platform_ c)).isSome = true) :=
        fun h => h2 (hch.mpr h.2)
      rw [if_neg hc]
      simp only [Bool.not_eq_false] at h2
      simp [h1, h2, Store.cloneMap, hinv.maps_eq]
  · have hc : ¬ ((∀ k ∈ m.nodes.map Prod.fst, k ∈ self.loadBalancersConfig_.map (·.id)) ∧
        ∀ c ∈ self.loadBalancersConfig_,
          (reusedNode s m (parsedNode gds self.platform_ c)).isSome = true) :=
      fun h => h1 (heq.mpr h.1)
    rw [if_neg hc]
    have hlt : l.numExistingProcessed < m.size := lt_of_le_of_ne hle h1
    simp [h1, hlt, Store.cloneMap, hinv.maps_eq]

/-- A batch with a repeated ID splits at the first record that repeats the ID
of an earlier one. -/
theorem exists_first_dup (B pre : List CfgLoadBalancer)
    (hpre : (pre.map (·.id)).Nodup) (h : ¬ ((pre ++ B).map (·.id)).Nodup) :
    ∃ mid d post, B = mid ++ d :: post ∧ ((pre ++ mid).map (·.id)).Nodup ∧
      d.id ∈ (pre ++ mid).map (·.id) := by
  induction B generalizing pre with
  | nil => simp at h; exact absurd hpre h
  | cons x xs ih =>
    by_cases hx : x.id ∈ pre.map (·.id)
    · exact ⟨[], x, xs, rfl, by simpa using hpre, by simpa using hx⟩
    · have hpre1 : ((pre ++ [x]).map (·.id)).Nodup := by
        rw [List.map_append]
        refine List.Nodup.append hpre (by simp) ?_
        simpa [List.disjoint_singleton] using hx
      obtain ⟨mid, d, post, hB, hnd, hd⟩ := ih (pre ++ [x]) hpre1 (by simpa using h)
      exact ⟨x :: mid, d, post, by simp [hB], by simpa using hnd, by simpa using hd⟩

/-- The call in closed form, for a batch with a repeated ID. -/
theorem update_of_dup (gds : LoadBalancerID → MacAddress → Nat)
    (self : LoadBalancerConfigApplier) (s : Store) (m : LoadBalancerMap)
    (hv : ValidOriginal s self.originalLoadBalancers_ m)
    (mid : List CfgLoadBalancer) (d : CfgLoadBalancer) (post : List CfgLoadBalancer)
    (hB : self.loadBalancersConfig_ = mid ++ d :: post)
    (hnd : (mid.map (·.id)).Nodup) (hd : d.id ∈ mid.map (·.id)) :
    updateLoadBalancers gds self s =
      (.error (.fbossError (duplicateMessage d.id)),
        { loadBalancers :=
            s.loadBalancers ++ (mid ++ [d]).map (parsedNode gds self.platform_),
          loadBalancerMaps := s.loadBalancerMaps }) := by
  obtain ⟨s1, hl, hm, ho⟩ := loop_dup gds self s m hv mid d post hnd hd
  unfold updateLoadBalancers
  rw [hB, hl]
  simp only [← hm, ← ho]

theorem sampleValid : ValidOriginal sampleStore 0 sampleMap where
  map_eq := rfl
  nodes_lt := by decide
  keys_sorted := by decide

/-- Where the entry of a processed record points: at an object equal to the
parsed candidate, and at the candidate itself when no original was reused. -/
theorem LoopInv.entry_deref {gds : LoadBalancerID → MacAddress → Nat} {pf : Platform}
    {s0 : Store} {m : LoadBalancerMap} {pre : List CfgLoadBalancer} {l : Locals} {s : Store}
    (hinv : LoopInv gds pf s0 m pre l s)
    {orig : Addr} (hv : ValidOriginal s0 orig m)
    (p1 : List CfgLoadBalancer) (c : CfgLoadBalancer) (p2 : List CfgLoadBalancer)
    (hp : pre = p1 ++ c :: p2) :
    (∀ a, reusedNode s0 m (parsedNode gds pf c) = some a →
      ∃ o, s0.loadBalancers[a]? = some o ∧ s.loadBalancers[a]? = some o ∧
        (parsedNode gds pf c).equals o = true) ∧
    s.loadBalancers[s0.loadBalancers.length + p1.length]? = some (parsedNode gds pf c) := by
  constructor
  · intro a ha
    obtain ⟨o, _, ho, he⟩ := (reusedNode_eq_some_iff _ _ _ _).mp ha
    have hlt := reusedNode_lt hv ha
    refine ⟨o, ho, ?_, he⟩
    rw [hinv.objs_eq, List.getElem?_append_left hlt, ho]
  · rw [hinv.objs_eq, hp, List.getElem?_append_right (Nat.le_add_right _ _),
      Nat.add_sub_cancel_left, List.map_append,
      List.getElem?_append_right (by simp)]
    simp

/-- The three ways a call of `updateLoadBalancers` can end, each with the store
it leaves. -/
theorem update_cases (gds : LoadBalancerID → MacAddress → Nat)
    (self : LoadBalancerConfigApplier) (s : Store) (m : LoadBalancerMap)
    (hv : ValidOriginal s self.originalLoadBalancers_ m) :
    (∃ mid d post, self.loadBalancersConfig_ = mid ++ d :: post ∧
        (mid.map (·.id)).Nodup ∧ d.id ∈ mid.map (·.id) ∧
        updateLoadBalancers gds self s =
          (.error (.fbossError (duplicateMessage d.id)),
            { loadBalancers :=
                s.loadBalancers ++ (mid ++ [d]).map (parsedNode gds self.platform_),
              loadBalancerMaps := s.loadBalancerMaps })) ∨
    ((self.loadBalancersConfig_.map (·.id)).Nodup ∧
      ∃ l s1, LoopInv gds self.platform_ s m self.loadBalancersConfig_ l s1 ∧
        ((NothingChanged gds self.platform_ s m self.loadBalancersConfig_ ∧
            updateLoadBalancers gds self s = (.ok none, s1)) ∨
         (¬ NothingChanged gds self.platform_ s m self.loadBalancersConfig_ ∧
            updateLoadBalancers gds self s =
              (.ok (some s.loadBalancerMaps.length),
                { loadBalancers := s1.loadBalancers,
                  loadBalancerMaps :=
                    s.loadBalancerMaps ++
                      [{ nodes := l.newLoadBalancers, published := false }] })))) := by
  by_cases hnd : (self.loadBalancersConfig_.map (·.id)).Nodup
  · right
    refine ⟨hnd, ?_⟩
    obtain ⟨l, s1, hinv, hres⟩ := update_of_nodup gds self s m hv hnd
    refine ⟨l, s1, hinv, ?_⟩
    by_cases hc : NothingChanged gds self.platform_ s m self.loadBalancersConfig_
    · left
      refine ⟨hc, ?_⟩
      rw [hres]; exact if_pos hc
    · right
      refine ⟨hc, ?_⟩
      rw [hres]; exact if_neg hc
  · left
    obtain ⟨mid, d, post, hB, hmid, hd⟩ :=
      exists_first_dup self.loadBalancersConfig_ [] List.nodup_nil (by simpa using hnd)
    exact ⟨mid, d, post, hB, by simpa using hmid, by simpa using hd,
      update_of_dup gds self s m hv mid d post hB (by simpa using hmid) (by simpa using hd)⟩

theorem nothingChanged_iff (gds : LoadBalancerID → MacAddress → Nat) (pf : Platform)
    (s : Store) (m : LoadBalancerMap) (B : List CfgLoadBalancer) :
    NothingChanged gds pf s m B ↔
      (∀ k, k ∈ B.map parseLoadBalancerID ↔ k ∈ m.nodes.map Prod.fst) ∧
      ∀ c ∈ B, ∃ a o, m.getLoadBalancerIf (parseLoadBalancerID c) = some a ∧
        s.loadBalancers[a]? = some o ∧ (parsedNode gds pf c).equals o = true := by
  unfold NothingChanged
  constructor
  · rintro ⟨h1, h2⟩
    refine ⟨fun k => ⟨?_, h1 k⟩, fun c hc => (reusedNode_isSome_iff _ _ _).mp (h2 c hc)⟩
    intro hk
    obtain ⟨c, hc, rfl⟩ := List.mem_map.mp hk
    obtain ⟨a, o, ha, -, -⟩ := (reusedNode_isSome_iff _ _ _).mp (h2 c hc)
    by_contra hn
    have := (FlatMap.find_eq_none c.id m.nodes).mpr hn
    rw [parsedNode_id] at ha
    simp [LoadBalancerMap.getLoadBalancerIf, this] at ha
  · rintro ⟨h1, h2⟩
    exact ⟨fun k hk => (h1 k).mpr hk, fun c hc => (reusedNode_isSome_iff _ _ _).mpr (h2 c hc)⟩

/-! ## The claims about `updateLoadBalancers` -/

/-- C1. `updateLoadBalancers` fails with the duplicate-ID error if and only if
two records of the batch have the same parsed ID, and for a batch whose IDs are
pairwise distinct it returns, `nullptr` or a new map, whatever the original map
holds. -/
theorem updateLoadBalancers_duplicate_iff (gds : LoadBalancerID → MacAddress → Nat)
    (self : LoadBalancerConfigApplier) (s : Store) (m : LoadBalancerMap)
    (hv : ValidOriginal s self.originalLoadBalancers_ m) :
    ((∃ id, (updateLoadBalancers gds self s).1 =
        .error (.fbossError (duplicateMessage id))) ↔
      ¬ (self.loadBalancersConfig_.map parseLoadBalancerID).Nodup) ∧
    ((self.loadBalancersConfig_.map parseLoadBalancerID).Nodup →
      (updateLoadBalancers gds self s).1 = .ok none ∨
      ∃ newMap, (updateLoadBalancers gds self s).1 = .ok (some newMap)) := by
  rcases update_cases gds self s m hv with
    ⟨mid, d, post, hB, hmid, hd, hres⟩ | ⟨hnd, l, s1, -, ⟨-, hres⟩ | ⟨-, hres⟩⟩
  · have hnn : ¬ (self.loadBalancersConfig_.map parseLoadBalancerID).Nodup := by
      intro h
      rw [hB] at h
      have h' : (mid.map (·.id) ++ d.id :: post.map (·.id)).Nodup := by
        simpa [parseLoadBalancerID] using h
      exact (List.nodup_append.mp h').2.2 hd (List.mem_cons_self _ _)
    exact ⟨⟨fun _ => hnn, fun _ => ⟨d.id, by rw [hres]⟩⟩, fun h => absurd h hnn⟩
  · refine ⟨⟨?_, fun h => absurd hnd h⟩, fun _ => Or.inl (by rw [hres])⟩
    rintro ⟨id, h⟩
    rw [hres] at h
    cases h
  · refine ⟨⟨?_, fun h => absurd hnd h⟩, fun _ => Or.inr ⟨_, by rw [hres]⟩⟩
    rintro ⟨id, h⟩
    rw [hres] at h
    cases h

theorem updateLoadBalancers_duplicate_iff_witness :
    ValidOriginal sampleStore 0 sampleMap ∧
    ((∃ id, (updateLoadBalancers sampleSeed
        (sampleApplier [sampleEcmp, sampleAggregate, sampleEcmp]) sampleStore).1 =
          .error (.fbossError (duplicateMessage id))) ↔
      ¬ ([sampleEcmp, sampleAggregate, sampleEcmp].map parseLoadBalancerID).Nodup) ∧
    (([sampleEcmp, sampleAggregate, sampleEcmp].map parseLoadBalancerID).Nodup →
      (updateLoadBalancers sampleSeed
        (sampleApplier [sampleEcmp, sampleAggregate, sampleEcmp]) sampleStore).1 = .ok none ∨
      ∃ newMap, (updateLoadBalancers sampleSeed
        (sampleApplier [sampleEcmp, sampleAggregate, sampleEcmp]) sampleStore).1 =
          .ok (some newMap)) :=
  ⟨sampleValid,
    updateLoadBalancers_duplicate_iff sampleSeed
      (sampleApplier [sampleEcmp, sampleAggregate, sampleEcmp]) sampleStore sampleMap
      sampleValid⟩

/-- C2. Identity preservation: when `updateLoadBalancers` returns a new map
(which it does for batches without repeated IDs only), every record whose
parsed candidate is equal (`operator==`) to the original node with its ID is
held in the new map by the address of that original node, an object that
existed before the call and is still what it was, not by the address of a
candidate the call created. -/
theorem updateLoadBalancers_preserves_identity (gds : LoadBalancerID → MacAddress → Nat)
    (self : LoadBalancerConfigApplier) (s : Store) (m : LoadBalancerMap)
    (hv : ValidOriginal s self.originalLoadBalancers_ m)
    (newMap : Addr) (hret : (updateLoadBalancers gds self s).1 = .ok (some newMap))
    (c : CfgLoadBalancer) (hc : c ∈ self.loadBalancersConfig_)
    (a : Addr) (o : LoadBalancer)
    (hget : m.getLoadBalancerIf (parseLoadBalancerID c) = some a)
    (ho : s.loadBalancers[a]? = some o)
    (heq : (parsedNode gds self.platform_ c).equals o = true) :
    ∃ m', (updateLoadBalancers gds self s).2.loadBalancerMaps[newMap]? = some m' ∧
      m'.getLoadBalancerIf (parseLoadBalancerID c) = some a ∧
      a < s.loadBalancers.length ∧
      (updateLoadBalancers gds self s).2.loadBalancers[a]? = some o := by
  have hr : reusedNode s m (parsedNode gds self.platform_ c) = some a :=
    (reusedNode_eq_some_iff _ _ _ _).mpr ⟨o, hget, ho, heq⟩
  obtain ⟨p1, p2, hp⟩ := List.append_of_mem hc
  rcases update_cases gds self s m hv with
    ⟨mid, d, post, hB, hmid, hd, hres⟩ | ⟨-, l, s1, hinv, ⟨-, hres⟩ | ⟨-, hres⟩⟩
  · rw [hres] at hret; cases hret
  · rw [hres] at hret; cases hret
  · rw [hres] at hret ⊢
    cases hret
    refine ⟨{ nodes := l.newLoadBalancers, published := false }, by simp, ?_,
      reusedNode_lt hv hr, ?_⟩
    · have := hinv.entries p1 c p2 hp
      rw [hr] at this
      exact this
    · obtain ⟨o', ho', hs1, -⟩ := (hinv.entry_deref hv p1 c p2 hp).1 a hr
      rw [ho] at ho'
      cases ho'
      exact hs1

theorem updateLoadBalancers_preserves_identity_witness :
    ∃ m', (updateLoadBalancers sampleSeed (sampleApplier [sampleAggregate, sampleEcmp])
        sampleStore).2.loadBalancerMaps[1]? = some m' ∧
      m'.getLoadBalancerIf (parseLoadBalancerID sampleEcmp) = some 0 ∧
      0 < sampleStore.loadBalancers.length ∧
      (updateLoadBalancers sampleSeed (sampleApplier [sampleAggregate, sampleEcmp])
        sampleStore).2.loadBalancers[0]? =
          some (parsedNode sampleSeed samplePlatform sampleEcmp) :=
  updateLoadBalancers_preserves_identity sampleSeed (sampleApplier [sampleAggregate, sampleEcmp])
    sampleStore sampleMap sampleValid 1 (by decide) sampleEcmp (by decide) 0
    (parsedNode sampleSeed samplePlatform sampleEcmp) (by decide) (by decide) (by decide)

theorem LoopInv.keys_perm {gds : LoadBalancerID → MacAddress → Nat} {pf : Platform}
    {s0 : Store} {m : LoadBalancerMap} {pre : List CfgLoadBalancer} {l : Locals} {s : Store}
    (hinv : LoopInv gds pf s0 m pre l s) :
    (l.newLoadBalancers.map Prod.fst).Perm (pre.map (·.id)) := by
  rw [hinv.keys]
  exact (List.perm_ext_iff_of_nodup hinv.sorted.nodup hinv.nodup).mpr hinv.ids

theorem LoopInv.length_eq {gds : LoadBalancerID → MacAddress → Nat} {pf : Platform}
    {s0 : Store} {m : LoadBalancerMap} {pre : List CfgLoadBalancer} {l : Locals} {s : Store}
    (hinv : LoopInv gds pf s0 m pre l s) :
    l.newLoadBalancers.length = pre.length := by
  simpa using hinv.keys_perm.length_eq

/-- An original map stays valid in every store that only has more objects. -/
theorem ValidOriginal.extend {s s1 : Store} {orig : Addr} {m : LoadBalancerMap}
    (hv : ValidOriginal s orig m) (extra : List LoadBalancer)
    (hm : s1.loadBalancerMaps = s.loadBalancerMaps)
    (ho : s1.loadBalancers = s.loadBalancers ++ extra) : ValidOriginal s1 orig m where
  map_eq := by rw [hm]; exact hv.map_eq
  nodes_lt := fun e he => by
    rw [ho, List.length_append]
    exact Nat.lt_add_right _ (hv.nodes_lt e he)
  keys_sorted := hv.keys_sorted

theorem reusedNode_extend {s s1 : Store} {orig : Addr} {m : LoadBalancerMap}
    (hv : ValidOriginal s orig m) (extra : List LoadBalancer)
    (ho : s1.loadBalancers = s.loadBalancers ++ extra) (v : LoadBalancer) :
    reusedNode s1 m v = reusedNode s m v := by
  unfold reusedNode
  cases hf : m.getLoadBalancerIf v.id with
  | none => rfl
  | some a =>
    have ha : a < s.loadBalancers.length := hv.nodes_lt _ (FlatMap.find_mem _ _ _ hf)
    simp only [ho, List.getElem?_append_left ha]

/-- C3. For a batch without repeated IDs, `updateLoadBalancers` returns
`nullptr` if and only if nothing changed: the IDs of the batch are exactly the
keys of the original map and every parsed candidate is equal to the original
node with its ID. In every other such case it returns a map object that did
not exist before the call. -/
theorem updateLoadBalancers_nullptr_iff (gds : LoadBalancerID → MacAddress → Nat)
    (self : LoadBalancerConfigApplier) (s : Store) (m : LoadBalancerMap)
    (hv : ValidOriginal s self.originalLoadBalancers_ m)
    (hnd : (self.loadBalancersConfig_.map parseLoadBalancerID).Nodup) :
    ((updateLoadBalancers gds self s).1 = .ok none ↔
      (∀ k, k ∈ self.loadBalancersConfig_.map parseLoadBalancerID ↔
        k ∈ m.nodes.map Prod.fst) ∧
      ∀ c ∈ self.loadBalancersConfig_, ∃ a o,
        m.getLoadBalancerIf (parseLoadBalancerID c) = some a ∧
        s.loadBalancers[a]? = some o ∧
        (parsedNode gds self.platform_ c).equals o = true) ∧
    ((updateLoadBalancers gds self s).1 ≠ .ok none →
      ∃ newMap m', (updateLoadBalancers gds self s).1 = .ok (some newMap) ∧
        s.loadBalancerMaps[newMap]? = none ∧
        (updateLoadBalancers gds self s).2.loadBalancerMaps[newMap]? = some m') := by
  rw [← nothingChanged_iff]
  rcases update_cases gds self s m hv with
    ⟨mid, d, post, hB, hmid, hd, hres⟩ | ⟨-, l, s1, hinv, ⟨hc, hres⟩ | ⟨hc, hres⟩⟩
  · exfalso
    rw [hB] at hnd
    have h' : (mid.map (·.id) ++ d.id :: post.map (·.id)).Nodup := by
      simpa [parseLoadBalancerID] using hnd
    exact (List.nodup_append.mp h').2.2 hd (List.mem_cons_self _ _)
  · rw [hres]
    exact ⟨⟨fun _ => hc, fun _ => rfl⟩, fun h => absurd rfl h⟩
  · rw [hres]
    refine ⟨⟨fun h => (by cases h), fun h => absurd h hc⟩, fun _ => ?_⟩
    exact ⟨_, { nodes := l.newLoadBalancers, published := false }, rfl, by simp, by simp⟩

theorem updateLoadBalancers_nullptr_iff_witness :
    ValidOriginal sampleStore 0 sampleMap ∧
    ([sampleEcmp].map parseLoadBalancerID).Nodup ∧
    ((updateLoadBalancers sampleSeed (sampleApplier [sampleEcmp]) sampleStore).1 = .ok none ↔
      (∀ k, k ∈ [sampleEcmp].map parseLoadBalancerID ↔ k ∈ sampleMap.nodes.map Prod.fst) ∧
      ∀ c ∈ [sampleEcmp], ∃ a o,
        sampleMap.getLoadBalancerIf (parseLoadBalancerID c) = some a ∧
        sampleStore.loadBalancers[a]? = some o ∧
        (parsedNode sampleSeed samplePlatform c).equals o = true) :=
  ⟨sampleValid, by decide,
    (updateLoadBalancers_nullptr_iff sampleSeed (sampleApplier [sampleEcmp]) sampleStore
      sampleMap sampleValid (by decide)).1⟩

/-- C4. Atomicity on a repeated ID: when `updateLoadBalancers` fails with the
duplicate-ID error, the store has no map object it did not have before, the
original map is the object it was (same keys, same node address under every
key), and every object that existed before the call is unchanged. -/
theorem updateLoadBalancers_duplicate_atomic (gds : LoadBalancerID → MacAddress → Nat)
    (self : LoadBalancerConfigApplier) (s : Store) (m : LoadBalancerMap)
    (hv : ValidOriginal s self.originalLoadBalancers_ m) (id : LoadBalancerID)
    (hfail : (updateLoadBalancers gds self s).1 =
      .error (.fbossError (duplicateMessage id))) :
    (updateLoadBalancers gds self s).2.loadBalancerMaps = s.loadBalancerMaps ∧
    (updateLoadBalancers gds self s).2.loadBalancerMaps[self.originalLoadBalancers_]? =
      some m ∧
    (∀ a, a < s.loadBalancers.length →
      (updateLoadBalancers gds self s).2.loadBalancers[a]? = s.loadBalancers[a]?) ∧
    ∀ e ∈ m.nodes,
      (updateLoadBalancers gds self s).2.loadBalancers[e.2]? = s.loadBalancers[e.2]? := by
  rcases update_cases gds self s m hv with
    ⟨mid, d, post, hB, hmid, hd, hres⟩ | ⟨-, l, s1, hinv, ⟨hc, hres⟩ | ⟨hc, hres⟩⟩
  · rw [hres]
    have hold : ∀ a, a < s.loadBalancers.length →
        (s.loadBalancers ++ (mid ++ [d]).map (parsedNode gds self.platform_))[a]? =
          s.loadBalancers[a]? := fun a ha => List.getElem?_append_left ha
    exact ⟨rfl, hv.map_eq, hold, fun e he => hold _ (hv.nodes_lt e he)⟩
  · rw [hres] at hfail; cases hfail
  · rw [hres] at hfail; cases hfail

theorem updateLoadBalancers_duplicate_atomic_witness :
    (updateLoadBalancers sampleSeed (sampleApplier [sampleEcmp, sampleEcmpModified])
      sampleStore).2.loadBalancerMaps = sampleStore.loadBalancerMaps ∧
    (updateLoadBalancers sampleSeed (sampleApplier [sampleEcmp, sampleEcmpModified])
      sampleStore).2.loadBalancerMaps[0]? = some sampleMap ∧
    (∀ a, a < sampleStore.loadBalancers.length →
      (updateLoadBalancers sampleSeed (sampleApplier [sampleEcmp, sampleEcmpModified])
        sampleStore).2.loadBalancers[a]? = sampleStore.loadBalancers[a]?) ∧
    ∀ e ∈ sampleMap.nodes,
      (updateLoadBalancers sampleSeed (sampleApplier [sampleEcmp, sampleEcmpModified])
        sampleStore).2.loadBalancers[e.2]? = sampleStore.loadBalancers[e.2]? :=
  updateLoadBalancers_duplicate_atomic sampleSeed
    (sampleApplier [sampleEcmp, sampleEcmpModified]) sampleStore sampleMap sampleValid 1
    (by decide)

/-- The map that a call builds is a valid original for the next call, and the
batch that built it changes nothing in it. -/
theorem LoopInv.result_valid {gds : LoadBalancerID → MacAddress → Nat} {pf : Platform}
    {s : Store} {m : LoadBalancerMap} {B : List CfgLoadBalancer} {l : Locals} {s1 : Store}
    (hinv : LoopInv gds pf s m B l s1) {orig : Addr} (hv : ValidOriginal s orig m) :
    ValidOriginal
      { loadBalancers := s1.loadBalancers,
        loadBalancerMaps :=
          s.loadBalancerMaps ++ [{ nodes := l.newLoadBalancers, published := false }] }
      s.loadBalancerMaps.length { nodes := l.newLoadBalancers, published := false } ∧
    NothingChanged gds pf
      { loadBalancers := s1.loadBalancers,
        loadBalancerMaps :=
          s.loadBalancerMaps ++ [{ nodes := l.newLoadBalancers, published := false }] }
      { nodes := l.newLoadBalancers, published := false } B := by
  refine ⟨⟨by simp, hinv.addrs, hinv.keys ▸ hinv.sorted⟩, ?_, ?_⟩
  · intro k hk
    exact (hinv.ids k).mp (hinv.keys ▸ hk)
  · intro c hc
    obtain ⟨p1, p2, hp⟩ := List.append_of_mem hc
    obtain ⟨h1, h2⟩ := hinv.entry_deref hv p1 c p2 hp
    have hfind := hinv.entries p1 c p2 hp
    rw [reusedNode_isSome_iff]
    cases hr : reusedNode s m (parsedNode gds pf c) with
    | some a =>
      obtain ⟨o, -, ho, he⟩ := h1 a hr
      rw [hr] at hfind
      exact ⟨a, o, hfind, ho, he⟩
    | none =>
      rw [hr] at hfind
      exact ⟨_, _, hfind, h2, (LoadBalancer.equals_iff _ _).mpr rfl⟩

/-- C5. Idempotence: when `updateLoadBalancers` returns a new map for a batch,
the same batch applied to that new map, on the same platform, returns
`nullptr`; and when it returns `nullptr`, the batch applied to the original map
once more returns `nullptr` again. -/
theorem updateLoadBalancers_idempotent (gds : LoadBalancerID → MacAddress → Nat)
    (self : LoadBalancerConfigApplier) (s : Store) (m : LoadBalancerMap)
    (hv : ValidOriginal s self.originalLoadBalancers_ m) :
    (∀ newMap, (updateLoadBalancers gds self s).1 = .ok (some newMap) →
      (updateLoadBalancers gds { self with originalLoadBalancers_ := newMap }
        (updateLoadBalancers gds self s).2).1 = .ok none) ∧
    ((updateLoadBalancers gds self s).1 = .ok none →
      (updateLoadBalancers gds self (updateLoadBalancers gds self s).2).1 = .ok none) := by
  rcases update_cases gds self s m hv with
    ⟨mid, d, post, hB, hmid, hd, hres⟩ | ⟨hnd, l, s1, hinv, ⟨hc, hres⟩ | ⟨hc, hres⟩⟩
  · rw [hres]
    exact ⟨fun _ h => (by cases h), fun h => (by cases h)⟩
  · rw [hres]
    refine ⟨fun _ h => (by cases h), fun _ => ?_⟩
    have hv1 : ValidOriginal s1 self.originalLoadBalancers_ m :=
      hv.extend _ hinv.maps_eq hinv.objs_eq
    have hc1 : NothingChanged gds self.platform_ s1 m self.loadBalancersConfig_ :=
      ⟨hc.1, fun c hcm => by
        rw [reusedNode_extend hv _ hinv.objs_eq]; exact hc.2 c hcm⟩
    rcases update_cases gds self s1 m hv1 with
      ⟨mid, d, post, hB, hmid, hd, -⟩ | ⟨-, l2, s2, -, ⟨-, hres2⟩ | ⟨hc2, -⟩⟩
    · exfalso
      rw [hB] at hnd
      have h' : (mid.map (·.id) ++ d.id :: post.map (·.id)).Nodup := by simpa using hnd
      exact (List.nodup_append.mp h').2.2 hd (List.mem_cons_self _ _)
    · rw [hres2]
    · exact absurd hc1 hc2
  · rw [hres]
    refine ⟨fun newMap h => ?_, fun h => (by cases h)⟩
    cases h
    obtain ⟨hv1, hc1⟩ := hinv.result_valid hv
    rcases update_cases gds { self with originalLoadBalancers_ := s.loadBalancerMaps.length }
        _ _ hv1 with
      ⟨mid, d, post, hB, hmid, hd, -⟩ | ⟨-, l2, s2, -, ⟨-, hres2⟩ | ⟨hc2, -⟩⟩
    · exfalso
      simp only at hB
      rw [hB] at hnd
      have h' : (mid.map (·.id) ++ d.id :: post.map (·.id)).Nodup := by simpa using hnd
      exact (List.nodup_append.mp h').2.2 hd (List.mem_cons_self _ _)
    · rw [hres2]
    · exact absurd hc1 hc2

theorem updateLoadBalancers_idempotent_witness :
    ValidOriginal sampleStore 0 sampleMap ∧
    (updateLoadBalancers sampleSeed (sampleApplier [sampleAggregate, sampleEcmpModified])
      sampleStore).1 = .ok (some 1) ∧
    (updateLoadBalancers sampleSeed
      { sampleApplier [sampleAggregate, sampleEcmpModified] with originalLoadBalancers_ := 1 }
      (updateLoadBalancers sampleSeed (sampleApplier [sampleAggregate, sampleEcmpModified])
        sampleStore).2).1 = .ok none :=
  ⟨sampleValid, by decide,
    (updateLoadBalancers_idempotent sampleSeed
      (sampleApplier [sampleAggregate, sampleEcmpModified]) sampleStore sampleMap
      sampleValid).1 1 (by decide)⟩

/-- C6. The duplicate-ID failure names the offending ID: the error message is
built from the ID of the first record, in batch order, whose ID an earlier
record has; for a batch of two records with ID 1 it says that load balancer 1
is configured more than once. -/
theorem updateLoadBalancers_duplicate_message (gds : LoadBalancerID → MacAddress → Nat)
    (self : LoadBalancerConfigApplier) (s : Store) (m : LoadBalancerMap)
    (hv : ValidOriginal s self.originalLoadBalancers_ m)
    (p1 : List CfgLoadBalancer) (d : CfgLoadBalancer) (p2 : List CfgLoadBalancer)
    (hB : self.loadBalancersConfig_ = p1 ++ d :: p2)
    (hp1 : (p1.map parseLoadBalancerID).Nodup)
    (hd : parseLoadBalancerID d ∈ p1.map parseLoadBalancerID) :
    (updateLoadBalancers gds self s).1 =
      .error (.fbossError
        ("LoadBalancer " ++ toString (parseLoadBalancerID d) ++ " configured more than once")) ∧
    (parseLoadBalancerID d = 1 →
      (updateLoadBalancers gds self s).1 =
        .error (.fbossError "LoadBalancer 1 configured more than once")) := by
  have hres := update_of_dup gds self s m hv p1 d p2 hB hp1 hd
  rw [hres]
  refine ⟨rfl, fun h1 => ?_⟩
  have h1' : d.id = 1 := h1
  rw [h1']
  rfl

theorem updateLoadBalancers_duplicate_message_witness :
    ValidOriginal sampleStore 0 sampleMap ∧
    ([sampleEcmp].map parseLoadBalancerID).Nodup ∧
    parseLoadBalancerID sampleEcmpModified ∈ [sampleEcmp].map parseLoadBalancerID ∧
    (updateLoadBalancers sampleSeed (sampleApplier [sampleEcmp, sampleEcmpModified])
      sampleStore).1 = .error (.fbossError "LoadBalancer 1 configured more than once") :=
  ⟨sampleValid, by decide, by decide,
    (updateLoadBalancers_duplicate_message sampleSeed
      (sampleApplier [sampleEcmp, sampleEcmpModified]) sampleStore sampleMap sampleValid
      [sampleEcmp] sampleEcmpModified [] rfl (by decide) (by decide)).2 rfl⟩

theorem not_nodup_of_dup {B mid post : List CfgLoadBalancer} {d : CfgLoadBalancer}
    (hB : B = mid ++ d :: post) (hd : d.id ∈ mid.map (·.id)) :
    ¬ (B.map parseLoadBalancerID).Nodup := by
  intro h
  rw [hB] at h
  have h' : (mid.map (·.id) ++ d.id :: post.map (·.id)).Nodup := by
    simpa [parseLoadBalancerID] using h
  exact (List.nodup_append.mp h').2.2 hd (List.mem_cons_self _ _)

/-- C7. Addition: for a batch without repeated IDs that has a record whose ID
is no key of the original map, `updateLoadBalancers` returns a new map that
holds that ID with the candidate parsed from the record, while every record
equal to its original keeps the original node; with the original map holding
ID 1 only and the batch being the unchanged record for 1 followed by a record
for 2, the new map has exactly two entries and the entry for 1 is the original
node. -/
theorem updateLoadBalancers_addition (gds : LoadBalancerID → MacAddress → Nat)
    (self : LoadBalancerConfigApplier) (s : Store) (m : LoadBalancerMap)
    (hv : ValidOriginal s self.originalLoadBalancers_ m)
    (hnd : (self.loadBalancersConfig_.map parseLoadBalancerID).Nodup)
    (p1 : List CfgLoadBalancer) (c : CfgLoadBalancer) (p2 : List CfgLoadBalancer)
    (hB : self.loadBalancersConfig_ = p1 ++ c :: p2)
    (hnew : m.getLoadBalancerIf (parseLoadBalancerID c) = none) :
    ∃ newMap m', (updateLoadBalancers gds self s).1 = .ok (some newMap) ∧
      s.loadBalancerMaps[newMap]? = none ∧
      (updateLoadBalancers gds self s).2.loadBalancerMaps[newMap]? = some m' ∧
      m'.getLoadBalancerIf (parseLoadBalancerID c) = some (s.loadBalancers.length + p1.length) ∧
      s.loadBalancers[s.loadBalancers.length + p1.length]? = none ∧
      (updateLoadBalancers gds self s).2.loadBalancers[s.loadBalancers.length + p1.length]? =
        some (parsedNode gds self.platform_ c) ∧
      (∀ c' ∈ self.loadBalancersConfig_, ∀ a o,
        m.getLoadBalancerIf (parseLoadBalancerID c') = some a →
        s.loadBalancers[a]? = some o →
        (parsedNode gds self.platform_ c').equals o = true →
        m'.getLoadBalancerIf (parseLoadBalancerID c') = some a) ∧
      (∀ a c1, m.nodes = [(1, a)] → p1 = [c1] → p2 = [] →
        parseLoadBalancerID c1 = 1 → parseLoadBalancerID c = 2 →
        (∃ o, s.loadBalancers[a]? = some o ∧
          (parsedNode gds self.platform_ c1).equals o = true) →
        m'.size = 2 ∧ m'.getLoadBalancerIf 1 = some a) := by
  have hrn : reusedNode s m (parsedNode gds self.platform_ c) = none := by
    unfold reusedNode
    rw [parsedNode_id]
    have : m.getLoadBalancerIf c.id = none := hnew
    rw [this]
  rcases update_cases gds self s m hv with
    ⟨mid, d, post, hB', hmid, hd, hres⟩ | ⟨-, l, s1, hinv, ⟨hc, hres⟩ | ⟨hc, hres⟩⟩
  · exact absurd hnd (not_nodup_of_dup hB' hd)
  · exfalso
    have := hc.2 c (by rw [hB]; simp)
    rw [hrn] at this
    cases this
  · rw [hres]
    have hkeep : ∀ c' ∈ self.loadBalancersConfig_, ∀ a o,
        m.getLoadBalancerIf (parseLoadBalancerID c') = some a →
        s.loadBalancers[a]? = some o →
        (parsedNode gds self.platform_ c').equals o = true →
        FlatMap.find c'.id l.newLoadBalancers = some a := by
      intro c' hc' a o hget ho heq
      obtain ⟨q1, q2, hq⟩ := List.append_of_mem hc'
      have hr : reusedNode s m (parsedNode gds self.platform_ c') = some a :=
        (reusedNode_eq_some_iff _ _ _ _).mpr ⟨o, hget, ho, heq⟩
      have := hinv.entries q1 c' q2 hq
      rw [hr] at this
      exact this
    refine ⟨_, { nodes := l.newLoadBalancers, published := false }, rfl, by simp, by simp,
      ?_, by simp, (hinv.entry_deref hv p1 c p2 hB).2, hkeep, ?_⟩
    · have := hinv.entries p1 c p2 hB
      rw [hrn] at this
      exact this
    · rintro a c1 hm rfl rfl h1 - ⟨o, ho, heq⟩
      refine ⟨?_, ?_⟩
      · have := hinv.length_eq
        rw [hB] at this
        simpa [LoadBalancerMap.size] using this
      · have h1' : c1.id = 1 := h1
        have hget : m.getLoadBalancerIf (parseLoadBalancerID c1) = some a := by
          simp [LoadBalancerMap.getLoadBalancerIf, hm, FlatMap.find, h1]
        have := hkeep c1 (by rw [hB]; simp) a o hget ho heq
        rw [h1'] at this
        exact this

theorem updateLoadBalancers_addition_witness :
    ValidOriginal sampleStore 0 sampleMap ∧
    ([sampleEcmp, sampleAggregate].map parseLoadBalancerID).Nodup ∧
    sampleMap.getLoadBalancerIf (parseLoadBalancerID sampleAggregate) = none ∧
    ∃ newMap m',
      (updateLoadBalancers sampleSeed (sampleApplier [sampleEcmp, sampleAggregate])
        sampleStore).1 = .ok (some newMap) ∧
      sampleStore.loadBalancerMaps[newMap]? = none ∧
      (updateLoadBalancers sampleSeed (sampleApplier [sampleEcmp, sampleAggregate])
        sampleStore).2.loadBalancerMaps[newMap]? = some m' ∧
      m'.getLoadBalancerIf (parseLoadBalancerID sampleAggregate) =
        some (sampleStore.loadBalancers.length + [sampleEcmp].length) ∧
      sampleStore.loadBalancers[sampleStore.loadBalancers.length + [sampleEcmp].length]? = none ∧
      (updateLoadBalancers sampleSeed (sampleApplier [sampleEcmp, sampleAggregate])
        sampleStore).2.loadBalancers[sampleStore.loadBalancers.length + [sampleEcmp].length]? =
        some (parsedNode sampleSeed samplePlatform sampleAggregate) ∧
      (∀ c' ∈ [sampleEcmp, sampleAggregate], ∀ a o,
        sampleMap.getLoadBalancerIf (parseLoadBalancerID c') = some a →
        sampleStore.loadBalancers[a]? = some o →
        (parsedNode sampleSeed samplePlatform c').equals o = true →
        m'.getLoadBalancerIf (parseLoadBalancerID c') = some a) ∧
      (∀ a c1, sampleMap.nodes = [(1, a)] → [sampleEcmp] = [c1] → ([] : List CfgLoadBalancer) = [] →
        parseLoadBalancerID c1 = 1 → parseLoadBalancerID sampleAggregate = 2 →
        (∃ o, sampleStore.loadBalancers[a]? = some o ∧
          (parsedNode sampleSeed samplePlatform c1).equals o = true) →
        m'.size = 2 ∧ m'.getLoadBalancerIf 1 = some a) :=
  ⟨sampleValid, by decide, by decide,
    updateLoadBalancers_addition sampleSeed (sampleApplier [sampleEcmp, sampleAggregate])
      sampleStore sampleMap sampleValid (by decide) [sampleEcmp] sampleAggregate [] rfl
      (by decide)⟩

/-- C8. Removal: for a batch without repeated IDs that has no record for some
key of the original map, `updateLoadBalancers` returns a new map, and the new
map does not hold that key; so it is when every record of the batch is
unchanged, and when the batch is empty, where the new map is empty. -/
theorem updateLoadBalancers_removal (gds : LoadBalancerID → MacAddress → Nat)
    (self : LoadBalancerConfigApplier) (s : Store) (m : LoadBalancerMap)
    (hv : ValidOriginal s self.originalLoadBalancers_ m)
    (hnd : (self.loadBalancersConfig_.map parseLoadBalancerID).Nodup)
    (k : LoadBalancerID) (hk : k ∈ m.nodes.map Prod.fst)
    (habs : k ∉ self.loadBalancersConfig_.map parseLoadBalancerID) :
    ∃ newMap m', (updateLoadBalancers gds self s).1 = .ok (some newMap) ∧
      s.loadBalancerMaps[newMap]? = none ∧
      (updateLoadBalancers gds self s).2.loadBalancerMaps[newMap]? = some m' ∧
      m'.getLoadBalancerIf k = none ∧
      (self.loadBalancersConfig_ = [] → m'.nodes = []) := by
  rcases update_cases gds self s m hv with
    ⟨mid, d, post, hB', hmid, hd, hres⟩ | ⟨-, l, s1, hinv, ⟨hc, hres⟩ | ⟨hc, hres⟩⟩
  · exact absurd hnd (not_nodup_of_dup hB' hd)
  · exact absurd (hc.1 k hk) habs
  · rw [hres]
    refine ⟨_, { nodes := l.newLoadBalancers, published := false }, rfl, by simp, by simp,
      ?_, ?_⟩
    · refine (FlatMap.find_eq_none k l.newLoadBalancers).mpr ?_
      rw [hinv.keys, hinv.ids]
      exact habs
    · intro he
      have := hinv.length_eq
      rw [he] at this
      exact List.length_eq_zero.mp this

theorem updateLoadBalancers_removal_witness :
    ValidOriginal sampleStore 0 sampleMap ∧
    ([sampleAggregate].map parseLoadBalancerID).Nodup ∧
    1 ∈ sampleMap.nodes.map Prod.fst ∧
    1 ∉ [sampleAggregate].map parseLoadBalancerID ∧
    ∃ newMap m',
      (updateLoadBalancers sampleSeed (sampleApplier [sampleAggregate]) sampleStore).1 =
        .ok (some newMap) ∧
      sampleStore.loadBalancerMaps[newMap]? = none ∧
      (updateLoadBalancers sampleSeed (sampleApplier [sampleAggregate])
        sampleStore).2.loadBalancerMaps[newMap]? = some m' ∧
      m'.getLoadBalancerIf 1 = none ∧
      ((sampleApplier [sampleAggregate]).loadBalancersConfig_ = [] → m'.nodes = []) :=
  ⟨sampleValid, by decide, by decide, by decide,
    updateLoadBalancers_removal sampleSeed (sampleApplier [sampleAggregate]) sampleStore
      sampleMap sampleValid (by decide) 1 (by decide) (by decide)⟩

/-- C9. Contents of the new map: when `updateLoadBalancers` returns a map, the
keys of that map are exactly the IDs of the records of the batch, in ascending
order, and it has as many entries as the batch has records; under the ID of a
record it holds the original node when the parsed candidate is equal to the
original, and otherwise, for a modified or an added load balancer, the node
that the call parsed from that record: a new object, whose address is the
number of objects before the call plus the position of the record. -/
theorem updateLoadBalancers_contents (gds : LoadBalancerID → MacAddress → Nat)
    (self : LoadBalancerConfigApplier) (s : Store) (m : LoadBalancerMap)
    (hv : ValidOriginal s self.originalLoadBalancers_ m)
    (newMap : Addr) (hret : (updateLoadBalancers gds self s).1 = .ok (some newMap)) :
    ∃ m', (updateLoadBalancers gds self s).2.loadBalancerMaps[newMap]? = some m' ∧
      (∀ k, k ∈ m'.nodes.map Prod.fst ↔
        k ∈ self.loadBalancersConfig_.map parseLoadBalancerID) ∧
      (m'.nodes.map Prod.fst).Sorted (· < ·) ∧
      m'.size = self.loadBalancersConfig_.length ∧
      ∀ p1 c p2, self.loadBalancersConfig_ = p1 ++ c :: p2 →
        (∀ a o, m.getLoadBalancerIf (parseLoadBalancerID c) = some a →
          s.loadBalancers[a]? = some o →
          (parsedNode gds self.platform_ c).equals o = true →
          m'.getLoadBalancerIf (parseLoadBalancerID c) = some a) ∧
        ((¬ ∃ a o, m.getLoadBalancerIf (parseLoadBalancerID c) = some a ∧
            s.loadBalancers[a]? = some o ∧
            (parsedNode gds self.platform_ c).equals o = true) →
          m'.getLoadBalancerIf (parseLoadBalancerID c) =
            some (s.loadBalancers.length + p1.length) ∧
          s.loadBalancers[s.loadBalancers.length + p1.length]? = none ∧
          (updateLoadBalancers gds self s).2.loadBalancers[
            s.loadBalancers.length + p1.length]? = some (parsedNode gds self.platform_ c)) := by
  rcases update_cases gds self s m hv with
    ⟨mid, d, post, hB', hmid, hd, hres⟩ | ⟨-, l, s1, hinv, ⟨hc, hres⟩ | ⟨hc, hres⟩⟩
  · rw [hres] at hret; cases hret
  · rw [hres] at hret; cases hret
  · rw [hres] at hret ⊢
    cases hret
    refine ⟨{ nodes := l.newLoadBalancers, published := false }, by simp, ?_, ?_, ?_, ?_⟩
    · intro k
      rw [hinv.keys]
      exact hinv.ids k
    · exact hinv.keys ▸ hinv.sorted
    · exact hinv.length_eq
    · intro p1 c p2 hp
      have hfind := hinv.entries p1 c p2 hp
      refine ⟨fun a o hget ho heq => ?_, fun hno => ?_⟩
      · have hr : reusedNode s m (parsedNode gds self.platform_ c) = some a :=
          (reusedNode_eq_some_iff _ _ _ _).mpr ⟨o, hget, ho, heq⟩
        rw [hr] at hfind
        exact hfind
      · have hr : reusedNode s m (parsedNode gds self.platform_ c) = none := by
          cases hr : reusedNode s m (parsedNode gds self.platform_ c) with
          | none => rfl
          | some a =>
            obtain ⟨o, h1, h2, h3⟩ := (reusedNode_eq_some_iff _ _ _ _).mp hr
            exact absurd ⟨a, o, h1, h2, h3⟩ hno
        rw [hr] at hfind
        exact ⟨hfind, by simp, (hinv.entry_deref hv p1 c p2 hp).2⟩

theorem updateLoadBalancers_contents_witness :
    ValidOriginal sampleStore 0 sampleMap ∧
    (updateLoadBalancers sampleSeed (sampleApplier [sampleAggregate, sampleEcmpModified])
      sampleStore).1 = .ok (some 1) ∧
    (updateLoadBalancers sampleSeed (sampleApplier [sampleAggregate, sampleEcmpModified])
      sampleStore).2.loadBalancerMaps[1]? = some { nodes := [(1, 2), (2, 1)], published := false } ∧
    ∃ m', (updateLoadBalancers sampleSeed (sampleApplier [sampleAggregate, sampleEcmpModified])
        sampleStore).2.loadBalancerMaps[1]? = some m' ∧
      (∀ k, k ∈ m'.nodes.map Prod.fst ↔
        k ∈ [sampleAggregate, sampleEcmpModified].map parseLoadBalancerID) ∧
      (m'.nodes.map Prod.fst).Sorted (· < ·) ∧
      m'.size = [sampleAggregate, sampleEcmpModified].length :=
  ⟨sampleValid, by decide, by decide,
    (updateLoadBalancers_contents sampleSeed
      (sampleApplier [sampleAggregate, sampleEcmpModified]) sampleStore sampleMap sampleValid 1
      (by decide)).imp fun _ h => ⟨h.1, h.2.1, h.2.2.1, h.2.2.2.1⟩⟩

/-- C10. Scenario A: the original map holds, under one ID, a node whose seed
is the deterministic seed of that ID and of the platform's local MAC; the batch
is the single record with the same ID, algorithm and fields and no seed. Then
`updateLoadBalancers` returns `nullptr`. -/
theorem updateLoadBalancers_default_seed_noop (gds : LoadBalancerID → MacAddress → Nat)
    (self : LoadBalancerConfigApplier) (s : Store) (m : LoadBalancerMap)
    (hv : ValidOriginal s self.originalLoadBalancers_ m)
    (id : LoadBalancerID) (a : Addr) (algorithm : Nat) (fields : CfgFields)
    (hm : m.nodes = [(id, a)])
    (ho : s.loadBalancers[a]? = some
      { id := id, algorithm := algorithm,
        seed := gds id self.platform_.localMac,
        v4Fields := FlatSet.ofRange fields.ipv4Fields,
        v6Fields := FlatSet.ofRange fields.ipv6Fields,
        transportFields := FlatSet.ofRange fields.transportFields,
        mplsFields := FlatSet.ofRange fields.mplsFields })
    (hB : self.loadBalancersConfig_ =
      [{ id := id, fieldSelection := fields, algorithm := algorithm, seed := none }]) :
    (updateLoadBalancers gds self s).1 = .ok none := by
  have hnc : NothingChanged gds self.platform_ s m self.loadBalancersConfig_ := by
    rw [hB]
    refine ⟨?_, ?_⟩
    · simp [hm]
    · intro c hc
      rw [List.mem_singleton] at hc
      subst hc
      rw [reusedNode_isSome_iff]
      refine ⟨a, _, ?_, ho, (LoadBalancer.equals_iff _ _).mpr rfl⟩
      simp [LoadBalancerMap.getLoadBalancerIf, hm, FlatMap.find, parsedNode,
        parseLoadBalancerID]
  rcases update_cases gds self s m hv with
    ⟨mid, d, post, hB', hmid, hd, hres⟩ | ⟨-, l, s1, hinv, ⟨hc, hres⟩ | ⟨hc, hres⟩⟩
  · exfalso
    have : ¬ (self.loadBalancersConfig_.map parseLoadBalancerID).Nodup :=
      not_nodup_of_dup hB' hd
    rw [hB] at this
    simp at this
  · rw [hres]
  · exact absurd hnc hc

theorem updateLoadBalancers_default_seed_noop_witness :
    ValidOriginal sampleStore 0 sampleMap ∧
    sampleEcmp.seed = none ∧
    sampleStore.loadBalancers[0]? = some
      { id := 1, algorithm := 1, seed := sampleSeed 1 samplePlatform.localMac,
        v4Fields := [1, 2], v6Fields := [1, 2], transportFields := [1, 2], mplsFields := [] } ∧
    (updateLoadBalancers sampleSeed (sampleApplier [sampleEcmp]) sampleStore).1 = .ok none :=
  ⟨sampleValid, rfl, by decide,
    updateLoadBalancers_default_seed_noop sampleSeed (sampleApplier [sampleEcmp]) sampleStore
      sampleMap sampleValid 1 0 1 sampleEcmp.fieldSelection rfl (by decide) rfl⟩

/-! ## The parser and the count test -/

/-- C11. Deterministic defaulting in `LoadBalancerConfigParser::parse`: the
seed of the parsed node is the seed of the record when the record has one (the
same 32-bit value, read as the unsigned seed of the node, and the very number
when it is in that range), and otherwise the deterministic seed of the
record's ID and the platform's local MAC. Hence two parses of one record under
one local MAC, in whatever stores, make nodes that compare equal, and the node
made depends on the record and the local MAC only. -/
theorem parse_deterministic (gds : LoadBalancerID → MacAddress → Nat) (pf : Platform)
    (c : CfgLoadBalancer) :
    (∀ v, c.seed = some v →
      (parsedNode gds pf c).seed = (v % 4294967296).toNat ∧
      (0 ≤ v → v < 4294967296 → ((parsedNode gds pf c).seed : Int) = v)) ∧
    (c.seed = none →
      (parsedNode gds pf c).seed = gds (parseLoadBalancerID c) pf.localMac) ∧
    (∀ s1 s2 : Store, ∃ n1 n2,
      (parse gds pf c s1).2.loadBalancer (parse gds pf c s1).1 = .ok n1 ∧
      (parse gds pf c s2).2.loadBalancer (parse gds pf c s2).1 = .ok n2 ∧
      n1.equals n2 = true) ∧
    (∀ (pf2 : Platform) (s1 s2 : Store), pf2.localMac = pf.localMac →
      (parse gds pf2 c s2).2.loadBalancer (parse gds pf2 c s2).1 =
        (parse gds pf c s1).2.loadBalancer (parse gds pf c s1).1) := by
  refine ⟨fun v hv => ⟨?_, fun h0 h1 => ?_⟩, fun hn => ?_, fun s1 s2 => ?_, ?_⟩
  · simp [parsedNode, hv]
  · have : (parsedNode gds pf c).seed = (v % 4294967296).toNat := by simp [parsedNode, hv]
    rw [this, Int.emod_eq_of_lt h0 h1, Int.toNat_of_nonneg h0]
  · simp [parsedNode, hn]
  · refine ⟨parsedNode gds pf c, parsedNode gds pf c, ?_, ?_,
      (LoadBalancer.equals_iff _ _).mpr rfl⟩
    · exact Store.loadBalancer_makeShared_new s1 _
    · exact Store.loadBalancer_makeShared_new s2 _
  · intro pf2 s1 s2 hmac
    have hpf : pf2 = pf := by
      cases pf2; cases pf; simp only [Platform.mk.injEq]; exact hmac
    subst hpf
    simp only [parse, Store.makeShared_fst]
    rw [Store.loadBalancer_makeShared_new, Store.loadBalancer_makeShared_new]

/-- A loop that ran to its end went through a batch without repeated IDs, and
its locals and store are as the invariant says. -/
theorem loop_ok_inv (gds : LoadBalancerID → MacAddress → Nat)
    (self : LoadBalancerConfigApplier) (s : Store) (m : LoadBalancerMap)
    (hv : ValidOriginal s self.originalLoadBalancers_ m) (l : Locals) (s1 : Store)
    (hloop : loop gds self self.loadBalancersConfig_
      { newLoadBalancers := [], changed := false, loadBalancerIDs := [],
        numExistingProcessed := 0 } s = (.ok l, s1)) :
    (self.loadBalancersConfig_.map (·.id)).Nodup ∧
    LoopInv gds self.platform_ s m self.loadBalancersConfig_ l s1 := by
  have hnd : (self.loadBalancersConfig_.map (·.id)).Nodup := by
    by_contra hnd
    obtain ⟨mid, d, post, hB, hmid, hd⟩ :=
      exists_first_dup self.loadBalancersConfig_ [] List.nodup_nil (by simpa using hnd)
    obtain ⟨s2, h2, -, -⟩ := loop_dup gds self s m hv mid d post
      (by simpa using hmid) (by simpa using hd)
    rw [hB, h2] at hloop
    cases hloop
  obtain ⟨l2, s2, h2, hinv⟩ := loop_ok gds self s m hv self.loadBalancersConfig_ [] _ s
    (loopInv_init gds self.platform_ s m) (by simpa using hnd)
  rw [hloop] at h2
  cases h2
  exact ⟨hnd, by simpa using hinv⟩

/-- C20. The count test against the set difference: for every batch that
passes the duplicate-ID check, that is, for which the loop runs to its end,
the condition by which the code detects removals,
`numExistingProcessed != originalLoadBalancers_->size()`, holds if and only if
the set difference of the keys of the original map and the IDs of the batch is
not empty. -/
theorem count_test_iff_set_difference (gds : LoadBalancerID → MacAddress → Nat)
    (self : LoadBalancerConfigApplier) (s : Store) (m : LoadBalancerMap)
    (hv : ValidOriginal s self.originalLoadBalancers_ m) (l : Locals) (s1 : Store)
    (hloop : loop gds self self.loadBalancersConfig_
      { newLoadBalancers := [], changed := false, loadBalancerIDs := [],
        numExistingProcessed := 0 } s = (.ok l, s1)) :
    s1.loadBalancerMap self.originalLoadBalancers_ = .ok m ∧
    (l.numExistingProcessed ≠ m.size ↔ removedKeys m self.loadBalancersConfig_ ≠ []) := by
  obtain ⟨hnd, hinv⟩ := loop_ok_inv gds self s m hv l s1 hloop
  obtain ⟨-, heq⟩ := count_existing m self.loadBalancersConfig_ hv.keys_sorted hnd
  rw [← hinv.num] at heq
  refine ⟨by simp [Store.loadBalancerMap, hinv.maps_eq, hv.map_eq], ?_⟩
  rw [ne_eq, heq]
  unfold removedKeys
  constructor
  · intro h hnil
    apply h
    intro k hk
    by_contra hk'
    have : k ∈ (m.nodes.map Prod.fst).filter fun k =>
        decide (k ∉ self.loadBalancersConfig_.map parseLoadBalancerID) :=
      List.mem_filter.mpr ⟨hk, by simpa [parseLoadBalancerID] using hk'⟩
    rw [hnil] at this
    cases this
  · intro h hall
    apply h
    rw [List.filter_eq_nil_iff]
    intro k hk
    have := hall k hk
    simpa [parseLoadBalancerID] using this

theorem count_test_iff_set_difference_witness :
    ValidOriginal sampleStore 0 sampleMap ∧
    removedKeys sampleMap [sampleAggregate] = [1] ∧
    (loop sampleSeed (sampleApplier [sampleAggregate]) [sampleAggregate]
      { newLoadBalancers := [], changed := false, loadBalancerIDs := [],
        numExistingProcessed := 0 } sampleStore).1 =
      .ok { newLoadBalancers := [(2, 1)], changed := true, loadBalancerIDs := [2],
            numExistingProcessed := 0 } ∧
    ((0 : Nat) ≠ sampleMap.size ↔ removedKeys sampleMap [sampleAggregate] ≠ []) :=
  ⟨sampleValid, by decide, by decide,
    (count_test_iff_set_difference sampleSeed (sampleApplier [sampleAggregate]) sampleStore
      sampleMap sampleValid
      { newLoadBalancers := [(2, 1)], changed := true, loadBalancerIDs := [2],
        numExistingProcessed := 0 }
      (loop sampleSeed (sampleApplier [sampleAggregate]) [sampleAggregate]
        { newLoadBalancers := [], changed := false, loadBalancerIDs := [],
          numExistingProcessed := 0 } sampleStore).2
      (by decide)).2⟩

/-! ## `AclMap::modify` -/

/-- C12. `AclMap::modify` on an unpublished map, with a holder whose root is
unpublished: the pointer returned is the map it was called on, the holder has
the root it had, and the store is the one before the call, so that the ACL map
of the root is what it was and nothing was cloned. -/
theorem AclMap.modify_unpublished (this state : Addr) (st : StateStore)
    (self : AclMap) (root : SwitchState)
    (hself : st.aclMaps[this]? = some self) (hunpub : self.published = false)
    (hroot : st.switchStates[state]? = some root) (hrootunpub : root.published = false) :
    AclMap.modify this state st = .ok { ptr := this, state := state, store := st } := by
  simp [AclMap.modify, StateStore.aclMap, StateStore.switchState, hself, hunpub, hroot,
    hrootunpub]

theorem AclMap.modify_unpublished_witness :
    AclMap.modify 1 1 sampleStateStore =
      .ok { ptr := 1, state := 1, store := sampleStateStore } :=
  AclMap.modify_unpublished 1 1 sampleStateStore
    { nodes := [("acl1", 0), ("acl2", 1)], published := false }
    { acls := 1, loadBalancers := 0, published := false } rfl rfl rfl rfl

/-- C13. `AclMap::modify` on a published map: it returns the address of a new
map object, other than the map it was called on, that has the entries of that
map and is unpublished; afterwards the root in the holder is unpublished and
its ACL map is the returned clone; the map it was called on keeps its entries
and its published flag. A published root is replaced in the holder by a new
object and stays as it was; an unpublished root stays in the holder. -/
theorem AclMap.modify_published (this state : Addr) (st : StateStore)
    (self : AclMap) (root : SwitchState)
    (hself : st.aclMaps[this]? = some self) (hpub : self.published = true)
    (hroot : st.switchStates[state]? = some root) :
    ∃ r, AclMap.modify this state st = .ok r ∧
      r.ptr ≠ this ∧ st.aclMaps[r.ptr]? = none ∧
      r.store.aclMaps[r.ptr]? = some { nodes := self.nodes, published := false } ∧
      r.store.switchStates[r.state]? =
        some { acls := r.ptr, loadBalancers := root.loadBalancers, published := false } ∧
      r.store.aclMaps[this]? = some self ∧
      (root.published = true →
        r.state ≠ state ∧ st.switchStates[r.state]? = none ∧
        r.store.switchStates[state]? = some root) ∧
      (root.published = false → r.state = state) := by
  have hthis : this < st.aclMaps.length := by
    by_contra h
    rw [List.getElem?_eq_none (Nat.le_of_not_lt h)] at hself
    cases hself
  have hstate : state < st.switchStates.length := by
    by_contra h
    rw [List.getElem?_eq_none (Nat.le_of_not_lt h)] at hroot
    cases hroot
  cases hrp : root.published with
  | true =>
    refine ⟨{ ptr := st.aclMaps.length, state := st.switchStates.length,
              store := { switchStates := (st.switchStates ++ [{ root with published := false }]).set
                           st.switchStates.length
                           { acls := st.aclMaps.length, loadBalancers := root.loadBalancers,
                             published := false },
                         aclMaps := st.aclMaps ++ [{ self with published := false }] } },
      ?_, ?_, by simp, ?_, ?_, ?_, ?_, ?_⟩
    · simp [AclMap.modify, StateStore.aclMap, StateStore.switchState, SwitchState.modify,
        AclMap.clone, SwitchState.resetAcls, hself, hpub, hroot, hrp]
    · exact Nat.ne_of_gt hthis
    · simp
    · simp
    · simp [List.getElem?_append_left hthis, hself]
    · intro _
      refine ⟨Nat.ne_of_gt hstate, by simp, ?_⟩
      simp [List.getElem?_set, Nat.ne_of_gt hstate, List.getElem?_append_left hstate, hroot]
    · intro h; cases h
  | false =>
    refine ⟨{ ptr := st.aclMaps.length, state := state,
              store := { switchStates := st.switchStates.set state
                           { acls := st.aclMaps.length, loadBalancers := root.loadBalancers,
                             published := root.published },
                         aclMaps := st.aclMaps ++ [{ self with published := false }] } },
      ?_, ?_, by simp, ?_, ?_, ?_, ?_, ?_⟩
    · simp [AclMap.modify, StateStore.aclMap, StateStore.switchState, SwitchState.modify,
        AclMap.clone, SwitchState.resetAcls, hself, hpub, hroot, hrp]
    · exact Nat.ne_of_gt hthis
    · simp
    · simp [hstate, hrp]
    · simp [List.getElem?_append_left hthis, hself]
    · intro h; cases h
    · intro _; rfl

theorem AclMap.modify_published_witness :
    ∃ r, AclMap.modify 0 0 sampleStateStore = .ok r ∧
      r.ptr ≠ 0 ∧ sampleStateStore.aclMaps[r.ptr]? = none ∧
      r.store.aclMaps[r.ptr]? = some { nodes := [("acl1", 0)], published := false } ∧
      r.store.switchStates[r.state]? =
        some { acls := r.ptr, loadBalancers := 0, published := false } ∧
      r.store.aclMaps[0]? = some { nodes := [("acl1", 0)], published := true } ∧
      (true = true →
        r.state ≠ 0 ∧ sampleStateStore.switchStates[r.state]? = none ∧
        r.store.switchStates[0]? = some { acls := 0, loadBalancers := 0, published := true }) ∧
      (true = false → r.state = 0) :=
  AclMap.modify_published 0 0 sampleStateStore
    { nodes := [("acl1", 0)], published := true }
    { acls := 0, loadBalancers := 0, published := true } rfl rfl rfl

/-! ## Facts about maps given by their entries -/

theorem Table.find_isSome_iff {κ ν : Type} [DecidableEq κ] (k : κ) (t : Table κ ν) :
    (Table.find k t).isSome = true ↔ k ∈ t.keys := by
  induction t with
  | nil => simp [Table.find, Table.keys]
  | cons e es ih =>
    simp only [Table.find, Table.keys, List.map_cons, List.mem_cons]
    by_cases h : e.1 = k
    · simp [h]
    · simp only [h, if_false]
      rw [ih]
      constructor
      · intro hk; exact Or.inr hk
      · rintro (hk | hk)
        · exact absurd hk.symm h
        · exact hk

theorem Table.find_eq_none_iff {κ ν : Type} [DecidableEq κ] (k : κ) (t : Table κ ν) :
    Table.find k t = none ↔ k ∉ t.keys := by
  rw [← Table.find_isSome_iff]
  cases Table.find k t <;> simp

theorem Table.find_assign {κ ν : Type} [DecidableEq κ] (k k' : κ) (v : ν) (t : Table κ ν) :
    Table.find k' (Table.assign k v t) = if k' = k then some v else Table.find k' t := by
  induction t with
  | nil => simp [Table.assign, Table.find, eq_comm]
  | cons e es ih =>
    simp only [Table.assign]
    by_cases h : e.1 = k
    · simp only [h, if_true, Table.find]
      by_cases h2 : k = k'
      · simp [h2]
      · have h3 : ¬ k' = k := fun hh => h2 hh.symm
        simp only [h2, h3, if_false]
    · simp only [h, if_false, Table.find, ih]
      by_cases h2 : e.1 = k'
      · have : ¬ k' = k := fun hh => h (h2.trans hh)
        simp [h2, this]
      · simp [h2]

theorem Table.find_erase_ne {κ ν : Type} [DecidableEq κ] (k k' : κ) (t : Table κ ν)
    (hne : k' ≠ k) : Table.find k' (Table.erase k t) = Table.find k' t := by
  induction t with
  | nil => rfl
  | cons e es ih =>
    simp only [Table.erase]
    by_cases h : e.1 = k
    · have h2 : ¬ e.1 = k' := fun hh => hne (hh.symm.trans h)
      simp only [h, if_true, Table.find, h2, if_false]
      rw [if_neg (fun hh : k = k' => hne hh.symm)]
    · simp only [h, if_false, Table.find, ih]

theorem Table.keys_assign {κ ν : Type} [DecidableEq κ] (k : κ) (v : ν) (t : Table κ ν)
    (h : k ∉ t.keys) : (Table.assign k v t).keys = t.keys ++ [k] := by
  induction t with
  | nil => rfl
  | cons e es ih =>
    simp only [Table.keys, List.map_cons, List.mem_cons, not_or] at h
    have h1 : ¬ e.1 = k := fun hh => h.1 hh.symm
    simp only [Table.assign, h1, if_false, Table.keys, List.map_cons, List.cons_append]
    exact congrArg _ (ih h.2)

theorem Table.keys_assign_mem {κ ν : Type} [DecidableEq κ] (k : κ) (v : ν) (t : Table κ ν)
    (h : k ∈ t.keys) : (Table.assign k v t).keys = t.keys := by
  induction t with
  | nil => simp [Table.keys] at h
  | cons e es ih =>
    by_cases h1 : e.1 = k
    · simp [Table.assign, h1, Table.keys]
    · simp only [Table.keys, List.map_cons, List.mem_cons] at h
      have h2 : k ∈ Table.keys es := by
        rcases h with h | h
        · exact absurd h.symm h1
        · exact h
      simp only [Table.assign, h1, if_false, Table.keys, List.map_cons]
      exact congrArg _ (ih h2)

theorem Table.keys_erase {κ ν : Type} [DecidableEq κ] (k : κ) (t : Table κ ν) :
    (Table.erase k t).keys = t.keys.erase k := by
  induction t with
  | nil => rfl
  | cons e es ih =>
    simp only [Table.erase, Table.keys, List.map_cons]
    by_cases h : e.1 = k
    · simp [h]
    · have : (e.1 == k) = false := by simpa using h
      simp only [h, if_false, List.map_cons, List.erase_cons, this]
      exact congrArg _ ih

/-! ## The queue of route counters -/

namespace BcmStatUpdater

theorem refreshRouteCountersLoop_append (q1 q2 : List BcmRouteCounterAction)
    (stats : Table BcmRouteCounterID MonotonicCounter) :
    refreshRouteCountersLoop (q1 ++ q2) stats =
      match refreshRouteCountersLoop q1 stats with
      | (.ok _, _, stats1) => refreshRouteCountersLoop q2 stats1
      | (.error e, rest, stats1) => (.error e, rest ++ q2, stats1) := by
  induction q1 generalizing stats with
  | nil => simp [refreshRouteCountersLoop]
  | cons a q1 ih =>
    simp only [List.cons_append, refreshRouteCountersLoop]
    by_cases ha : a.addCounter = true <;>
      by_cases hf : (Table.find a.id stats).isSome = true <;>
      simp [ha, hf, ih]

/-- The loop against the words of the specification: it fails exactly with
the first failure that the specification tells, and after a drain the queue is
empty and the IDs of the collection are those that the specification tells. -/
theorem refreshRouteCountersLoop_spec (q : List BcmRouteCounterAction)
    (stats : Table BcmRouteCounterID MonotonicCounter) (hnd : stats.keys.Nodup) :
    match RouteCounterSpec.firstFailure stats.keys.toFinset q with
    | some f => (refreshRouteCountersLoop q stats).1 = .error f
    | none =>
      (refreshRouteCountersLoop q stats).1 = .ok () ∧
      (refreshRouteCountersLoop q stats).2.1 = [] ∧
      (refreshRouteCountersLoop q stats).2.2.keys.Nodup ∧
      (refreshRouteCountersLoop q stats).2.2.keys.toFinset =
        RouteCounterSpec.idsAfter stats.keys.toFinset q := by
  induction q generalizing stats with
  | nil => simp [RouteCounterSpec.firstFailure, refreshRouteCountersLoop,
      RouteCounterSpec.idsAfter, hnd]
  | cons a rest ih =>
    have hmem : (Table.find a.id stats).isSome = true ↔ a.id ∈ stats.keys.toFinset := by
      rw [Table.find_isSome_iff, List.mem_toFinset]
    by_cases ha : a.addCounter = true
    · by_cases hf : (Table.find a.id stats).isSome = true
      · have hm := hmem.mp hf
        simp only [RouteCounterSpec.firstFailure, refreshRouteCountersLoop, ha, hf, hm, if_true]
      · have hm : a.id ∉ stats.keys.toFinset := fun h => hf (hmem.mpr h)
        have hk : a.id ∉ stats.keys := fun h => hf ((Table.find_isSome_iff _ _).mpr h)
        have hnd1 : (Table.assign a.id { name := a.routeStatName } stats).keys.Nodup := by
          rw [Table.keys_assign _ _ _ hk]
          exact List.Nodup.append hnd (List.nodup_singleton _)
            (by simpa [List.disjoint_singleton] using hk)
        have hfin : (Table.assign a.id { name := a.routeStatName } stats).keys.toFinset =
            insert a.id stats.keys.toFinset := by
          rw [Table.keys_assign _ _ _ hk]
          ext x
          simp [or_comm]
        have := ih _ hnd1
        rw [hfin] at this
        simp only [RouteCounterSpec.firstFailure, refreshRouteCountersLoop, ha, hf, hm, if_true,
          if_false, RouteCounterSpec.idsAfter, List.foldl_cons, RouteCounterSpec.apply,
          Bool.false_eq_true]
        exact this
    · have ha' : a.addCounter = false := by simpa using ha
      by_cases hf : (Table.find a.id stats).isSome = true
      · have hm := hmem.mp hf
        have hnd1 : (Table.erase a.id stats).keys.Nodup := by
          rw [Table.keys_erase]; exact hnd.erase _
        have hfin : (Table.erase a.id stats).keys.toFinset =
            stats.keys.toFinset.erase a.id := by
          rw [Table.keys_erase]
          ext x
          simp [hnd.mem_erase_iff]
        have := ih _ hnd1
        rw [hfin] at this
        simp only [RouteCounterSpec.firstFailure, refreshRouteCountersLoop, ha', hf, hm, if_true,
          if_false, RouteCounterSpec.idsAfter, List.foldl_cons, RouteCounterSpec.apply,
          Bool.false_eq_true]
        exact this
      · have hm : a.id ∉ stats.keys.toFinset := fun h => hf (hmem.mpr h)
        simp only [RouteCounterSpec.firstFailure, refreshRouteCountersLoop, ha', hf, hm,
          if_false, Bool.false_eq_true]

end BcmStatUpdater

/-- The specification's first failure exists exactly when some intent of the
queue is rejected by the set of IDs that the intents before it leave. -/
theorem RouteCounterSpec.firstFailure_isSome_iff (ids : Finset BcmRouteCounterID)
    (q : List BcmRouteCounterAction) :
    (RouteCounterSpec.firstFailure ids q).isSome = true ↔
      ∃ pre a post, q = pre ++ a :: post ∧
        RouteCounterSpec.Rejects (RouteCounterSpec.idsAfter ids pre) a := by
  induction q generalizing ids with
  | nil => simp [RouteCounterSpec.firstFailure]
  | cons b rest ih =>
    have hstep : ∀ ids', ids' = RouteCounterSpec.apply ids b →
        ¬ RouteCounterSpec.Rejects ids b →
        ((∃ pre a post, rest = pre ++ a :: post ∧
            RouteCounterSpec.Rejects (RouteCounterSpec.idsAfter ids' pre) a) ↔
          ∃ pre a post, b :: rest = pre ++ a :: post ∧
            RouteCounterSpec.Rejects (RouteCounterSpec.idsAfter ids pre) a) := by
      intro ids' hids hnr
      subst hids
      constructor
      · rintro ⟨pre, a, post, hq, hr⟩
        exact ⟨b :: pre, a, post, by simp [hq], by
          simpa [RouteCounterSpec.idsAfter] using hr⟩
      · rintro ⟨pre, a, post, hq, hr⟩
        cases pre with
        | nil =>
          simp only [List.nil_append, List.cons.injEq] at hq
          obtain ⟨rfl, -⟩ := hq
          exact absurd hr hnr
        | cons c pre =>
          simp only [List.cons_append, List.cons.injEq] at hq
          obtain ⟨rfl, hq⟩ := hq
          exact ⟨pre, a, post, hq, by simpa [RouteCounterSpec.idsAfter] using hr⟩
    have hhead : RouteCounterSpec.Rejects ids b →
        ∃ pre a post, b :: rest = pre ++ a :: post ∧
          RouteCounterSpec.Rejects (RouteCounterSpec.idsAfter ids pre) a :=
      fun h => ⟨[], b, rest, rfl, by simpa [RouteCounterSpec.idsAfter] using h⟩
    simp only [RouteCounterSpec.firstFailure]
    by_cases ha : b.addCounter = true
    · by_cases hm : b.id ∈ ids
      · simp only [ha, hm, if_true, Option.isSome_some, true_iff]
        exact hhead (Or.inl ⟨ha, hm⟩)
      · simp only [ha, hm, if_true, if_false]
        rw [ih]
        refine hstep _ (by simp [RouteCounterSpec.apply, ha]) ?_
        rintro (⟨-, h⟩ | ⟨h, -⟩)
        · exact hm h
        · rw [ha] at h; cases h
    · have ha' : b.addCounter = false := by simpa using ha
      by_cases hm : b.id ∈ ids
      · simp only [ha', hm, if_true, Bool.false_eq_true, if_false]
        rw [ih]
        refine hstep _ (by simp [RouteCounterSpec.apply, ha']) ?_
        rintro (⟨h, -⟩ | ⟨-, h⟩)
        · rw [ha'] at h; cases h
        · exact h hm
      · simp only [ha', hm, Bool.false_eq_true, if_false, Option.isSome_some, true_iff]
        exact hhead (Or.inr ⟨ha', hm⟩)

theorem RouteCounterSpec.firstFailure_eq_some (ids : Finset BcmRouteCounterID)
    (q : List BcmRouteCounterAction) (f : Fault)
    (h : RouteCounterSpec.firstFailure ids q = some f) :
    ∃ pre a post, q = pre ++ a :: post ∧
      ((a.addCounter = true ∧ a.id ∈ RouteCounterSpec.idsAfter ids pre ∧
          f = BcmStatUpdater.duplicateRouteStat a.id) ∨
       (a.addCounter = false ∧ a.id ∉ RouteCounterSpec.idsAfter ids pre ∧
          f = BcmStatUpdater.unknownRouteStat a.id)) := by
  induction q generalizing ids with
  | nil => simp [RouteCounterSpec.firstFailure] at h
  | cons b rest ih =>
    simp only [RouteCounterSpec.firstFailure] at h
    by_cases ha : b.addCounter = true
    · by_cases hm : b.id ∈ ids
      · simp only [ha, hm, if_true, Option.some.injEq] at h
        exact ⟨[], b, rest, rfl, Or.inl ⟨ha, by simpa [RouteCounterSpec.idsAfter] using hm,
          h.symm⟩⟩
      · simp only [ha, hm, if_true, if_false] at h
        obtain ⟨pre, a, post, hq, hr⟩ := ih _ h
        refine ⟨b :: pre, a, post, by simp [hq], ?_⟩
        simpa [RouteCounterSpec.idsAfter, RouteCounterSpec.apply, ha] using hr
    · have ha' : b.addCounter = false := by simpa using ha
      by_cases hm : b.id ∈ ids
      · simp only [ha', hm, if_true, Bool.false_eq_true, if_false] at h
        obtain ⟨pre, a, post, hq, hr⟩ := ih _ h
        refine ⟨b :: pre, a, post, by simp [hq], ?_⟩
        simpa [RouteCounterSpec.idsAfter, RouteCounterSpec.apply, ha'] using hr
      · simp only [ha', hm, Bool.false_eq_true, if_false, Option.some.injEq] at h
        exact ⟨[], b, rest, rfl, Or.inr ⟨ha', by simpa [RouteCounterSpec.idsAfter] using hm,
          h.symm⟩⟩

namespace BcmStatUpdater

theorem refreshRouteCounters_eq_loop (u : BcmStatUpdater) :
    refreshRouteCounters u =
      ((refreshRouteCountersLoop u.toBeProcessedRouteCounters_ u.routeStats_).1,
        { u with
          toBeProcessedRouteCounters_ :=
            (refreshRouteCountersLoop u.toBeProcessedRouteCounters_ u.routeStats_).2.1,
          routeStats_ :=
            (refreshRouteCountersLoop u.toBeProcessedRouteCounters_ u.routeStats_).2.2 }) := by
  unfold refreshRouteCounters
  cases hq : u.toBeProcessedRouteCounters_ with
  | nil =>
    cases u
    simp only at hq
    subst hq
    simp [refreshRouteCountersLoop]
  | cons a rest => simp

/-- An ID that no intent of the queue names has, after the loop, the counter
it had. -/
theorem refreshRouteCountersLoop_untouched (q : List BcmRouteCounterAction)
    (stats : Table BcmRouteCounterID MonotonicCounter) (k : BcmRouteCounterID)
    (hk : ∀ a ∈ q, a.id ≠ k) :
    Table.find k (refreshRouteCountersLoop q stats).2.2 = Table.find k stats := by
  induction q generalizing stats with
  | nil => rfl
  | cons a rest ih =>
    have hne : k ≠ a.id := fun h => hk a (List.mem_cons_self _ _) h.symm
    have hrest : ∀ b ∈ rest, b.id ≠ k := fun b hb => hk b (List.mem_cons_of_mem _ hb)
    simp only [refreshRouteCountersLoop]
    by_cases ha : a.addCounter = true <;>
      by_cases hf : (Table.find a.id stats).isSome = true
    · simp [ha, hf]
    · simp only [ha, hf, if_true, Bool.false_eq_true, if_false]
      rw [ih _ hrest, Table.find_assign, if_neg hne]
    · simp only [ha, hf, if_true, Bool.false_eq_true, if_false]
      rw [ih _ hrest, Table.find_erase_ne _ _ _ hne]
    · simp [ha, hf]

/-- C14. The failure condition of the queue of route counters: on a collection
with unique IDs `refreshRouteCounters` fails if and only if some intent of the
queue is rejected by the IDs that the intents before it, applied in FIFO
order, leave: an Add of an ID that is present at that point, or a Remove of
an ID that is absent at that point. The failure is the duplicate error of such
an Add or the unknown-ID error of such a Remove, the one that the
specification's pass over the queue meets first. -/
theorem refreshRouteCounters_fails_iff (u : BcmStatUpdater) (hnd : u.routeStats_.keys.Nodup) :
    ((∃ e, (refreshRouteCounters u).1 = .error e) ↔
      ∃ pre a post, u.toBeProcessedRouteCounters_ = pre ++ a :: post ∧
        RouteCounterSpec.Rejects
          (RouteCounterSpec.idsAfter u.routeStats_.keys.toFinset pre) a) ∧
    (∀ e, (refreshRouteCounters u).1 = .error e →
      RouteCounterSpec.firstFailure u.routeStats_.keys.toFinset
          u.toBeProcessedRouteCounters_ = some e ∧
      ∃ pre a post, u.toBeProcessedRouteCounters_ = pre ++ a :: post ∧
        ((a.addCounter = true ∧
            a.id ∈ RouteCounterSpec.idsAfter u.routeStats_.keys.toFinset pre ∧
            e = duplicateRouteStat a.id) ∨
         (a.addCounter = false ∧
            a.id ∉ RouteCounterSpec.idsAfter u.routeStats_.keys.toFinset pre ∧
            e = unknownRouteStat a.id))) := by
  have hspec := refreshRouteCountersLoop_spec u.toBeProcessedRouteCounters_ u.routeStats_ hnd
  have h1 : (refreshRouteCounters u).1 =
      (refreshRouteCountersLoop u.toBeProcessedRouteCounters_ u.routeStats_).1 := by
    rw [refreshRouteCounters_eq_loop]
  rw [h1, ← RouteCounterSpec.firstFailure_isSome_iff]
  cases hff : RouteCounterSpec.firstFailure u.routeStats_.keys.toFinset
      u.toBeProcessedRouteCounters_ with
  | none =>
    rw [hff] at hspec
    simp only at hspec
    rw [hspec.1]
    refine ⟨⟨fun ⟨e, he⟩ => (by cases he), fun h => (by cases h)⟩, fun e he => (by cases he)⟩
  | some f =>
    rw [hff] at hspec
    simp only at hspec
    rw [hspec]
    refine ⟨⟨fun _ => rfl, fun _ => ⟨f, rfl⟩⟩, fun e he => ?_⟩
    cases he
    exact ⟨rfl, RouteCounterSpec.firstFailure_eq_some _ _ _ hff⟩

theorem refreshRouteCounters_fails_iff_witness :
    sampleUpdater.routeStats_.keys.Nodup ∧
    (refreshRouteCounters { sampleUpdater with toBeProcessedRouteCounters_ :=
        [{ id := 2, routeStatName := "route2", addCounter := true },
         { id := 2, routeStatName := "again", addCounter := true }] }).1 =
      .error (duplicateRouteStat 2) ∧
    RouteCounterSpec.firstFailure sampleUpdater.routeStats_.keys.toFinset
        [{ id := 2, routeStatName := "route2", addCounter := true },
         { id := 2, routeStatName := "again", addCounter := true }] =
      some (duplicateRouteStat 2) :=
  ⟨by decide, by decide,
    ((refreshRouteCounters_fails_iff { sampleUpdater with toBeProcessedRouteCounters_ :=
        [{ id := 2, routeStatName := "route2", addCounter := true },
         { id := 2, routeStatName := "again", addCounter := true }] } (by decide)).2
      (duplicateRouteStat 2) (by decide)).1⟩

/-- C15, as the code has it: when `refreshRouteCounters` meets a Remove of an
ID that is absent after the intents queued before it went through, it fails
with the unknown-ID error and the failing Remove changes nothing: the
collection is left as the intents before the Remove made it, and is the
collection from before the call when the Remove is the first of the queue. -/
theorem refreshRouteCounters_failed_remove (u : BcmStatUpdater)
    (pre : List BcmRouteCounterAction) (a : BcmRouteCounterAction)
    (post : List BcmRouteCounterAction)
    (hq : u.toBeProcessedRouteCounters_ = pre ++ a :: post)
    (hpre : (refreshRouteCounters { u with toBeProcessedRouteCounters_ := pre }).1 = .ok ())
    (hrem : a.addCounter = false)
    (habs : Table.find a.id
      (refreshRouteCounters { u with toBeProcessedRouteCounters_ := pre }).2.routeStats_ =
        none) :
    (refreshRouteCounters u).1 = .error (unknownRouteStat a.id) ∧
    (refreshRouteCounters u).2.routeStats_ =
      (refreshRouteCounters { u with toBeProcessedRouteCounters_ := pre }).2.routeStats_ ∧
    (pre = [] → (refreshRouteCounters u).2.routeStats_ = u.routeStats_) := by
  rw [refreshRouteCounters_eq_loop] at hpre habs
  simp only at hpre habs
  have hloop : refreshRouteCountersLoop (pre ++ a :: post) u.routeStats_ =
      (.error (unknownRouteStat a.id), a :: post,
        (refreshRouteCountersLoop pre u.routeStats_).2.2) := by
    rw [refreshRouteCountersLoop_append]
    rcases hr : refreshRouteCountersLoop pre u.routeStats_ with ⟨r, rest, stats1⟩
    rw [hr] at hpre habs
    simp only at hpre habs
    subst hpre
    simp [refreshRouteCountersLoop, hrem, habs]
  rw [refreshRouteCounters_eq_loop u, refreshRouteCounters_eq_loop { u with
    toBeProcessedRouteCounters_ := pre }, hq, hloop]
  refine ⟨rfl, rfl, fun hp => ?_⟩
  subst hp
  rfl

theorem refreshRouteCounters_failed_remove_witness :
    (refreshRouteCounters { sampleUpdater with toBeProcessedRouteCounters_ :=
        [{ id := 2, routeStatName := "route2", addCounter := true },
         { id := 7, routeStatName := "", addCounter := false }] }).1 =
      .error (unknownRouteStat 7) ∧
    (refreshRouteCounters { sampleUpdater with toBeProcessedRouteCounters_ :=
        [{ id := 2, routeStatName := "route2", addCounter := true },
         { id := 7, routeStatName := "", addCounter := false }] }).2.routeStats_ =
      [(1, { name := "route1" }), (2, { name := "route2" })] :=
  ⟨(refreshRouteCounters_failed_remove
      { sampleUpdater with toBeProcessedRouteCounters_ :=
        [{ id := 2, routeStatName := "route2", addCounter := true },
         { id := 7, routeStatName := "", addCounter := false }] }
      [{ id := 2, routeStatName := "route2", addCounter := true }]
      { id := 7, routeStatName := "", addCounter := false } [] rfl (by decide) rfl
      (by decide)).1,
    by decide⟩

/-- C15, as the claim has it, fails: with the route counter 1 in the
collection and the queue Add 2, Remove 7, `refreshRouteCounters` fails because
the Remove names the absent ID 7, and the collection is not the one from
before the call: the Add that was queued before has put the ID 2 in. -/
theorem refreshRouteCounters_failed_remove_counterexample :
    (refreshRouteCounters { sampleUpdater with toBeProcessedRouteCounters_ :=
        [{ id := 2, routeStatName := "route2", addCounter := true },
         { id := 7, routeStatName := "", addCounter := false }] }).1 =
      .error (unknownRouteStat 7) ∧
    (refreshRouteCounters { sampleUpdater with toBeProcessedRouteCounters_ :=
        [{ id := 2, routeStatName := "route2", addCounter := true },
         { id := 7, routeStatName := "", addCounter := false }] }).2.routeStats_ ≠
      sampleUpdater.routeStats_ := by
  decide

/-- C17. A drain of the queue of route counters: when `refreshRouteCounters`
returns, on a collection with unique IDs, the queue is empty and the set of
IDs of the collection is what folding the queued intents over the set from
before the call gives, in FIFO order, Add inserting its ID and Remove erasing
it; an ID that no intent names has the counter it had; nothing but the queue
and the collection changes, and with an empty queue nothing changes at all. -/
theorem refreshRouteCounters_drain (u : BcmStatUpdater) (hnd : u.routeStats_.keys.Nodup)
    (hok : (refreshRouteCounters u).1 = .ok ()) :
    (refreshRouteCounters u).2.toBeProcessedRouteCounters_ = [] ∧
    (refreshRouteCounters u).2.routeStats_.keys.toFinset =
      RouteCounterSpec.idsAfter u.routeStats_.keys.toFinset u.toBeProcessedRouteCounters_ ∧
    (refreshRouteCounters u).2.routeStats_.keys.Nodup ∧
    (∀ k, (∀ a ∈ u.toBeProcessedRouteCounters_, a.id ≠ k) →
      Table.find k (refreshRouteCounters u).2.routeStats_ = Table.find k u.routeStats_) ∧
    (refreshRouteCounters u).2.aclStats_ = u.aclStats_ ∧
    (refreshRouteCounters u).2.toBeAddedAclStats_ = u.toBeAddedAclStats_ ∧
    (refreshRouteCounters u).2.toBeRemovedAclStats_ = u.toBeRemovedAclStats_ ∧
    (u.toBeProcessedRouteCounters_ = [] → refreshRouteCounters u = (.ok (), u)) := by
  have hspec := refreshRouteCountersLoop_spec u.toBeProcessedRouteCounters_ u.routeStats_ hnd
  rw [refreshRouteCounters_eq_loop] at hok ⊢
  simp only at hok
  cases hff : RouteCounterSpec.firstFailure u.routeStats_.keys.toFinset
      u.toBeProcessedRouteCounters_ with
  | some f =>
    rw [hff] at hspec
    simp only at hspec
    rw [hspec] at hok
    cases hok
  | none =>
    rw [hff] at hspec
    simp only at hspec
    obtain ⟨-, h2, h3, h4⟩ := hspec
    refine ⟨h2, h4, h3,
      fun k hk => refreshRouteCountersLoop_untouched _ _ k hk, rfl, rfl, rfl, fun he => ?_⟩
    cases u
    simp only at he
    subst he
    simp [refreshRouteCountersLoop]

theorem refreshRouteCounters_drain_witness :
    sampleUpdater.routeStats_.keys.Nodup ∧
    (refreshRouteCounters { sampleUpdater with toBeProcessedRouteCounters_ :=
        [{ id := 2, routeStatName := "route2", addCounter := true },
         { id := 1, routeStatName := "", addCounter := false }] }).1 = .ok () ∧
    (refreshRouteCounters { sampleUpdater with toBeProcessedRouteCounters_ :=
        [{ id := 2, routeStatName := "route2", addCounter := true },
         { id := 1, routeStatName := "", addCounter := false }] }).2.routeStats_ =
      [(2, { name := "route2" })] ∧
    (refreshRouteCounters { sampleUpdater with toBeProcessedRouteCounters_ :=
        [{ id := 2, routeStatName := "route2", addCounter := true },
         { id := 1, routeStatName := "", addCounter := false }] }).2.toBeProcessedRouteCounters_ =
      [] :=
  ⟨by decide, by decide, by decide,
    (refreshRouteCounters_drain { sampleUpdater with toBeProcessedRouteCounters_ :=
        [{ id := 2, routeStatName := "route2", addCounter := true },
         { id := 1, routeStatName := "", addCounter := false }] } (by decide) (by decide)).1⟩

end BcmStatUpdater

/-! ## The queues of ACL stats -/

namespace BcmStatUpdater

/-- Removals of handles that the collection does not have leave it as it
is. -/
theorem refreshAclStatsRemoveLoop_absent (q : List BcmAclStatHandle)
    (stats : Table BcmAclStatHandle (Table CounterType MonotonicCounter))
    (habs : ∀ h ∈ q, Table.find h stats = none) :
    refreshAclStatsRemoveLoop q stats = stats := by
  induction q with
  | nil => rfl
  | cons h rest ih =>
    have hk : h ∉ stats.keys :=
      (Table.find_eq_none_iff h stats).mp (habs h (List.mem_cons_self _ _))
    have hfilter : stats.filter (fun itr => decide (itr.1 ≠ h)) = stats := by
      rw [List.filter_eq_self]
      intro e he
      have : e.1 ≠ h := fun hh => hk (hh ▸ List.mem_map_of_mem Prod.fst he)
      simpa using this
    simp only [refreshAclStatsRemoveLoop, hfilter]
    exact ih fun h' hh => habs h' (List.mem_cons_of_mem _ hh)

/-- The one error of the loop of additions is the duplicate error of an
addition of the queue. -/
theorem refreshAclStatsAddLoop_error (enumNameSafe : CounterType → String)
    (statNameFromCounterType : String → CounterType → String)
    (q : List (BcmAclStatDescriptor × CounterType))
    (stats : Table BcmAclStatHandle (Table CounterType MonotonicCounter)) (e : Fault)
    (h : (refreshAclStatsAddLoop enumNameSafe statNameFromCounterType q stats).1 = .error e) :
    ∃ d ∈ q, e = duplicateAclStat enumNameSafe d.1.handle d.2 := by
  induction q generalizing stats with
  | nil => simp [refreshAclStatsAddLoop] at h
  | cons front rest ih =>
    simp only [refreshAclStatsAddLoop] at h
    cases hf : Table.find front.1.handle stats with
    | none =>
      simp only [hf] at h
      obtain ⟨d, hd, he⟩ := ih _ h
      exact ⟨d, List.mem_cons_of_mem _ hd, he⟩
    | some counters =>
      simp only [hf] at h
      by_cases ht : (Table.find front.2 counters).isSome = true
      · simp only [ht, if_true, Except.error.injEq] at h
        exact ⟨front, List.mem_cons_self _ _, h.symm⟩
      · simp only [ht, Bool.false_eq_true, if_false] at h
        obtain ⟨d, hd, he⟩ := ih _ h
        exact ⟨d, List.mem_cons_of_mem _ hd, he⟩

theorem refreshAclStats_eq_loops (enumNameSafe : CounterType → String)
    (statNameFromCounterType : String → CounterType → String) (u : BcmStatUpdater) :
    refreshAclStats enumNameSafe statNameFromCounterType u =
      ((refreshAclStatsAddLoop enumNameSafe statNameFromCounterType u.toBeAddedAclStats_
          (refreshAclStatsRemoveLoop u.toBeRemovedAclStats_ u.aclStats_)).1,
        { u with
          toBeRemovedAclStats_ := [],
          toBeAddedAclStats_ :=
            (refreshAclStatsAddLoop enumNameSafe statNameFromCounterType u.toBeAddedAclStats_
              (refreshAclStatsRemoveLoop u.toBeRemovedAclStats_ u.aclStats_)).2.1,
          aclStats_ :=
            (refreshAclStatsAddLoop enumNameSafe statNameFromCounterType u.toBeAddedAclStats_
              (refreshAclStatsRemoveLoop u.toBeRemovedAclStats_ u.aclStats_)).2.2 }) := by
  unfold refreshAclStats
  cases u with
  | mk added removed routes acl rstats =>
    cases removed with
    | nil =>
      cases added with
      | nil => simp [refreshAclStatsAddLoop, refreshAclStatsRemoveLoop]
      | cons a as => simp
    | cons r rs => simp

/-- C16, as the code has it: in `refreshAclStats` a queued Remove of a handle
that the collection of ACL stats does not have is no failure. The removals are
popped and leave the collection as it is, so that the call does what it does
without them; with no addition queued it returns and only the queue of
removals has changed, to empty; and whatever is queued, the one error that
`refreshAclStats` throws is the duplicate error of a queued addition. -/
theorem refreshAclStats_remove_absent (enumNameSafe : CounterType → String)
    (statNameFromCounterType : String → CounterType → String) (u : BcmStatUpdater)
    (habs : ∀ h ∈ u.toBeRemovedAclStats_, Table.find h u.aclStats_ = none) :
    refreshAclStats enumNameSafe statNameFromCounterType u =
      refreshAclStats enumNameSafe statNameFromCounterType
        { u with toBeRemovedAclStats_ := [] } ∧
    (u.toBeAddedAclStats_ = [] →
      refreshAclStats enumNameSafe statNameFromCounterType u =
        (.ok (), { u with toBeRemovedAclStats_ := [] })) ∧
    (∀ (v : BcmStatUpdater) (e : Fault),
      (refreshAclStats enumNameSafe statNameFromCounterType v).1 = .error e →
      ∃ d ∈ v.toBeAddedAclStats_, e = duplicateAclStat enumNameSafe d.1.handle d.2) := by
  have hrem := refreshAclStatsRemoveLoop_absent u.toBeRemovedAclStats_ u.aclStats_ habs
  refine ⟨?_, fun hadd => ?_, fun v e he => ?_⟩
  · rw [refreshAclStats_eq_loops, refreshAclStats_eq_loops, hrem]
    rfl
  · rw [refreshAclStats_eq_loops, hrem, hadd]
    cases u
    simp only at hadd
    subst hadd
    simp [refreshAclStatsAddLoop]
  · rw [refreshAclStats_eq_loops] at he
    exact refreshAclStatsAddLoop_error _ _ _ _ e he

theorem refreshAclStats_remove_absent_witness :
    (∀ h ∈ ({ sampleUpdater with toBeRemovedAclStats_ := [99] }).toBeRemovedAclStats_,
      Table.find h ({ sampleUpdater with toBeRemovedAclStats_ := [99] }).aclStats_ = none) ∧
    refreshAclStats sampleEnumName sampleStatName
        { sampleUpdater with toBeRemovedAclStats_ := [99] } =
      (.ok (), sampleUpdater) :=
  ⟨by decide,
    (refreshAclStats_remove_absent sampleEnumName sampleStatName
      { sampleUpdater with toBeRemovedAclStats_ := [99] } (by decide)).2.1 rfl⟩

/-- C16, as the claim has it, fails: the collection of ACL stats has the
handle 10 only, a Remove of the handle 99 is queued, and `refreshAclStats`
returns without an error. -/
theorem refreshAclStats_remove_absent_counterexample :
    Table.find 99 sampleUpdater.aclStats_ = none ∧
    (toBeRemovedAclStat sampleUpdater 99).toBeRemovedAclStats_ = [99] ∧
    (refreshAclStats sampleEnumName sampleStatName (toBeRemovedAclStat sampleUpdater 99)).1 =
      .ok () := by
  decide

/-- C18. In the loop of additions of `refreshAclStats`, with the collection
as it is at that point: an Add of a counter type that the handle has fails
with the duplicate error, whose message names the handle and the type, and
leaves queue and collection as they are; an Add of a counter type that the
handle, present, does not have goes through, and puts the new counter under
the handle next to the counters the handle has, which stay. And
`toBeAddedAclStat` queues one Add for every counter type listed, in order. -/
theorem refreshAclStats_duplicate_add (enumNameSafe : CounterType → String)
    (statNameFromCounterType : String → CounterType → String)
    (front : BcmAclStatDescriptor × CounterType)
    (rest : List (BcmAclStatDescriptor × CounterType))
    (stats : Table BcmAclStatHandle (Table CounterType MonotonicCounter))
    (counters : Table CounterType MonotonicCounter)
    (hfind : Table.find front.1.handle stats = some counters) :
    ((Table.find front.2 counters).isSome = true →
      refreshAclStatsAddLoop enumNameSafe statNameFromCounterType (front :: rest) stats =
        (.error (.fbossError ("Duplicate ACL stat, handle=" ++ toString front.1.handle ++
            ", type=" ++ enumNameSafe front.2)), front :: rest, stats) ∧
      ∀ u : BcmStatUpdater, u.toBeRemovedAclStats_ = [] →
        u.toBeAddedAclStats_ = front :: rest → u.aclStats_ = stats →
        refreshAclStats enumNameSafe statNameFromCounterType u =
          (.error (.fbossError ("Duplicate ACL stat, handle=" ++ toString front.1.handle ++
            ", type=" ++ enumNameSafe front.2)), u)) ∧
    (Table.find front.2 counters = none →
      refreshAclStatsAddLoop enumNameSafe statNameFromCounterType (front :: rest) stats =
        refreshAclStatsAddLoop enumNameSafe statNameFromCounterType rest
          (Table.assign front.1.handle
            (Table.assign front.2
              { name := statNameFromCounterType front.1.aclStatName front.2 } counters)
            stats) ∧
      refreshAclStatsAddLoop enumNameSafe statNameFromCounterType [front] stats =
        (.ok (), [],
          Table.assign front.1.handle
            (Table.assign front.2
              { name := statNameFromCounterType front.1.aclStatName front.2 } counters)
            stats) ∧
      (∀ t, Table.find t
          (Table.assign front.2
            { name := statNameFromCounterType front.1.aclStatName front.2 } counters) =
        if t = front.2 then
          some { name := statNameFromCounterType front.1.aclStatName front.2 }
        else Table.find t counters) ∧
      (∀ h, Table.find h
          (Table.assign front.1.handle
            (Table.assign front.2
              { name := statNameFromCounterType front.1.aclStatName front.2 } counters)
            stats) =
        if h = front.1.handle then
          some (Table.assign front.2
            { name := statNameFromCounterType front.1.aclStatName front.2 } counters)
        else Table.find h stats)) ∧
    (∀ (u : BcmStatUpdater) (handle : BcmAclStatHandle) (aclStatName : String)
        (counterTypes : List CounterType),
      toBeAddedAclStat u handle aclStatName counterTypes =
        { u with toBeAddedAclStats_ := u.toBeAddedAclStats_ ++
            counterTypes.map fun t => ({ handle := handle, aclStatName := aclStatName }, t) }) := by
  refine ⟨fun hdup => ?_, fun hnew => ?_, ?_⟩
  · have hloop : refreshAclStatsAddLoop enumNameSafe statNameFromCounterType (front :: rest)
        stats = (.error (duplicateAclStat enumNameSafe front.1.handle front.2), front :: rest,
          stats) := by
      simp only [refreshAclStatsAddLoop, hfind, hdup, if_true]
    refine ⟨hloop, fun u hr ha hs => ?_⟩
    rw [refreshAclStats_eq_loops, hr, ha, hs]
    simp only [refreshAclStatsRemoveLoop, hloop]
    cases u
    simp only at hr ha hs
    subst hr ha hs
    rfl
  · have hns : ¬ (Table.find front.2 counters).isSome = true := by simp [hnew]
    refine ⟨?_, ?_, fun t => Table.find_assign _ _ _ _, fun h => Table.find_assign _ _ _ _⟩
    · simp only [refreshAclStatsAddLoop, hfind, hns, Bool.false_eq_true, if_false]
    · simp only [refreshAclStatsAddLoop, hfind, hns, Bool.false_eq_true, if_false]
  · intro u handle aclStatName counterTypes
    unfold toBeAddedAclStat
    induction counterTypes generalizing u with
    | nil => simp
    | cons t ts ih =>
      simp only [List.foldl_cons, List.map_cons]
      rw [ih]
      simp

theorem refreshAclStats_duplicate_add_witness :
    Table.find (10 : BcmAclStatHandle) sampleUpdater.aclStats_ =
      some [(0, { name := "acl.packets" })] ∧
    refreshAclStats sampleEnumName sampleStatName
        (toBeAddedAclStat sampleUpdater 10 "acl" [0, 1]) =
      (.error (.fbossError "Duplicate ACL stat, handle=10, type=PACKETS"),
        toBeAddedAclStat sampleUpdater 10 "acl" [0, 1]) ∧
    refreshAclStats sampleEnumName sampleStatName
        (toBeAddedAclStat sampleUpdater 10 "acl" [1]) =
      (.ok (), { sampleUpdater with
        aclStats_ := [(10, [(0, { name := "acl.packets" }), (1, { name := "acl.bytes" })])] }) :=
  ⟨rfl,
    ((refreshAclStats_duplicate_add sampleEnumName sampleStatName
      ({ handle := 10, aclStatName := "acl" }, 0) [({ handle := 10, aclStatName := "acl" }, 1)]
      sampleUpdater.aclStats_ [(0, { name := "acl.packets" })] rfl).1 rfl).2
      (toBeAddedAclStat sampleUpdater 10 "acl" [0, 1]) rfl rfl rfl,
    by decide⟩

end BcmStatUpdater

/-! ## Assertions and the order of the batch -/

/-- How a call of `updateLoadBalancers` ends, told from the batch: with an
error exactly for a batch with a repeated ID, with `nullptr` exactly for a
batch without one that changes nothing, and with the map that the loop built
otherwise. -/
theorem update_class (gds : LoadBalancerID → MacAddress → Nat)
    (self : LoadBalancerConfigApplier) (s : Store) (m : LoadBalancerMap)
    (hv : ValidOriginal s self.originalLoadBalancers_ m) :
    ((∃ e, (updateLoadBalancers gds self s).1 = .error e) ↔
      ¬ (self.loadBalancersConfig_.map (·.id)).Nodup) ∧
    (∀ e, (updateLoadBalancers gds self s).1 = .error e →
      ∃ id, e = .fbossError (duplicateMessage id)) ∧
    ((updateLoadBalancers gds self s).1 = .ok none ↔
      (self.loadBalancersConfig_.map (·.id)).Nodup ∧
      NothingChanged gds self.platform_ s m self.loadBalancersConfig_) ∧
    (∀ a, (updateLoadBalancers gds self s).1 = .ok (some a) →
      ∃ l s1, LoopInv gds self.platform_ s m self.loadBalancersConfig_ l s1 ∧
        a = s.loadBalancerMaps.length ∧
        (updateLoadBalancers gds self s).2 =
          { loadBalancers := s1.loadBalancers,
            loadBalancerMaps :=
              s.loadBalancerMaps ++ [{ nodes := l.newLoadBalancers, published := false }] }) := by
  rcases update_cases gds self s m hv with
    ⟨mid, d, post, hB, hmid, hd, hres⟩ | ⟨hnd, l, s1, hinv, ⟨hc, hres⟩ | ⟨hc, hres⟩⟩
  · have hnn : ¬ (self.loadBalancersConfig_.map (·.id)).Nodup := not_nodup_of_dup hB hd
    rw [hres]
    refine ⟨⟨fun _ => hnn, fun _ => ⟨_, rfl⟩⟩, fun e he => ⟨d.id, ?_⟩,
      ⟨fun h => (by cases h), fun h => absurd h.1 hnn⟩, fun a h => (by cases h)⟩
    cases he
    rfl
  · rw [hres]
    exact ⟨⟨fun ⟨e, he⟩ => (by cases he), fun h => absurd hnd h⟩, fun e he => (by cases he),
      ⟨fun _ => ⟨hnd, hc⟩, fun _ => rfl⟩, fun a h => (by cases h)⟩
  · rw [hres]
    refine ⟨⟨fun ⟨e, he⟩ => (by cases he), fun h => absurd hnd h⟩, fun e he => (by cases he),
      ⟨fun h => (by cases h), fun h => absurd h.2 hc⟩, fun a h => ?_⟩
    cases h
    exact ⟨l, s1, hinv, rfl, rfl⟩

/-- C25. The assertions of `updateLoadBalancers` hold, whatever the original
map and the batch: the call never ends by a failed `CHECK`; in particular no
iteration of the loop fails the `CHECK(inserted)` of
`appendToLoadBalancerContainer`, since the loop stops at a repeated ID with
the error before the insert; and when the loop has run to its end,
`numExistingProcessed` does not exceed the size of the original map, so that
`CHECK_LT`, reached only when the two differ, compares values of which the
first is strictly smaller. -/
theorem updateLoadBalancers_checks_hold (gds : LoadBalancerID → MacAddress → Nat)
    (self : LoadBalancerConfigApplier) (s : Store) (m : LoadBalancerMap)
    (hv : ValidOriginal s self.originalLoadBalancers_ m) :
    (updateLoadBalancers gds self s).1 ≠ .error .checkFailed ∧
    (loop gds self self.loadBalancersConfig_
      { newLoadBalancers := [], changed := false, loadBalancerIDs := [],
        numExistingProcessed := 0 } s).1 ≠ .error .checkFailed ∧
    (∀ l s1, loop gds self self.loadBalancersConfig_
        { newLoadBalancers := [], changed := false, loadBalancerIDs := [],
          numExistingProcessed := 0 } s = (.ok l, s1) →
      l.numExistingProcessed ≤ m.size ∧
      (l.numExistingProcessed ≠ m.size → l.numExistingProcessed < m.size)) := by
  refine ⟨?_, ?_, fun l s1 hloop => ?_⟩
  · intro h
    obtain ⟨id, hid⟩ := (update_class gds self s m hv).2.1 _ h
    cases hid
  · by_cases hnd : (self.loadBalancersConfig_.map (·.id)).Nodup
    · obtain ⟨l, s1, hl, -⟩ := loop_ok gds self s m hv self.loadBalancersConfig_ [] _ s
        (loopInv_init gds self.platform_ s m) (by simpa using hnd)
      rw [hl]
      intro h; cases h
    · obtain ⟨mid, d, post, hB, hmid, hd⟩ :=
        exists_first_dup self.loadBalancersConfig_ [] List.nodup_nil (by simpa using hnd)
      obtain ⟨s2, h2, -, -⟩ := loop_dup gds self s m hv mid d post
        (by simpa using hmid) (by simpa using hd)
      rw [hB, h2]
      intro h; cases h
  · obtain ⟨hnd, hinv⟩ := loop_ok_inv gds self s m hv l s1 hloop
    obtain ⟨hle, -⟩ := count_existing m self.loadBalancersConfig_ hv.keys_sorted hnd
    rw [← hinv.num] at hle
    exact ⟨hle, fun hne => lt_of_le_of_ne hle hne⟩

theorem updateLoadBalancers_checks_hold_witness :
    ValidOriginal sampleStore 0 sampleMap ∧
    (updateLoadBalancers sampleSeed (sampleApplier [sampleAggregate, sampleEcmp, sampleAggregate])
      sampleStore).1 ≠ .error .checkFailed ∧
    (updateLoadBalancers sampleSeed (sampleApplier [sampleAggregate])
      sampleStore).1 ≠ .error .checkFailed :=
  ⟨sampleValid,
    (updateLoadBalancers_checks_hold sampleSeed
      (sampleApplier [sampleAggregate, sampleEcmp, sampleAggregate]) sampleStore sampleMap
      sampleValid).1,
    (updateLoadBalancers_checks_hold sampleSeed (sampleApplier [sampleAggregate]) sampleStore
      sampleMap sampleValid).1⟩

theorem nothingChanged_perm (gds : LoadBalancerID → MacAddress → Nat) (pf : Platform)
    (s : Store) (m : LoadBalancerMap) {B B2 : List CfgLoadBalancer} (hp : B2.Perm B) :
    NothingChanged gds pf s m B2 ↔ NothingChanged gds pf s m B := by
  unfold NothingChanged
  have hids : ∀ k, k ∈ B2.map (·.id) ↔ k ∈ B.map (·.id) := fun k => (hp.map _).mem_iff
  constructor
  · rintro ⟨h1, h2⟩
    exact ⟨fun k hk => (hids k).mp (h1 k hk), fun c hc => h2 c (hp.mem_iff.mpr hc)⟩
  · rintro ⟨h1, h2⟩
    exact ⟨fun k hk => (hids k).mpr (h1 k hk), fun c hc => h2 c (hp.mem_iff.mp hc)⟩

/-- What a built map holds under a key: the address of an original node, which
existed before the call, or the address of a candidate that the call made for
a record with that ID, where the node parsed from that record is. -/
theorem LoopInv.find_cases {gds : LoadBalancerID → MacAddress → Nat} {pf : Platform}
    {s : Store} {m : LoadBalancerMap} {B : List CfgLoadBalancer} {l : Locals} {s1 : Store}
    (hinv : LoopInv gds pf s m B l s1) {orig : Addr} (hv : ValidOriginal s orig m)
    (k : LoadBalancerID) (x : Addr) (hfind : FlatMap.find k l.newLoadBalancers = some x) :
    ∃ c ∈ B, c.id = k ∧
      ((reusedNode s m (parsedNode gds pf c) = some x ∧ x < s.loadBalancers.length) ∨
       (reusedNode s m (parsedNode gds pf c) = none ∧ s.loadBalancers.length ≤ x ∧
        s1.loadBalancers[x]? = some (parsedNode gds pf c))) := by
  have hk : k ∈ l.newLoadBalancers.map Prod.fst := by
    by_contra hn
    rw [(FlatMap.find_eq_none k _).mpr hn] at hfind
    cases hfind
  rw [hinv.keys, hinv.ids] at hk
  obtain ⟨c, hc, rfl⟩ := List.mem_map.mp hk
  obtain ⟨p1, p2, hp⟩ := List.append_of_mem hc
  have he := hinv.entries p1 c p2 hp
  rw [hfind] at he
  refine ⟨c, hc, rfl, ?_⟩
  cases hr : reusedNode s m (parsedNode gds pf c) with
  | some a =>
    rw [hr] at he
    simp only [Option.getD_some, Option.some.injEq] at he
    subst he
    exact Or.inl ⟨rfl, reusedNode_lt hv hr⟩
  | none =>
    rw [hr] at he
    simp only [Option.getD_none, Option.some.injEq] at he
    subst he
    exact Or.inr ⟨rfl, Nat.le_add_right _ _, (hinv.entry_deref hv p1 c p2 hp).2⟩

/-- C21. Order independence of the batch: for a permutation of the batch,
`updateLoadBalancers` fails if and only if it fails for the batch, returns
`nullptr` if and only if it does so for the batch, and otherwise both calls
return maps with the same keys, in the same order, in which under every key
either both hold the same original node or both hold new nodes, made by the
respective call, with the same value. -/
theorem updateLoadBalancers_perm (gds : LoadBalancerID → MacAddress → Nat)
    (self : LoadBalancerConfigApplier) (s : Store) (m : LoadBalancerMap)
    (hv : ValidOriginal s self.originalLoadBalancers_ m)
    (batch2 : List CfgLoadBalancer) (hperm : batch2.Perm self.loadBalancersConfig_) :
    ((∃ e, (updateLoadBalancers gds { self with loadBalancersConfig_ := batch2 } s).1 =
        .error e) ↔
      ∃ e, (updateLoadBalancers gds self s).1 = .error e) ∧
    ((updateLoadBalancers gds { self with loadBalancersConfig_ := batch2 } s).1 = .ok none ↔
      (updateLoadBalancers gds self s).1 = .ok none) ∧
    (∀ a, (updateLoadBalancers gds self s).1 = .ok (some a) →
      ∃ a2 m1 m2,
        (updateLoadBalancers gds { self with loadBalancersConfig_ := batch2 } s).1 =
          .ok (some a2) ∧
        (updateLoadBalancers gds self s).2.loadBalancerMaps[a]? = some m1 ∧
        (updateLoadBalancers gds { self with loadBalancersConfig_ := batch2 }
          s).2.loadBalancerMaps[a2]? = some m2 ∧
        m2.nodes.map Prod.fst = m1.nodes.map Prod.fst ∧
        ∀ k x, m1.getLoadBalancerIf k = some x →
          ∃ x2, m2.getLoadBalancerIf k = some x2 ∧
            ((x < s.loadBalancers.length ∧ x2 = x) ∨
             (s.loadBalancers.length ≤ x ∧ s.loadBalancers.length ≤ x2 ∧
              ∃ v, (updateLoadBalancers gds self s).2.loadBalancers[x]? = some v ∧
                (updateLoadBalancers gds { self with loadBalancersConfig_ := batch2 }
                  s).2.loadBalancers[x2]? = some v))) := by
  have hv2 : ValidOriginal s
      ({ self with loadBalancersConfig_ := batch2 } :
        LoadBalancerConfigApplier).originalLoadBalancers_ m := hv
  obtain ⟨he1, -, hn1, hs1⟩ := update_class gds self s m hv
  obtain ⟨he2, -, hn2, hs2⟩ :=
    update_class gds { self with loadBalancersConfig_ := batch2 } s m hv2
  simp only at he2 hn2 hs2
  have hnd : (batch2.map (·.id)).Nodup ↔ (self.loadBalancersConfig_.map (·.id)).Nodup :=
    (hperm.map _).nodup_iff
  have hnc := nothingChanged_perm gds self.platform_ s m hperm
  have herr : (∃ e, (updateLoadBalancers gds { self with loadBalancersConfig_ := batch2 } s).1 =
      .error e) ↔ ∃ e, (updateLoadBalancers gds self s).1 = .error e := by
    rw [he1, he2, hnd]
  have hnone : (updateLoadBalancers gds { self with loadBalancersConfig_ := batch2 } s).1 =
      .ok none ↔ (updateLoadBalancers gds self s).1 = .ok none := by
    rw [hn1, hn2, hnd, hnc]
  refine ⟨herr, hnone, fun a ha => ?_⟩
  obtain ⟨l, s1, hinv, ha1eq, hst⟩ := hs1 a ha
  have ha2 : ∃ a2, (updateLoadBalancers gds { self with loadBalancersConfig_ := batch2 } s).1 =
      .ok (some a2) := by
    cases hr : (updateLoadBalancers gds { self with loadBalancersConfig_ := batch2 } s).1 with
    | error e =>
      obtain ⟨e', he'⟩ := herr.mp ⟨e, hr⟩
      rw [ha] at he'
      cases he'
    | ok o =>
      cases o with
      | none =>
        have := hnone.mp hr
        rw [ha] at this
        cases this
      | some a2 => exact ⟨a2, rfl⟩
  obtain ⟨a2, ha2⟩ := ha2
  obtain ⟨l2, s2, hinv2, ha2eq, hst2⟩ := hs2 a2 ha2
  have hkeys : l2.newLoadBalancers.map Prod.fst = l.newLoadBalancers.map Prod.fst := by
    refine List.eq_of_perm_of_sorted ?_ (hinv2.keys ▸ hinv2.sorted) (hinv.keys ▸ hinv.sorted)
    exact (hinv2.keys_perm.trans (hperm.map _)).trans hinv.keys_perm.symm
  refine ⟨a2, { nodes := l.newLoadBalancers, published := false },
    { nodes := l2.newLoadBalancers, published := false }, ha2, ?_, ?_, hkeys, ?_⟩
  · rw [hst, ha1eq]; simp
  · rw [hst2, ha2eq]; simp
  · intro k x hfind
    obtain ⟨c, hc, hck, hcase⟩ := hinv.find_cases hv k x hfind
    have hc2 : c ∈ batch2 := hperm.mem_iff.mpr hc
    obtain ⟨p1, p2, hp⟩ := List.append_of_mem hc2
    have he2' := hinv2.entries p1 c p2 hp
    rw [hck] at he2'
    rcases hcase with ⟨hr, hlt⟩ | ⟨hr, hle, hval⟩
    · rw [hr] at he2'
      exact ⟨x, he2', Or.inl ⟨hlt, rfl⟩⟩
    · rw [hr] at he2'
      refine ⟨_, he2', Or.inr ⟨hle, Nat.le_add_right _ _, parsedNode gds self.platform_ c, ?_, ?_⟩⟩
      · rw [hst]; exact hval
      · rw [hst2]; exact (hinv2.entry_deref hv p1 c p2 hp).2

theorem updateLoadBalancers_perm_witness :
    ValidOriginal sampleStore 0 sampleMap ∧
    [sampleAggregate, sampleEcmp].Perm [sampleEcmp, sampleAggregate] ∧
    (updateLoadBalancers sampleSeed (sampleApplier [sampleEcmp, sampleAggregate])
      sampleStore).2.loadBalancerMaps[1]? =
        some { nodes := [(1, 0), (2, 2)], published := false } ∧
    (updateLoadBalancers sampleSeed (sampleApplier [sampleAggregate, sampleEcmp])
      sampleStore).2.loadBalancerMaps[1]? =
        some { nodes := [(1, 0), (2, 1)], published := false } ∧
    ((updateLoadBalancers sampleSeed (sampleApplier [sampleAggregate, sampleEcmp])
        sampleStore).1 = .ok none ↔
      (updateLoadBalancers sampleSeed (sampleApplier [sampleEcmp, sampleAggregate])
        sampleStore).1 = .ok none) :=
  ⟨sampleValid, List.Perm.swap _ _ _, by decide, by decide,
    (updateLoadBalancers_perm sampleSeed (sampleApplier [sampleEcmp, sampleAggregate])
      sampleStore sampleMap sampleValid [sampleAggregate, sampleEcmp]
      (List.Perm.swap _ _ _)).2.1⟩

/-! ## The state after a refresh -/

namespace BcmStatUpdater

/-- A loop that fails has gone through the intents before the failing one,
and leaves the failing intent at the head of the queue, where the loop fails
again. -/
theorem refreshRouteCountersLoop_error (q : List BcmRouteCounterAction)
    (stats : Table BcmRouteCounterID MonotonicCounter) (e : Fault)
    (rest : List BcmRouteCounterAction) (stats1 : Table BcmRouteCounterID MonotonicCounter)
    (h : refreshRouteCountersLoop q stats = (.error e, rest, stats1)) :
    ∃ pre a post, q = pre ++ a :: post ∧
      refreshRouteCountersLoop pre stats = (.ok (), [], stats1) ∧
      rest = a :: post ∧
      refreshRouteCountersLoop (a :: post) stats1 = (.error e, a :: post, stats1) := by
  induction q generalizing stats with
  | nil => simp [refreshRouteCountersLoop] at h
  | cons b q ih =>
    by_cases ha : b.addCounter = true <;>
      by_cases hf : (Table.find b.id stats).isSome = true
    · have hb : refreshRouteCountersLoop (b :: q) stats =
          (.error (duplicateRouteStat b.id), b :: q, stats) := by
        simp only [refreshRouteCountersLoop, ha, hf, if_true]
      rw [hb] at h
      simp only [Prod.mk.injEq, Except.error.injEq] at h
      obtain ⟨rfl, rfl, rfl⟩ := h
      exact ⟨[], b, q, rfl, rfl, rfl, hb⟩
    · have hb : refreshRouteCountersLoop (b :: q) stats =
          refreshRouteCountersLoop q (Table.assign b.id { name := b.routeStatName } stats) := by
        simp only [refreshRouteCountersLoop, ha, hf, if_true, Bool.false_eq_true, if_false]
      rw [hb] at h
      obtain ⟨pre, a, post, hq, hpre, hrest, hagain⟩ := ih _ h
      refine ⟨b :: pre, a, post, by simp [hq], ?_, hrest, hagain⟩
      simp only [refreshRouteCountersLoop, ha, hf, if_true, Bool.false_eq_true, if_false, hpre]
    · have hb : refreshRouteCountersLoop (b :: q) stats =
          refreshRouteCountersLoop q (Table.erase b.id stats) := by
        simp only [refreshRouteCountersLoop, ha, hf, if_true, Bool.false_eq_true, if_false]
      rw [hb] at h
      obtain ⟨pre, a, post, hq, hpre, hrest, hagain⟩ := ih _ h
      refine ⟨b :: pre, a, post, by simp [hq], ?_, hrest, hagain⟩
      simp only [refreshRouteCountersLoop, ha, hf, if_true, Bool.false_eq_true, if_false, hpre]
    · have hb : refreshRouteCountersLoop (b :: q) stats =
          (.error (unknownRouteStat b.id), b :: q, stats) := by
        simp only [refreshRouteCountersLoop, ha, hf, Bool.false_eq_true, if_false]
      rw [hb] at h
      simp only [Prod.mk.injEq, Except.error.injEq] at h
      obtain ⟨rfl, rfl, rfl⟩ := h
      exact ⟨[], b, q, rfl, rfl, rfl, hb⟩

/-- C28. The state after a failed drain of the queue of route counters: when
`refreshRouteCounters` fails, the queue splits at the failing intent; the
intents before it have been applied to the collection, which is the one that a
drain of just those intents gives, and are gone from the queue; the failing
intent and those after it are the queue, the failing one at the head, and
nothing else has changed. A second call at once, with no new intent, fails
with the same error and changes nothing. -/
theorem refreshRouteCounters_failed_state (u : BcmStatUpdater) (e : Fault)
    (hfail : (refreshRouteCounters u).1 = .error e) :
    ∃ pre a post, u.toBeProcessedRouteCounters_ = pre ++ a :: post ∧
      refreshRouteCounters { u with toBeProcessedRouteCounters_ := pre } =
        (.ok (), { u with toBeProcessedRouteCounters_ := [],
                          routeStats_ := (refreshRouteCounters u).2.routeStats_ }) ∧
      (refreshRouteCounters u).2 =
        { u with toBeProcessedRouteCounters_ := a :: post,
                 routeStats_ := (refreshRouteCounters u).2.routeStats_ } ∧
      refreshRouteCounters (refreshRouteCounters u).2 =
        (.error e, (refreshRouteCounters u).2) := by
  rw [refreshRouteCounters_eq_loop] at hfail
  simp only at hfail
  rcases hr : refreshRouteCountersLoop u.toBeProcessedRouteCounters_ u.routeStats_ with
    ⟨r, rest, stats1⟩
  rw [hr] at hfail
  simp only at hfail
  subst hfail
  obtain ⟨pre, a, post, hq, hpre, hrest, hagain⟩ :=
    refreshRouteCountersLoop_error _ _ _ _ _ hr
  subst hrest
  refine ⟨pre, a, post, hq, ?_, ?_, ?_⟩
  · rw [refreshRouteCounters_eq_loop, refreshRouteCounters_eq_loop u, hr]
    simp only [hpre]
  · rw [refreshRouteCounters_eq_loop u, hr]
  · rw [refreshRouteCounters_eq_loop u, hr]
    simp only
    rw [refreshRouteCounters_eq_loop]
    simp only [hagain]

theorem refreshRouteCounters_failed_state_witness :
    (refreshRouteCounters { sampleUpdater with toBeProcessedRouteCounters_ :=
        [{ id := 2, routeStatName := "route2", addCounter := true },
         { id := 7, routeStatName := "", addCounter := false },
         { id := 1, routeStatName := "", addCounter := false }] }) =
      (.error (unknownRouteStat 7),
        { sampleUpdater with
          toBeProcessedRouteCounters_ :=
            [{ id := 7, routeStatName := "", addCounter := false },
             { id := 1, routeStatName := "", addCounter := false }],
          routeStats_ := [(1, { name := "route1" }), (2, { name := "route2" })] }) ∧
    ∃ pre a post,
      ({ sampleUpdater with toBeProcessedRouteCounters_ :=
        [{ id := 2, routeStatName := "route2", addCounter := true },
         { id := 7, routeStatName := "", addCounter := false },
         { id := 1, routeStatName := "", addCounter := false }] } :
          BcmStatUpdater).toBeProcessedRouteCounters_ = pre ++ a :: post ∧
      (refreshRouteCounters { sampleUpdater with toBeProcessedRouteCounters_ :=
        [{ id := 2, routeStatName := "route2", addCounter := true },
         { id := 7, routeStatName := "", addCounter := false },
         { id := 1, routeStatName := "", addCounter := false }] }).2.toBeProcessedRouteCounters_ =
        a :: post :=
  ⟨by decide,
    (refreshRouteCounters_failed_state { sampleUpdater with toBeProcessedRouteCounters_ :=
        [{ id := 2, routeStatName := "route2", addCounter := true },
         { id := 7, routeStatName := "", addCounter := false },
         { id := 1, routeStatName := "", addCounter := false }] } (unknownRouteStat 7)
      (by decide)).imp fun _ h => h.imp fun _ h => h.imp fun _ h =>
        ⟨h.1, by rw [h.2.2.1]⟩⟩

end BcmStatUpdater

namespace BcmStatUpdater

theorem toBeAddedAclStat_eq (u : BcmStatUpdater) (handle : BcmAclStatHandle)
    (aclStatName : String) (counterTypes : List CounterType) :
    toBeAddedAclStat u handle aclStatName counterTypes =
      { u with toBeAddedAclStats_ := u.toBeAddedAclStats_ ++
          counterTypes.map fun t => ({ handle := handle, aclStatName := aclStatName }, t) } := by
  unfold toBeAddedAclStat
  induction counterTypes generalizing u with
  | nil => simp
  | cons t ts ih =>
    simp only [List.foldl_cons, List.map_cons]
    rw [ih]
    simp

theorem Table.find_filter_ne {ν : Type} (h h' : BcmAclStatHandle)
    (stats : Table BcmAclStatHandle ν) :
    Table.find h (stats.filter fun itr => decide (itr.1 ≠ h')) =
      if h = h' then none else Table.find h stats := by
  induction stats with
  | nil => simp [Table.find]
  | cons e es ih =>
    by_cases h1 : e.1 = h'
    · have : (List.filter (fun itr => decide (itr.1 ≠ h')) (e :: es)) =
          List.filter (fun itr => decide (itr.1 ≠ h')) es := by
        simp [List.filter, h1]
      rw [this, ih]
      by_cases h2 : h = h'
      · simp [h2]
      · have : ¬ e.1 = h := fun hh => h2 (hh.symm.trans h1)
        simp [h2, Table.find, this]
    · have : (List.filter (fun itr => decide (itr.1 ≠ h')) (e :: es)) =
          e :: List.filter (fun itr => decide (itr.1 ≠ h')) es := by
        simp [List.filter, h1]
      rw [this]
      simp only [Table.find, ih]
      by_cases h2 : e.1 = h
      · have : ¬ h = h' := fun hh => h1 (h2.trans hh)
        simp [h2, this]
      · simp [h2]

/-- The loop of removals takes out every handle of its queue, with all its
counter types, and leaves the other handles as they are. -/
theorem find_refreshAclStatsRemoveLoop (q : List BcmAclStatHandle)
    (stats : Table BcmAclStatHandle (Table CounterType MonotonicCounter))
    (h : BcmAclStatHandle) :
    Table.find h (refreshAclStatsRemoveLoop q stats) =
      if h ∈ q then none else Table.find h stats := by
  induction q generalizing stats with
  | nil => simp [refreshAclStatsRemoveLoop]
  | cons h' rest ih =>
    simp only [refreshAclStatsRemoveLoop, ih, Table.find_filter_ne, List.mem_cons]
    by_cases h1 : h = h'
    · simp [h1]
    · by_cases h2 : h ∈ rest
      · simp [h2]
      · simp [h1, h2]

/-- One iteration of the loop of additions, told by the counters that can be
looked up. -/
theorem refreshAclStatsAddLoop_cons (enumNameSafe : CounterType → String)
    (statNameFromCounterType : String → CounterType → String)
    (front : BcmAclStatDescriptor × CounterType)
    (rest : List (BcmAclStatDescriptor × CounterType))
    (stats : Table BcmAclStatHandle (Table CounterType MonotonicCounter)) :
    ((aclStatCounter stats front.1.handle front.2).isSome = true →
      refreshAclStatsAddLoop enumNameSafe statNameFromCounterType (front :: rest) stats =
        (.error (duplicateAclStat enumNameSafe front.1.handle front.2), front :: rest,
          stats)) ∧
    (aclStatCounter stats front.1.handle front.2 = none →
      ∃ stats1,
        refreshAclStatsAddLoop enumNameSafe statNameFromCounterType (front :: rest) stats =
          refreshAclStatsAddLoop enumNameSafe statNameFromCounterType rest stats1 ∧
        ∀ h t, aclStatCounter stats1 h t =
          if h = front.1.handle ∧ t = front.2 then
            some { name := statNameFromCounterType front.1.aclStatName front.2 }
          else aclStatCounter stats h t) := by
  unfold aclStatCounter
  cases hf : Table.find front.1.handle stats with
  | none =>
    refine ⟨fun h => (by simp at h), fun _ =>
      ⟨Table.assign front.1.handle
        (Table.assign front.2
          { name := statNameFromCounterType front.1.aclStatName front.2 } []) stats,
        ?_, fun h t => ?_⟩⟩
    · simp only [refreshAclStatsAddLoop, hf]
    · simp only [Table.find_assign]
      by_cases h1 : h = front.1.handle
      · subst h1
        by_cases h2 : t = front.2
        · simp [h2, Table.find_assign]
        · have h3 : ¬ front.2 = t := fun hh => h2 hh.symm
          simp [h2, h3, hf, Table.find, Table.find_assign]
      · simp [h1]
  | some counters =>
    refine ⟨fun h => ?_, fun hn =>
      ⟨Table.assign front.1.handle
        (Table.assign front.2
          { name := statNameFromCounterType front.1.aclStatName front.2 } counters) stats,
        ?_, fun h t => ?_⟩⟩
    · simp only at h
      simp only [refreshAclStatsAddLoop, hf, h, if_true]
    · simp only at hn
      simp only [refreshAclStatsAddLoop, hf, hn, Option.isSome_none, Bool.false_eq_true,
        if_false]
    · simp only [Table.find_assign]
      by_cases h1 : h = front.1.handle
      · subst h1
        by_cases h2 : t = front.2
        · simp [h2, Table.find_assign]
        · simp [h2, hf, Table.find_assign]
      · simp [h1]

/-- A loop of additions that goes through empties the queue, and the counters
that can be looked up afterwards are those from before and one for every
addition of the queue, named after the addition. -/
theorem refreshAclStatsAddLoop_ok (enumNameSafe : CounterType → String)
    (statNameFromCounterType : String → CounterType → String)
    (q : List (BcmAclStatDescriptor × CounterType))
    (stats : Table BcmAclStatHandle (Table CounterType MonotonicCounter))
    (hok : (refreshAclStatsAddLoop enumNameSafe statNameFromCounterType q stats).1 = .ok ()) :
    (refreshAclStatsAddLoop enumNameSafe statNameFromCounterType q stats).2.1 = [] ∧
    ∀ h t c,
      aclStatCounter (refreshAclStatsAddLoop enumNameSafe statNameFromCounterType q stats).2.2
          h t = some c ↔
        aclStatCounter stats h t = some c ∨
        ∃ d, (d, t) ∈ q ∧ d.handle = h ∧ c = { name := statNameFromCounterType d.aclStatName t } := by
  induction q generalizing stats with
  | nil => simp [refreshAclStatsAddLoop]
  | cons front rest ih =>
    obtain ⟨hdup, hnew⟩ := refreshAclStatsAddLoop_cons enumNameSafe statNameFromCounterType
      front rest stats
    cases hc : aclStatCounter stats front.1.handle front.2 with
    | some c0 =>
      rw [hdup (by simp [hc])] at hok
      cases hok
    | none =>
      obtain ⟨stats1, hstep, hlook⟩ := hnew hc
      rw [hstep] at hok ⊢
      obtain ⟨h1, h2⟩ := ih stats1 hok
      refine ⟨h1, fun h t c => ?_⟩
      rw [h2, hlook]
      constructor
      · rintro (hx | ⟨d, hd, hdh, hdc⟩)
        · by_cases hft : h = front.1.handle ∧ t = front.2
          · rw [if_pos hft] at hx
            obtain ⟨rfl, rfl⟩ := hft
            exact Or.inr ⟨front.1, List.mem_cons_self _ _, rfl, (Option.some.inj hx).symm⟩
          · rw [if_neg hft] at hx
            exact Or.inl hx
        · exact Or.inr ⟨d, List.mem_cons_of_mem _ hd, hdh, hdc⟩
      · rintro (hx | ⟨d, hd, hdh, hdc⟩)
        · have hft : ¬ (h = front.1.handle ∧ t = front.2) := by
            rintro ⟨rfl, rfl⟩
            rw [hc] at hx
            cases hx
          exact Or.inl (by rw [if_neg hft]; exact hx)
        · rcases List.mem_cons.mp hd with hd | hd
          · left
            have h1' : d = front.1 := congrArg Prod.fst hd
            have h2' : t = front.2 := congrArg Prod.snd hd
            subst h1'
            rw [if_pos ⟨hdh.symm, h2'⟩, hdc, h2']
          · exact Or.inr ⟨d, hd, hdh, hdc⟩

/-- C29. `refreshAclStats` applies the queued removals before the queued
additions, in whatever order the two were queued: after a refresh that
returns, a handle that was queued for removal has exactly the counter types
for which an addition of the handle was queued, each with the counter that the
addition names, and none of the counters it had; a handle that was not queued
for removal keeps its counters and gets those added; both queues are empty.
Queueing the removal of a handle before or after its additions gives the same
updater, and a removal takes out the handle with every counter type at
once. -/
theorem refreshAclStats_removals_first (enumNameSafe : CounterType → String)
    (statNameFromCounterType : String → CounterType → String) (u : BcmStatUpdater)
    (hok : (refreshAclStats enumNameSafe statNameFromCounterType u).1 = .ok ()) :
    (∀ h ∈ u.toBeRemovedAclStats_, ∀ t c,
      getAclStatCounterIf (refreshAclStats enumNameSafe statNameFromCounterType u).2 h t =
          some c ↔
        ∃ d, (d, t) ∈ u.toBeAddedAclStats_ ∧ d.handle = h ∧
          c = { name := statNameFromCounterType d.aclStatName t }) ∧
    (∀ h, h ∉ u.toBeRemovedAclStats_ → ∀ t c,
      getAclStatCounterIf (refreshAclStats enumNameSafe statNameFromCounterType u).2 h t =
          some c ↔
        getAclStatCounterIf u h t = some c ∨
        ∃ d, (d, t) ∈ u.toBeAddedAclStats_ ∧ d.handle = h ∧
          c = { name := statNameFromCounterType d.aclStatName t }) ∧
    (refreshAclStats enumNameSafe statNameFromCounterType u).2.toBeRemovedAclStats_ = [] ∧
    (refreshAclStats enumNameSafe statNameFromCounterType u).2.toBeAddedAclStats_ = [] ∧
    (∀ (v : BcmStatUpdater) (h : BcmAclStatHandle) (name : String) (types : List CounterType),
      toBeRemovedAclStat (toBeAddedAclStat v h name types) h =
        toBeAddedAclStat (toBeRemovedAclStat v h) h name types) ∧
    (∀ (h : BcmAclStatHandle)
        (stats : Table BcmAclStatHandle (Table CounterType MonotonicCounter)),
      Table.find h (refreshAclStatsRemoveLoop [h] stats) = none ∧
      ∀ h2, h2 ≠ h → Table.find h2 (refreshAclStatsRemoveLoop [h] stats) = Table.find h2 stats) := by
  rw [refreshAclStats_eq_loops] at hok ⊢
  simp only at hok ⊢
  obtain ⟨hq, hlook⟩ := refreshAclStatsAddLoop_ok _ _ _ _ hok
  have hrem : ∀ h t, aclStatCounter
      (refreshAclStatsRemoveLoop u.toBeRemovedAclStats_ u.aclStats_) h t =
        if h ∈ u.toBeRemovedAclStats_ then none else aclStatCounter u.aclStats_ h t := by
    intro h t
    unfold aclStatCounter
    rw [find_refreshAclStatsRemoveLoop]
    by_cases hm : h ∈ u.toBeRemovedAclStats_ <;> simp [hm]
  refine ⟨fun h hm t c => ?_, fun h hm t c => ?_, trivial, hq, fun v h name types => ?_,
    fun h stats => ⟨?_, fun h2 hne => ?_⟩⟩
  · unfold getAclStatCounterIf
    simp only
    rw [hlook, hrem, if_pos hm]
    simp
  · unfold getAclStatCounterIf
    simp only
    rw [hlook, hrem, if_neg hm]
  · rw [toBeAddedAclStat_eq, toBeAddedAclStat_eq]
    rfl
  · rw [find_refreshAclStatsRemoveLoop]; simp
  · rw [find_refreshAclStatsRemoveLoop]; simp [hne]

theorem refreshAclStats_removals_first_witness :
    refreshAclStats sampleEnumName sampleStatName
        (toBeRemovedAclStat (toBeAddedAclStat sampleUpdater 10 "new" [1]) 10) =
      (.ok (), { sampleUpdater with aclStats_ := [(10, [(1, { name := "new.bytes" })])] }) ∧
    (∀ h ∈ (toBeRemovedAclStat (toBeAddedAclStat sampleUpdater 10 "new" [1])
        10).toBeRemovedAclStats_, ∀ t c,
      getAclStatCounterIf (refreshAclStats sampleEnumName sampleStatName
          (toBeRemovedAclStat (toBeAddedAclStat sampleUpdater 10 "new" [1]) 10)).2 h t =
          some c ↔
        ∃ d, (d, t) ∈ (toBeRemovedAclStat (toBeAddedAclStat sampleUpdater 10 "new" [1])
            10).toBeAddedAclStats_ ∧ d.handle = h ∧
          c = { name := sampleStatName d.aclStatName t }) :=
  ⟨by decide,
    (refreshAclStats_removals_first sampleEnumName sampleStatName
      (toBeRemovedAclStat (toBeAddedAclStat sampleUpdater 10 "new" [1]) 10) (by decide)).1⟩

end BcmStatUpdater

/-! ## The firmware upgrade helper and the waits of the tests -/

namespace FirmwareUpgradeHelper

/-- C23. `checkCmdStatus` throws if and only if the exit status is negative
or does not denote a normal exit, `WIFEXITED` being false, which is to say
that the low seven bits are not all zero; for every status of a normal exit it
returns, whatever the exit code in the bits above is. -/
theorem checkCmdStatus_throws_iff (errnoStr cmd : String) (exitStatus : Int) :
    ((∃ msg, checkCmdStatus errnoStr cmd exitStatus = .error msg) ↔
      exitStatus < 0 ∨ WIFEXITED exitStatus = false) ∧
    (WIFEXITED exitStatus = false ↔ exitStatus % 128 ≠ 0) ∧
    (0 ≤ exitStatus → WIFEXITED exitStatus = true →
      checkCmdStatus errnoStr cmd exitStatus = .ok ()) ∧
    (∀ code : Int, 0 ≤ code → code < 256 →
      WEXITSTATUS (code * 256) = code ∧
      checkCmdStatus errnoStr cmd (code * 256) = .ok ()) := by
  have hbits : WIFEXITED exitStatus = false ↔ exitStatus % 128 ≠ 0 := by
    simp [WIFEXITED, WTERMSIG]
  refine ⟨?_, hbits, fun h0 h1 => ?_, fun code h0 h1 => ⟨?_, ?_⟩⟩
  · unfold checkCmdStatus
    by_cases hneg : exitStatus < 0
    · simp [hneg]
    · by_cases hw : WIFEXITED exitStatus = true
      · simp [hneg, hw]
      · have hw' : WIFEXITED exitStatus = false := by simpa using hw
        simp [hneg, hw']
  · unfold checkCmdStatus
    simp [not_lt.mpr h0, h1]
  · unfold WEXITSTATUS
    rw [Int.mul_ediv_cancel _ (by norm_num : (256 : Int) ≠ 0), Int.emod_eq_of_lt h0 h1]
  · have hnn : ¬ code * 256 < 0 := by omega
    have hw : WIFEXITED (code * 256) = true := by
      simp only [WIFEXITED, WTERMSIG, beq_iff_eq]
      omega
    unfold checkCmdStatus
    simp [hnn, hw]

end FirmwareUpgradeHelper

namespace HwTestUtils

/-- The loop of `waitPortStatsCondition` from the snapshot `k` on, when the
snapshots before it were tested. -/
theorem waitPortStatsConditionLoop_spec (conditionFn : Table PortID HwPortStats → Bool)
    (portIds : List PortID) (getHwPortStats : Nat → List PortID → Table PortID HwPortStats)
    (retries k : Nat) :
    ((waitPortStatsConditionLoop conditionFn portIds getHwPortStats retries k
        (List.range k)).result = true →
      ∃ j, k ≤ j ∧ j < k + retries ∧ conditionFn (getHwPortStats j portIds) = true ∧
        (∀ i, k ≤ i → i < j → conditionFn (getHwPortStats i portIds) = false) ∧
        waitPortStatsConditionLoop conditionFn portIds getHwPortStats retries k (List.range k) =
          { result := true, fetches := j + 1, tested := List.range (j + 1) }) ∧
    ((waitPortStatsConditionLoop conditionFn portIds getHwPortStats retries k
        (List.range k)).result = false →
      (∀ i, k ≤ i → i < k + retries → conditionFn (getHwPortStats i portIds) = false) ∧
      waitPortStatsConditionLoop conditionFn portIds getHwPortStats retries k (List.range k) =
        { result := false, fetches := k + retries + 1, tested := List.range (k + retries) }) := by
  induction retries generalizing k with
  | zero =>
    simp only [waitPortStatsConditionLoop, Nat.add_zero]
    exact ⟨fun h => (by cases h), fun _ => ⟨fun i h1 h2 => absurd h1 (by omega), trivial⟩⟩
  | succ r ih =>
    simp only [waitPortStatsConditionLoop]
    by_cases hc : conditionFn (getHwPortStats k portIds) = true
    · simp only [hc, if_true]
      refine ⟨fun _ => ⟨k, le_refl _, by omega, hc, fun i h1 h2 => absurd h1 (by omega), ?_⟩,
        fun h => (by cases h)⟩
      rw [List.range_succ]
    · have hc' : conditionFn (getHwPortStats k portIds) = false := by simpa using hc
      simp only [hc', Bool.false_eq_true, if_false, ← List.range_succ]
      obtain ⟨ih1, ih2⟩ := ih (k + 1)
      refine ⟨fun h => ?_, fun h => ?_⟩
      · obtain ⟨j, hj1, hj2, hj3, hj4, hj5⟩ := ih1 h
        refine ⟨j, by omega, by omega, hj3, fun i h1 h2 => ?_, hj5⟩
        by_cases hik : i = k
        · rw [hik]; exact hc'
        · exact hj4 i (by omega) h2
      · obtain ⟨h1, h2⟩ := ih2 h
        refine ⟨fun i hi1 hi2 => ?_, ?_⟩
        · by_cases hik : i = k
          · rw [hik]; exact hc'
          · exact h1 i (by omega) (by omega)
        · rw [h2]
          have : k + 1 + r = k + (r + 1) := by omega
          rw [this]

/-- C26. `waitPortStatsCondition` ends after at most `retries` evaluations of
the condition, and returns true if and only if the condition holds on one of
the first `retries` snapshots; with no retry it returns false and evaluates
nothing; when it returns true at the check number `k`, from 0, the first on
which the condition holds, it has fetched stats `k + 1` times; when it returns
false it has fetched `retries + 1` times and tested the first `retries`
snapshots, not the last one fetched. -/
theorem waitPortStatsCondition_spec (conditionFn : Table PortID HwPortStats → Bool)
    (portIds : List PortID) (retries : Nat)
    (getHwPortStats : Nat → List PortID → Table PortID HwPortStats) :
    (waitPortStatsCondition conditionFn portIds retries getHwPortStats).tested.length ≤
      retries ∧
    ((waitPortStatsCondition conditionFn portIds retries getHwPortStats).result = true ↔
      ∃ k, k < retries ∧ conditionFn (getHwPortStats k portIds) = true) ∧
    (retries = 0 →
      waitPortStatsCondition conditionFn portIds retries getHwPortStats =
        { result := false, fetches := 1, tested := [] }) ∧
    ((waitPortStatsCondition conditionFn portIds retries getHwPortStats).result = true →
      ∃ k, k < retries ∧ conditionFn (getHwPortStats k portIds) = true ∧
        (∀ i, i < k → conditionFn (getHwPortStats i portIds) = false) ∧
        waitPortStatsCondition conditionFn portIds retries getHwPortStats =
          { result := true, fetches := k + 1, tested := List.range (k + 1) }) ∧
    ((waitPortStatsCondition conditionFn portIds retries getHwPortStats).result = false →
      waitPortStatsCondition conditionFn portIds retries getHwPortStats =
        { result := false, fetches := retries + 1, tested := List.range retries } ∧
      retries ∉ (waitPortStatsCondition conditionFn portIds retries getHwPortStats).tested) := by
  obtain ⟨h1, h2⟩ := waitPortStatsConditionLoop_spec conditionFn portIds getHwPortStats retries 0
  simp only [List.range_zero, Nat.zero_add, Nat.zero_le, true_implies, true_and] at h1 h2
  have ht : ∀ k, k < retries → conditionFn (getHwPortStats k portIds) = true →
      (waitPortStatsCondition conditionFn portIds retries getHwPortStats).result = true := by
    intro k hk hc
    by_contra hr
    have hr' : (waitPortStatsConditionLoop conditionFn portIds getHwPortStats retries 0
        []).result = false := by simpa [waitPortStatsCondition] using hr
    rw [(h2 hr').1 k hk] at hc
    cases hc
  unfold waitPortStatsCondition at ht ⊢
  refine ⟨?_, ⟨fun h => ?_, fun ⟨k, hk, hc⟩ => ht k hk hc⟩, fun h0 => ?_, fun h => ?_, fun h => ?_⟩
  · cases hr : (waitPortStatsConditionLoop conditionFn portIds getHwPortStats retries 0
        []).result with
    | true =>
      obtain ⟨j, hj, -, -, heq⟩ := h1 hr
      rw [heq]
      simp only [List.length_range]
      omega
    | false =>
      rw [(h2 hr).2]
      simp
  · obtain ⟨j, hj, hc, -, -⟩ := h1 h
    exact ⟨j, hj, hc⟩
  · subst h0
    rfl
  · obtain ⟨j, hj, hc, hmin, heq⟩ := h1 h
    exact ⟨j, hj, hc, hmin, heq⟩
  · refine ⟨(h2 h).2, ?_⟩
    rw [(h2 h).2]
    simp

end HwTestUtils

namespace HwTestUtils

theorem anyQueueIncrement_of_defined (newQueueStats : Table Int Int) (qs : List (Int × Int))
    (hdef : ∀ q ∈ qs, (Table.find q.1 newQueueStats).isSome = true) :
    ∃ b, anyQueueIncrement newQueueStats qs = some b ∧
      (b = true ↔ ∃ q ∈ qs, ∃ nb, Table.find q.1 newQueueStats = some nb ∧ nb > q.2) := by
  induction qs with
  | nil => exact ⟨false, rfl, by simp⟩
  | cons q rest ih =>
    obtain ⟨nb, hnb⟩ := Option.isSome_iff_exists.mp (hdef q (List.mem_cons_self _ _))
    obtain ⟨b, hb, hiff⟩ := ih fun q' hq' => hdef q' (List.mem_cons_of_mem _ hq')
    by_cases hgt : nb > q.2
    · refine ⟨true, by simp [anyQueueIncrement, hnb, hgt], ?_⟩
      simp only [true_iff]
      exact ⟨q, List.mem_cons_self _ _, nb, hnb, hgt⟩
    · refine ⟨b, by simp [anyQueueIncrement, hnb, hgt, hb], ?_⟩
      rw [hiff]
      constructor
      · rintro ⟨q', hq', h⟩
        exact ⟨q', List.mem_cons_of_mem _ hq', h⟩
      · rintro ⟨q', hq', nb', h1, h2⟩
        rcases List.mem_cons.mp hq' with rfl | hq'
        · rw [hnb] at h1
          cases h1
          exact absurd h2 hgt
        · exact ⟨q', hq', nb', h1, h2⟩

/-- The condition of `waitForAnyPorAndQueutOutBytesIncrement` when every
lookup of a queue is defined: it has a value, and is true exactly when some
port of the original snapshot is in the new one with more `outBytes` and, if
queue stats are supported, with more bytes in some queue that the original
snapshot has for the port. A port that the new snapshot does not have does not
count. -/
theorem conditionFn_of_defined (originalPortStats : Table PortID HwPortStats)
    (queueStatsSupported : Bool) (newPortStats : Table PortID HwPortStats)
    (hdef : QueueLookupsDefined originalPortStats newPortStats) :
    ∃ b, conditionFn originalPortStats queueStatsSupported newPortStats = some b ∧
      (b = true ↔ ∃ p ∈ originalPortStats,
        PortIncremented queueStatsSupported newPortStats p) := by
  unfold conditionFn
  unfold QueueLookupsDefined at hdef
  induction originalPortStats with
  | nil => exact ⟨false, rfl, by simp⟩
  | cons p rest ih =>
    obtain ⟨b, hb, hiff⟩ := ih fun p' hp' => hdef p' (List.mem_cons_of_mem _ hp')
    have hex : (∃ p' ∈ p :: rest, PortIncremented queueStatsSupported newPortStats p') ↔
        PortIncremented queueStatsSupported newPortStats p ∨ b = true := by
      rw [hiff]
      constructor
      · rintro ⟨p', hp', h⟩
        rcases List.mem_cons.mp hp' with rfl | hp'
        · exact Or.inl h
        · exact Or.inr ⟨p', hp', h⟩
      · rintro (h | ⟨p', hp', h⟩)
        · exact ⟨p, List.mem_cons_self _ _, h⟩
        · exact ⟨p', List.mem_cons_of_mem _ hp', h⟩
    rw [hex]
    have hskip : ¬ PortIncremented queueStatsSupported newPortStats p →
        conditionFnLoop queueStatsSupported newPortStats (p :: rest) = some b →
        ∃ b', conditionFnLoop queueStatsSupported newPortStats (p :: rest) = some b' ∧
          (b' = true ↔ PortIncremented queueStatsSupported newPortStats p ∨ b = true) :=
      fun hnp hl => ⟨b, hl, ⟨fun h => Or.inr h, fun h => h.resolve_left hnp⟩⟩
    have hhit : PortIncremented queueStatsSupported newPortStats p →
        conditionFnLoop queueStatsSupported newPortStats (p :: rest) = some true →
        ∃ b', conditionFnLoop queueStatsSupported newPortStats (p :: rest) = some b' ∧
          (b' = true ↔ PortIncremented queueStatsSupported newPortStats p ∨ b = true) :=
      fun hp hl => ⟨true, hl, ⟨fun _ => Or.inl hp, fun _ => rfl⟩⟩
    obtain ⟨portId, portStat⟩ := p
    cases hf : Table.find portId newPortStats with
    | none =>
      refine hskip ?_ (by simp only [conditionFnLoop, hf, hb])
      rintro ⟨nst, h1, -⟩
      simp only at h1
      rw [hf] at h1
      cases h1
    | some nst =>
      by_cases hgt : nst.outBytes_ > portStat.outBytes_
      · cases hs : queueStatsSupported with
        | false =>
          subst hs
          refine hhit ⟨nst, hf, hgt, fun h => (by cases h)⟩ ?_
          simp [conditionFnLoop, hf, hgt]
        | true =>
          subst hs
          obtain ⟨bq, hbq, hbqiff⟩ := anyQueueIncrement_of_defined nst.queueOutBytes_
            portStat.queueOutBytes_
            (hdef (portId, portStat) (List.mem_cons_self _ _) nst hf)
          cases bq with
          | true =>
            refine hhit ⟨nst, hf, hgt, fun _ => hbqiff.mp rfl⟩ ?_
            simp [conditionFnLoop, hf, hgt, hbq]
          | false =>
            refine hskip ?_ (by simp [conditionFnLoop, hf, hgt, hbq, hb])
            rintro ⟨nst', h1, -, h3⟩
            simp only at h1 h3
            rw [hf] at h1
            cases h1
            have := hbqiff.mpr (h3 trivial)
            cases this
      · refine hskip ?_ (by simp only [conditionFnLoop, hf, hgt, if_false, hb])
        rintro ⟨nst', h1, h2, -⟩
        simp only at h1 h2
        rw [hf] at h1
        cases h1
        exact hgt h2

/-- C24, at an input on which the code goes wrong: the original snapshot has
the port 1 with the queue 5; the new snapshot has the port 1 with more
`outBytes` and no queue at all; queue stats are supported. The lambda looks the
queue 5 up in the new snapshot and dereferences `end()`: the condition has no
defined value. With the port missing from the new snapshot, a case that the
code tests for, the condition is false. -/
theorem conditionFn_undefined_lookup :
    conditionFn [(1, { outBytes_ := 0, queueOutBytes_ := [(5, 0)] })] true
      [(1, { outBytes_ := 10, queueOutBytes_ := [] })] = none ∧
    ¬ QueueLookupsDefined [(1, { outBytes_ := 0, queueOutBytes_ := [(5, 0)] })]
      [(1, { outBytes_ := 10, queueOutBytes_ := [] })] ∧
    conditionFn [(1, { outBytes_ := 0, queueOutBytes_ := [(5, 0)] })] true [] = some false := by
  refine ⟨by decide, ?_, by decide⟩
  intro h
  have := h (1, { outBytes_ := 0, queueOutBytes_ := [(5, 0)] }) (List.mem_cons_self _ _)
    { outBytes_ := 10, queueOutBytes_ := [] } rfl (5, 0) (List.mem_cons_self _ _)
  simp [Table.find] at this

end HwTestUtils

/-! ## Port configuration of a port group -/

namespace StdAlgorithm

theorem removeIfLoop_spec {α : Type} (pred : α → Bool) (orig : List α) (n first result : Nat)
    (cur : List α) (hn : first + n = orig.length) (hlt : result < first)
    (hlen : cur.length = orig.length) (hdrop : cur.drop first = orig.drop first)
    (htake : cur.take result = (orig.take first).filter fun x => !pred x) :
    (removeIfLoop pred n first result cur).1.take (removeIfLoop pred n first result cur).2 =
      orig.filter fun x => !pred x := by
  induction n generalizing first result cur with
  | zero =>
    simp only [removeIfLoop]
    rw [htake, List.take_of_length_le (by omega)]
  | succ n ih =>
    have hfl : first < orig.length := by omega
    have hx : cur[first]? = some orig[first] := by
      have h1 : (cur.drop first)[0]? = (orig.drop first)[0]? := by rw [hdrop]
      simpa [List.getElem?_drop, List.getElem?_eq_getElem hfl] using h1
    have hdrop1 : ∀ l : List α, l.drop (first + 1) = (l.drop first).drop 1 := by
      intro l; rw [List.drop_drop, Nat.add_comm]
    have htk : orig.take (first + 1) = orig.take first ++ [orig[first]] := by
      rw [List.take_succ, List.getElem?_eq_getElem hfl]; rfl
    simp only [removeIfLoop, hx]
    by_cases hp : pred orig[first] = true
    · simp only [hp, Bool.not_true, Bool.false_eq_true, if_false]
      refine ih (first + 1) result cur (by omega) (by omega) hlen ?_ ?_
      · rw [hdrop1 cur, hdrop1 orig, hdrop]
      · rw [htake, htk, List.filter_append]
        simp [hp]
    · have hp' : pred orig[first] = false := by simpa using hp
      simp only [hp', Bool.not_false, if_true]
      refine ih (first + 1) (result + 1) (cur.set result orig[first]) (by omega) (by omega)
        (by simp [hlen]) ?_ ?_
      · rw [List.drop_set_of_lt _ _ (by omega), hdrop1 cur, hdrop1 orig, hdrop]
      · have hrl : result < cur.length := by omega
        rw [List.take_succ, List.set_take,
          List.set_eq_of_length_le (by simp [List.length_take]), htake, htk,
          List.filter_append, List.getElem?_set_self hrl]
        simp [hp']

/-- `std::remove_if` followed by `erase` to the end leaves the elements that
do not satisfy the predicate, in their order. -/
theorem removeIf_take {α : Type} (pred : α → Bool) (xs : List α) :
    (removeIf pred xs).1.take (removeIf pred xs).2 = xs.filter fun x => !pred x := by
  unfold removeIf
  by_cases hf : xs.findIdx pred = xs.length
  · simp only [hf, if_true, List.take_length]
    symm
    rw [List.filter_eq_self]
    intro x hx
    simp [List.findIdx_eq_length.mp hf x hx]
  · simp only [hf, if_false]
    have hlt : xs.findIdx pred < xs.length :=
      lt_of_le_of_ne (List.findIdx_le_length pred) hf
    refine removeIfLoop_spec pred xs _ _ _ xs (by omega) (by omega) rfl rfl ?_
    have hpre : ∀ ys : List α, ys.findIdx pred < ys.length →
        ys.take (ys.findIdx pred) =
          (ys.take (ys.findIdx pred + 1)).filter fun x => !pred x := by
      intro ys
      induction ys with
      | nil => intro h; simp at h
      | cons y ys ih =>
        intro h
        rw [List.findIdx_cons] at h ⊢
        cases hy : pred y with
        | true => simp [hy]
        | false =>
          simp only [hy, cond_false, List.length_cons, Nat.add_lt_add_iff_right] at h ⊢
          simp only [List.take_succ_cons, List.filter_cons, hy, Bool.not_false, if_true]
          exact congrArg _ (ih h)
    exact hpre xs hlt

end StdAlgorithm

namespace SaiPortUtils

theorem notInGroup_eq (toPortID : Int → PortID) (allPortsinGroup : List PortID)
    (portCfg : CfgPort) :
    notInGroup toPortID allPortsinGroup portCfg =
      !decide (toPortID portCfg.logicalID ∈ allPortsinGroup) := by
  unfold notInGroup
  simp only
  induction allPortsinGroup with
  | nil => simp [notInGroup.go]
  | cons id rest ih =>
    simp only [notInGroup.go, ih, List.mem_cons]
    by_cases h : toPortID portCfg.logicalID = id
    · simp [h]
    · simp [h]

/-- C22. `cleanPortConfig` keeps exactly the ports of the group: afterwards
the ports of the config are the entries of the original list whose logical ID,
as a `PortID`, occurs in `allPortsinGroup`, in their original order; so they
are a subsequence of the original list, every entry whose logical ID is not in
the group is gone and every other entry is there; with an empty group no port
is left. -/
theorem cleanPortConfig_ports (toPortID : Int → PortID) (config : SwitchConfig)
    (allPortsinGroup : List PortID) :
    (cleanPortConfig toPortID config allPortsinGroup).ports =
      config.ports.filter (fun p => decide (toPortID p.logicalID ∈ allPortsinGroup)) ∧
    (cleanPortConfig toPortID config allPortsinGroup).ports.Sublist config.ports ∧
    (∀ p, p ∈ (cleanPortConfig toPortID config allPortsinGroup).ports ↔
      p ∈ config.ports ∧ toPortID p.logicalID ∈ allPortsinGroup) ∧
    (allPortsinGroup = [] → (cleanPortConfig toPortID config allPortsinGroup).ports = []) := by
  have h : (cleanPortConfig toPortID config allPortsinGroup).ports =
      config.ports.filter (fun p => decide (toPortID p.logicalID ∈ allPortsinGroup)) := by
    unfold cleanPortConfig
    simp only
    rw [StdAlgorithm.removeIf_take]
    congr 1
    funext p
    rw [notInGroup_eq]
    simp
  refine ⟨h, ?_, fun p => ?_, fun he => ?_⟩
  · rw [h]; exact List.filter_sublist _
  · rw [h, List.mem_filter]; simp
  · rw [h, he]; simp

end SaiPortUtils

/-! ## Lane rates -/

namespace StdMap

theorem insert_perm {κ ν : Type} {lt : κ → κ → Bool} (ho : StrictTotal lt) (e : κ × ν)
    (m : List (κ × ν)) (hk : e.1 ∉ m.map Prod.fst) : (insert lt e m).Perm (e :: m) := by
  induction m with
  | nil => simp [insert]
  | cons x xs ih =>
    simp only [List.map_cons, List.mem_cons, not_or] at hk
    simp only [insert]
    cases h1 : lt e.1 x.1 with
    | true => simp
    | false =>
      cases h2 : lt x.1 e.1 with
      | true =>
        simp only [Bool.false_eq_true, if_false, if_true]
        exact ((ih hk.2).cons x).trans (List.Perm.swap e x xs)
      | false => exact absurd (ho.tricho _ _ h1 h2) hk.1

theorem insert_sorted {κ ν : Type} {lt : κ → κ → Bool} (ho : StrictTotal lt) (e : κ × ν)
    (m : List (κ × ν)) (hk : e.1 ∉ m.map Prod.fst) (hs : Sorted lt m) :
    Sorted lt (insert lt e m) := by
  induction m with
  | nil => simp [insert, Sorted]
  | cons x xs ih =>
    have hk' := hk
    simp only [List.map_cons, List.mem_cons, not_or] at hk'
    have hs' := hs
    simp only [Sorted, List.pairwise_cons] at hs'
    simp only [insert]
    cases h1 : lt e.1 x.1 with
    | true =>
      simp only [if_true, Sorted, List.pairwise_cons]
      refine ⟨fun y hy => ?_, hs'⟩
      rcases List.mem_cons.mp hy with hy | hy
      · rw [hy]; exact h1
      · exact ho.trans _ _ _ h1 (hs'.1 y hy)
    | false =>
      cases h2 : lt x.1 e.1 with
      | true =>
        simp only [Bool.false_eq_true, if_false, if_true, Sorted, List.pairwise_cons]
        refine ⟨fun y hy => ?_, ih hk'.2 hs'.2⟩
        rcases List.mem_cons.mp ((insert_perm ho e xs hk'.2).subset hy) with hy | hy
        · rw [hy]; exact h2
        · exact hs'.1 y hy
      | false => exact absurd (ho.tricho _ _ h1 h2) hk'.1

theorem ofList_spec {κ ν : Type} {lt : κ → κ → Bool} (ho : StrictTotal lt)
    (entries : List (κ × ν)) (hnd : (entries.map Prod.fst).Nodup) :
    (ofList lt entries).Perm entries ∧ Sorted lt (ofList lt entries) := by
  have key : ∀ (l m : List (κ × ν)), ((l ++ m).map Prod.fst).Nodup → Sorted lt m →
      (l.foldl (fun m e => insert lt e m) m).Perm (l ++ m) ∧
        Sorted lt (l.foldl (fun m e => insert lt e m) m) := by
    intro l
    induction l with
    | nil => intro m _ hs; exact ⟨List.Perm.refl _, hs⟩
    | cons e l ih =>
      intro m hnd hs
      simp only [List.cons_append, List.map_cons, List.nodup_cons, List.map_append,
        List.mem_append, not_or] at hnd
      have hp := insert_perm ho e m hnd.1.2
      have hnd2 : ((l ++ insert lt e m).map Prod.fst).Nodup := by
        have hp2 : ((l ++ insert lt e m).map Prod.fst).Perm
            (e.1 :: (l.map Prod.fst ++ m.map Prod.fst)) := by
          rw [List.map_append]
          refine ((hp.map Prod.fst).append_left _).trans ?_
          simp only [List.map_cons]
          exact List.perm_middle
        rw [hp2.nodup_iff, List.nodup_cons]
        exact ⟨by simp only [List.mem_append, not_or]; exact hnd.1, hnd.2⟩
      obtain ⟨h1, h2⟩ := ih (insert lt e m) hnd2 (insert_sorted ho e m hnd.1.2 hs)
      refine ⟨?_, h2⟩
      simp only [List.foldl_cons]
      refine h1.trans ((hp.append_left l).trans ?_)
      exact List.perm_middle
  have h := key entries [] (by simpa using hnd) (by simp [Sorted])
  simpa [ofList] using h

theorem find_sorted {κ ν : Type} {lt : κ → κ → Bool} (ho : StrictTotal lt) (k : κ) (v : ν)
    (m : List (κ × ν)) (hs : Sorted lt m) : find lt k m = some v ↔ (k, v) ∈ m := by
  induction m with
  | nil => simp [find]
  | cons x xs ih =>
    simp only [Sorted, List.pairwise_cons] at hs
    have hx : ∀ v', (k, v') ∈ xs → lt x.1 k = true := fun v' h => hs.1 _ h
    simp only [find, List.mem_cons]
    cases h1 : lt x.1 k with
    | true =>
      simp only [if_true]
      rw [ih hs.2]
      refine ⟨Or.inr, fun h => h.resolve_left fun he => ?_⟩
      rw [← he] at h1
      simp [ho.irrefl] at h1
    | false =>
      have hnot : (k, v) ∉ xs := fun h => by simp [hx v h] at h1
      cases h2 : lt k x.1 with
      | true =>
        simp only [Bool.false_eq_true, if_false, if_true]
        constructor
        · intro he
          cases he
        · intro h
          rcases h with h | h
          · rw [← h] at h2
            simp [ho.irrefl] at h2
          · exact absurd h hnot
      | false =>
        have hk : x.1 = k := ho.tricho _ _ h1 h2
        simp only [Bool.false_eq_true, if_false, Option.some.injEq]
        constructor
        · intro hv
          exact Or.inl (Prod.ext hk.symm hv.symm)
        · intro h
          rcases h with h | h
          · rw [← h]
          · exact absurd h hnot

end StdMap

theorem LaneRateMapKey.lt_iff (a b : LaneRateMapKey) :
    a.lt b = true ↔ a.speed_ < b.speed_ ∨ (a.speed_ = b.speed_ ∧
      (a.numLanes_ < b.numLanes_ ∨ (a.numLanes_ = b.numLanes_ ∧ a.fecType_ < b.fecType_))) := by
  unfold LaneRateMapKey.lt
  by_cases h1 : a.speed_ = b.speed_
  · by_cases h2 : a.numLanes_ = b.numLanes_
    · simp [h1, h2]
    · simp [h1, h2]
  · simp [h1]

theorem LaneRateMapKey.strictTotal : StdMap.StrictTotal LaneRateMapKey.lt := by
  refine ⟨fun a => ?_, fun a b c h1 h2 => ?_, fun a b h1 h2 => ?_⟩
  · rw [Bool.eq_false_iff, ne_eq, LaneRateMapKey.lt_iff]; omega
  · rw [LaneRateMapKey.lt_iff] at h1 h2 ⊢; omega
  · rw [Bool.eq_false_iff, ne_eq, LaneRateMapKey.lt_iff] at h1 h2
    cases a; cases b
    simp only [LaneRateMapKey.mk.injEq] at h1 h2 ⊢
    omega

theorem kLaneRateMapEntries_nodup (fec : BcmPortPhyFec) (hfec : fec.Distinct) :
    ((kLaneRateMapEntries fec).map Prod.fst).Nodup := by
  simp only [BcmPortPhyFec.Distinct, List.nodup_cons, List.mem_cons, List.mem_singleton,
    not_or, List.not_mem_nil, not_false_eq_true, List.nodup_nil, and_true] at hfec
  obtain ⟨⟨h12, h13, h14, h15, h16⟩, ⟨h23, h24, h25, h26⟩, ⟨h34, h35, h36⟩, ⟨h45, h46⟩, h56⟩ :=
    hfec
  simp [kLaneRateMapEntries, LaneRateMapKey.mk.injEq, h12, h13, h14, h15, h16, h23, h24, h25,
    h26, h34, h35, h36, h45, h46, h56, Ne.symm h12, Ne.symm h13, Ne.symm h14, Ne.symm h15,
    Ne.symm h16, Ne.symm h23, Ne.symm h24, Ne.symm h25, Ne.symm h26, Ne.symm h34, Ne.symm h35,
    Ne.symm h36, Ne.symm h45, Ne.symm h46, Ne.symm h56]

/-- C30. `LaneRateMapKey::operator<` is the lexicographic order on speed,
number of lanes and FEC type; it is irreflexive and transitive, and of `a < b`,
`b < a` and the equality of all three components exactly one holds. When the
six FEC enumerators have different values, the 29 entries of the initializer
list of `kLaneRateMap` have pairwise different keys, the map has 29 entries,
and a lookup finds a value exactly for a key whose three components are those
of an entry of the list, namely the value of that entry. -/
theorem laneRateMapKey_strict_total (fec : BcmPortPhyFec) (hfec : fec.Distinct) :
    (∀ a b : LaneRateMapKey, a.lt b = true ↔
      a.speed_ < b.speed_ ∨ (a.speed_ = b.speed_ ∧
        (a.numLanes_ < b.numLanes_ ∨
          (a.numLanes_ = b.numLanes_ ∧ a.fecType_ < b.fecType_)))) ∧
    (∀ a : LaneRateMapKey, a.lt a = false) ∧
    (∀ a b c : LaneRateMapKey, a.lt b = true → b.lt c = true → a.lt c = true) ∧
    (∀ a b : LaneRateMapKey,
      (a.lt b = true ∧ b.lt a = false ∧
        ¬ (a.speed_ = b.speed_ ∧ a.numLanes_ = b.numLanes_ ∧ a.fecType_ = b.fecType_)) ∨
      (a.lt b = false ∧ b.lt a = true ∧
        ¬ (a.speed_ = b.speed_ ∧ a.numLanes_ = b.numLanes_ ∧ a.fecType_ = b.fecType_)) ∨
      (a.lt b = false ∧ b.lt a = false ∧
        a.speed_ = b.speed_ ∧ a.numLanes_ = b.numLanes_ ∧ a.fecType_ = b.fecType_)) ∧
    (kLaneRateMapEntries fec).length = 29 ∧
    ((kLaneRateMapEntries fec).map Prod.fst).Nodup ∧
    (kLaneRateMap fec).length = 29 ∧
    (∀ k v, StdMap.find LaneRateMapKey.lt k (kLaneRateMap fec) = some v ↔
      (k, v) ∈ kLaneRateMapEntries fec) ∧
    (∀ k, (StdMap.find LaneRateMapKey.lt k (kLaneRateMap fec)).isSome = true ↔
      ∃ e ∈ kLaneRateMapEntries fec,
        e.1.speed_ = k.speed_ ∧ e.1.numLanes_ = k.numLanes_ ∧ e.1.fecType_ = k.fecType_) := by
  have ho := LaneRateMapKey.strictTotal
  have hnd := kLaneRateMapEntries_nodup fec hfec
  obtain ⟨hperm, hsorted⟩ := StdMap.ofList_spec ho (kLaneRateMapEntries fec) hnd
  have hfind : ∀ k v, StdMap.find LaneRateMapKey.lt k (kLaneRateMap fec) = some v ↔
      (k, v) ∈ kLaneRateMapEntries fec := fun k v =>
    (StdMap.find_sorted ho k v _ hsorted).trans hperm.mem_iff
  refine ⟨LaneRateMapKey.lt_iff, ho.irrefl, ho.trans, fun a b => ?_, rfl, hnd, ?_, hfind,
    fun k => ?_⟩
  · have e1 : ∀ x y : LaneRateMapKey, x.lt y = false ↔ ¬ (x.speed_ < y.speed_ ∨
        (x.speed_ = y.speed_ ∧ (x.numLanes_ < y.numLanes_ ∨
          (x.numLanes_ = y.numLanes_ ∧ x.fecType_ < y.fecType_)))) := fun x y => by
      rw [Bool.eq_false_iff, ne_eq, LaneRateMapKey.lt_iff]
    simp only [e1, LaneRateMapKey.lt_iff]
    omega
  · exact hperm.length_eq
  · rw [Option.isSome_iff_exists]
    constructor
    · rintro ⟨v, hv⟩
      exact ⟨(k, v), (hfind k v).mp hv, rfl, rfl, rfl⟩
    · rintro ⟨⟨k', v⟩, he, h1, h2, h3⟩
      have hk : k' = k := by
        cases k'; cases k
        simp only [LaneRateMapKey.mk.injEq]
        exact ⟨h1, h2, h3⟩
      exact ⟨v, (hfind k v).mpr (hk ▸ he)⟩

theorem laneRateMapKey_strict_total_witness :
    sampleFec.Distinct ∧
    StdMap.find LaneRateMapKey.lt ⟨100000, 4, 3⟩ (kLaneRateMap sampleFec) = some 26.5625 ∧
    StdMap.find LaneRateMapKey.lt ⟨100000, 4, 4⟩ (kLaneRateMap sampleFec) = none := by
  have h := laneRateMapKey_strict_total sampleFec (by decide)
  refine ⟨by decide, (h.2.2.2.2.2.2.2.1 _ _).mpr (by simp [kLaneRateMapEntries, sampleFec]), ?_⟩
  rw [← Option.not_isSome_iff_eq_none, h.2.2.2.2.2.2.2.2]
  simp [kLaneRateMapEntries, sampleFec]

/-! ## Adapter host keys of next hop groups -/

namespace Folly

theorem digitChar_spec : ∀ m, m < 10 → (Nat.digitChar m).isDigit = true ∧
    (Nat.digitChar m).toNat - '0'.toNat = m ∧ Nat.digitChar m ≠ '-' := by
  decide

theorem toDigitsCore_spec : ∀ fuel n ds, n < fuel →
    ∃ l, Nat.toDigitsCore 10 fuel n ds = l ++ ds ∧ l ≠ [] ∧
      (∀ c ∈ l, c.isDigit = true) ∧ (∀ c ∈ l, c ≠ '-') ∧
      l.foldl (fun n c => n * 10 + (c.toNat - '0'.toNat)) 0 = n := by
  intro fuel
  induction fuel with
  | zero => intro n ds h; omega
  | succ fuel ih =>
    intro n ds h
    have hd := digitChar_spec (n % 10) (Nat.mod_lt _ (by decide))
    simp only [Nat.toDigitsCore]
    by_cases h0 : n / 10 = 0
    · refine ⟨[Nat.digitChar (n % 10)], by simp [h0], by simp, by simpa using hd.1,
        by simpa using hd.2.2, ?_⟩
      simp only [List.foldl, hd.2.1]
      omega
    · obtain ⟨l, hl, hne, hdig, hneg, hfold⟩ :=
        ih (n / 10) (Nat.digitChar (n % 10) :: ds) (by omega)
      refine ⟨l ++ [Nat.digitChar (n % 10)], by simp [h0, hl], by simp, ?_, ?_, ?_⟩
      · intro c hc
        rcases List.mem_append.mp hc with hc | hc
        · exact hdig c hc
        · simp at hc; rw [hc]; exact hd.1
      · intro c hc
        rcases List.mem_append.mp hc with hc | hc
        · exact hneg c hc
        · simp at hc; rw [hc]; exact hd.2.2
      · rw [List.foldl_append, hfold]
        simp only [List.foldl, hd.2.1]
        omega

/-- The decimal text of a natural number: digits, at least one, whose value is
the number. -/
theorem toString_nat_data (n : Nat) : ∃ l, toString n = ⟨l⟩ ∧ l ≠ [] ∧
    (∀ c ∈ l, c.isDigit = true) ∧ (∀ c ∈ l, c ≠ '-') ∧
    l.foldl (fun n c => n * 10 + (c.toNat - '0'.toNat)) 0 = n := by
  obtain ⟨l, hl, h⟩ := toDigitsCore_spec (n + 1) n [] (by omega)
  refine ⟨l, ?_, h⟩
  show Nat.repr n = _
  simp [Nat.repr, Nat.toDigits, hl, List.asString]

theorem toNat_toString (n : Nat) : (toString n).toNat? = some n := by
  obtain ⟨l, hl, hne, hdig, _, hfold⟩ := toString_nat_data n
  rw [hl]
  have h1 : String.isNat ⟨l⟩ = true := by
    simp only [String.isNat, String.all_eq, Bool.and_eq_true, Bool.not_eq_true',
      List.all_eq_true]
    refine ⟨?_, hdig⟩
    cases hb : String.isEmpty ⟨l⟩ with
    | false => rfl
    | true =>
      have h2 := (String.isEmpty_iff _).mp hb
      exact absurd (congrArg String.data h2) hne
  simp only [String.toNat?, h1, if_true, String.foldl_eq, hfold]

theorem toInt_toString (n : Nat) : (toString n).toInt? = some (n : Int) := by
  obtain ⟨l, hl, hne, hdig, hneg, hfold⟩ := toString_nat_data n
  have h := toNat_toString n
  have hg : (toString n).get 0 ≠ '-' := by
    rw [hl]
    cases l with
    | nil => exact absurd rfl hne
    | cons c cs =>
      have : (String.mk (c :: cs)).get 0 = c := rfl
      rw [this]; exact hneg c (by simp)
  simp only [String.toInt?, hg, if_false, h]
  rfl

theorem asInt_toString (n : Nat) (h : n < 9223372036854775808) :
    dynamic.asInt (.string (toString n)) = .ok (n : Int) := by
  simp only [dynamic.asInt, toInt_toString]
  rw [if_pos (by omega)]

theorem toObjectId_toString (n : Nat) (h : n < 18446744073709551616) :
    toObjectId (toString n) = .ok n := by
  simp only [toObjectId, toNat_toString, h, if_true]

end Folly

namespace SaiNextHopGroup

theorem decodeLabels_map (labels : List Nat) (stack : List Nat)
    (h : ∀ label ∈ labels, label < 4294967296) :
    decodeLabels (labels.map fun label => .string (toString label)) stack =
      .ok (stack ++ labels) := by
  induction labels generalizing stack with
  | nil => simp [decodeLabels]
  | cons label rest ih =>
    have hl := h label (by simp)
    simp only [List.map_cons, decodeLabels, Folly.asInt_toString label (by omega)]
    rw [ih _ (fun l hm => h l (by simp [hm]))]
    have : ((label : Int) % 4294967296).toNat = label := by omega
    simp [this]

theorem pushLabels_spec (name : String) (labels : List Nat) :
    ∀ (object : Table String Folly.dynamic) (acc : List Folly.dynamic),
      Table.find name object = some (.array acc) →
      ∃ object', pushLabels name labels object = .ok object' ∧
        Table.find name object' =
          some (.array (acc ++ labels.map fun label => .string (toString label))) ∧
        ∀ n, n ≠ name → Table.find n object' = Table.find n object := by
  induction labels with
  | nil => intro object acc h; exact ⟨object, rfl, by simpa using h, fun _ _ => rfl⟩
  | cons label rest ih =>
    intro object acc h
    simp only [pushLabels, h, Option.getD_some, Folly.dynamic.push_back]
    obtain ⟨object', h1, h2, h3⟩ := ih
      (Table.assign name (.array (acc ++ [.string (toString label)])) object)
      (acc ++ [.string (toString label)]) (by rw [Table.find_assign]; simp)
    refine ⟨object', h1, by simpa using h2, fun n hn => ?_⟩
    rw [h3 n hn, Table.find_assign, if_neg hn]

/-- One element of the key is read back from the object that is made for it. -/
theorem decodeObject_encodeKey {IPAddress : Type} (names : AttributeNames)
    (str : IPAddress → String) (ipAddress : String → Option IPAddress)
    (ahk : NextHopKey IPAddress) (hnames : names.Distinct)
    (hip : ipAddress (str ahk.ipAddress) = some ahk.ipAddress) (hr : ahk.InRange) :
    ∃ object, encodeKey names str ahk = .ok object ∧
      decodeObject names ipAddress object = .ok ahk := by
  obtain ⟨h1, h2⟩ := hnames
  simp only [List.nodup_cons, List.mem_cons, List.mem_singleton, not_or, List.not_mem_nil,
    not_false_eq_true, List.nodup_nil, and_true] at h1 h2
  obtain ⟨⟨a1, a2⟩, a3⟩ := h1
  obtain ⟨⟨b1, b2, b3⟩, ⟨b4, b5⟩, b6⟩ := h2
  cases ahk with
  | ip ipAhk =>
    simp only [NextHopKey.ipAddress] at hip
    simp only [NextHopKey.InRange, NextHopKey.routerInterfaceId] at hr
    refine ⟨_, rfl, ?_⟩
    simp only [decodeObject, Folly.dynamic.index, Table.find_assign, NextHopKey.index,
      bind, Except.bind, pure, Except.pure, a1, a2, a3, Ne.symm a1, Ne.symm a2, Ne.symm a3,
      if_true, if_false, Option.getD_some, Folly.asInt_toString 0 (by decide),
      Folly.dynamic.asString, Folly.toObjectId_toString _ hr.1, makeIPAddress, hip]
    rfl
  | mpls mplsAhk =>
    simp only [NextHopKey.ipAddress] at hip
    simp only [NextHopKey.InRange, NextHopKey.routerInterfaceId, NextHopKey.labels] at hr
    obtain ⟨object', p1, p2, p3⟩ := pushLabels_spec names.mplsLabelStack mplsAhk.labelStack
      (Table.assign names.mplsLabelStack (.array [])
        (Table.assign names.mplsIp (.string (str mplsAhk.ip))
          (Table.assign names.mplsRouterInterfaceId
            (.string (toString mplsAhk.routerInterfaceId))
            (Table.assign names.type
              (.string (toString (NextHopKey.mpls mplsAhk).index)) []))))
      [] (by rw [Table.find_assign]; simp)
    refine ⟨.object object', by simp only [encodeKey, p1], ?_⟩
    have q1 := p3 names.type b3
    have q2 := p3 names.mplsRouterInterfaceId b5
    have q3 := p3 names.mplsIp b6
    simp only [Table.find_assign, b1, b2, b3, b4, b5, b6, Ne.symm b1, Ne.symm b2,
      Ne.symm b3, Ne.symm b4, Ne.symm b5, Ne.symm b6, if_true, if_false,
      NextHopKey.index] at q1 q2 q3
    simp only [decodeObject, Folly.dynamic.index, q1, q2, q3, p2, bind, Except.bind, pure,
      Except.pure, Option.getD_some, Folly.asInt_toString 1 (by decide),
      Folly.dynamic.asString, Folly.toObjectId_toString _ hr.1, makeIPAddress, hip,
      Folly.dynamic.elements, List.nil_append, decodeLabels_map _ [] hr.2]
    rfl

theorem encodeLoop_spec {IPAddress : Type} [DecidableEq IPAddress] (names : AttributeNames)
    (str : IPAddress → String) (ipAddress : String → Option IPAddress)
    (hnames : names.Distinct) (k : List (NextHopKey IPAddress)) :
    ∀ json : List Folly.dynamic,
      (∀ ahk ∈ k, ipAddress (str ahk.ipAddress) = some ahk.ipAddress) →
      (∀ ahk ∈ k, ahk.InRange) →
      ∃ objects, encodeLoop names str k json = .ok (json ++ objects) ∧
        ∀ key, decodeLoop names ipAddress objects key = .ok (key ∪ k.toFinset) := by
  induction k with
  | nil =>
    intro json _ _
    exact ⟨[], by simp [encodeLoop], fun key => by simp [decodeLoop]⟩
  | cons ahk rest ih =>
    intro json hip hr
    obtain ⟨object, e1, e2⟩ := decodeObject_encodeKey names str ipAddress ahk hnames
      (hip ahk (by simp)) (hr ahk (by simp))
    obtain ⟨objects, f1, f2⟩ := ih (json ++ [object])
      (fun x hx => hip x (by simp [hx])) (fun x hx => hr x (by simp [hx]))
    refine ⟨object :: objects, ?_, fun key => ?_⟩
    · simp only [encodeLoop, e1, f1]
      simp
    · simp only [decodeLoop, e2, f2, List.toFinset_cons]
      congr 1
      ext x
      simp only [Finset.mem_union, Finset.mem_insert]
      tauto

/-- C27. Round trip of the adapter host key of a next hop group: when the
attribute names of one kind of next hop are different, the router interface
IDs and labels of the key are in the range of their types, and the text of each
IP address of the key makes that address again, `adapterHostKeyToFollyDynamic`
returns a value from which `follyDynamicToAdapterHostKey` returns the set of
the elements of the key, with the label stacks as they were. The type tag that
is written for an element, the decimal text of its variant index, is read back
as the next hop type of its alternative. -/
theorem nextHopGroup_key_round_trip {IPAddress : Type} [DecidableEq IPAddress]
    (names : AttributeNames) (str : IPAddress → String)
    (ipAddress : String → Option IPAddress) (k : List (NextHopKey IPAddress))
    (hnames : names.Distinct)
    (hip : ∀ ahk ∈ k, ipAddress (str ahk.ipAddress) = some ahk.ipAddress)
    (hrange : ∀ ahk ∈ k, ahk.InRange) :
    (∃ json, adapterHostKeyToFollyDynamic names str k = .ok json ∧
      follyDynamicToAdapterHostKey names ipAddress json = .ok k.toFinset) ∧
    (∀ ahk : NextHopKey IPAddress,
      Folly.dynamic.asInt (.string (toString ahk.index)) = .ok ahk.saiType) := by
  constructor
  · obtain ⟨objects, h1, h2⟩ := encodeLoop_spec names str ipAddress hnames k [] hip hrange
    refine ⟨.array objects, ?_, ?_⟩
    · simp only [adapterHostKeyToFollyDynamic, h1, List.nil_append]
    · simp only [follyDynamicToAdapterHostKey, Folly.dynamic.elements, h2]
      simp
  · intro ahk
    cases ahk with
    | ip _ => exact Folly.asInt_toString 0 (by decide)
    | mpls _ => exact Folly.asInt_toString 1 (by decide)

theorem nextHopGroup_key_round_trip_witness :
    sampleNames.Distinct ∧
    (∃ json, adapterHostKeyToFollyDynamic sampleNames id sampleKey = .ok json ∧
      follyDynamicToAdapterHostKey sampleNames some json = .ok sampleKey.toFinset) :=
  ⟨by decide,
    (nextHopGroup_key_round_trip sampleNames id some sampleKey (by decide)
      (fun _ _ => rfl) (by simp [sampleKey, NextHopKey.InRange, NextHopKey.routerInterfaceId,
        NextHopKey.labels])).1⟩

end SaiNextHopGroup

end Fboss
